import Mathlib

/-!
# Faculty-Generator-System: slot layout, assignment engine and controllers

A shallow embedding of `calculateSchedule` and its helpers `parseTime` and
`formatTime` from `server/client/src/pages/TimetableView.jsx`, of the
controllers `generateTimetableForDepartment`, `getTimetableByDepartment`,
`addFaculty` and `updateFaculty` of `server/controllers`, of the availability
grid (`convertSlotsToAvailability`, `handleEdit`) of
`server/client/src/pages/FacultyManagement.jsx`, and of the assignment engine
as the specification describes it, followed by the properties that the
specification states.

## Modelling conventions

* A JavaScript number is a `JSNum`: either `NaN` or an integer. Every number
  the layout code handles is built from integer literals by `+`, `-`, `*`,
  `Math.min`, `Math.floor(_ / 60)` and `% 60`, so the integer fragment is closed
  under the code; fractional values, infinities and `-0` are outside the model.
  Comparisons with `NaN` are false, arithmetic with `NaN` is `NaN`.
* `periodDuration` and `numberOfPeriods` are integers (the settings contract
  declares them `int`); they may be zero or negative.
* `Number(str)` is modelled on optionally signed decimal integer literals and
  on the empty string; every other string is mapped to `NaN` (literals with a
  fraction, an exponent, a radix prefix, `Infinity`, or padded with white space
  are outside the model).
* A schedule block records the minute values that the code passes to
  `formatTime`; the `startTime` / `endTime` strings of the JavaScript object are
  obtained from them by `ScheduleItem.startTime` / `ScheduleItem.endTime`.
* The `while` loop is a structurally recursive function on a fuel argument;
  `calculateSchedule` supplies `enabledBreaks.length + numberOfPeriods + 1`
  units, and `scheduleLoop_fuel_irrelevant` shows the loop never runs out:
  any larger amount of fuel gives the same schedule.
* Integers are unbounded: the loss of precision of JavaScript numbers above
  `2 ^ 53` is outside the model.
-/

namespace TimetableView

/-! ## JavaScript numbers -/

/-- A JavaScript number of the integer fragment, or `NaN`. -/
inductive JSNum where
  | nan : JSNum
  | num (v : Int) : JSNum
  deriving DecidableEq, Repr

namespace JSNum

/-- JavaScript `a + b`. -/
def add : JSNum → JSNum → JSNum
  | num a, num b => num (a + b)
  | _, _ => nan

/-- JavaScript `a - b`. -/
def sub : JSNum → JSNum → JSNum
  | num a, num b => num (a - b)
  | _, _ => nan

/-- JavaScript `a * b`. -/
def mul : JSNum → JSNum → JSNum
  | num a, num b => num (a * b)
  | _, _ => nan

/-- JavaScript `a < b`: false as soon as one side is `NaN`. -/
def lt : JSNum → JSNum → Bool
  | num a, num b => decide (a < b)
  | _, _ => false

/-- JavaScript `a >= b`: false as soon as one side is `NaN`. -/
def ge : JSNum → JSNum → Bool
  | num a, num b => decide (b ≤ a)
  | _, _ => false

/-- JavaScript `a > b`: false as soon as one side is `NaN`. -/
def gt : JSNum → JSNum → Bool
  | num a, num b => decide (b < a)
  | _, _ => false

/-- JavaScript `Math.min(a, b)`: `NaN` as soon as one argument is `NaN`. -/
def min : JSNum → JSNum → JSNum
  | num a, num b => num (Min.min a b)
  | _, _ => nan

/-- JavaScript `a !== b` on numbers: `NaN` differs from everything. -/
def strictNe : JSNum → JSNum → Bool
  | num a, num b => decide (a ≠ b)
  | _, _ => true

/-- JavaScript `a === b` on numbers: `NaN` equals nothing. -/
def strictEq : JSNum → JSNum → Bool
  | num a, num b => decide (a = b)
  | _, _ => false

end JSNum

/-! ## Strings -/

/-- JavaScript `str.split(sep)` for a one-character separator, on the list of
characters: the pieces between the occurrences of `sep`, never an empty list. -/
def splitChar (sep : Char) : List Char → List (List Char)
  | [] => [[]]
  | c :: cs =>
    if c = sep then [] :: splitChar sep cs
    else
      match splitChar sep cs with
      | [] => [[c]]
      | piece :: pieces => (c :: piece) :: pieces

/-- Value of a decimal digit character, `none` for any other character. -/
def digitValue (c : Char) : Option Nat :=
  if c.toNat < 48 then none
  else if c.toNat ≤ 57 then some (c.toNat - 48)
  else none

/-- Value of a non-empty run of decimal digits read after the accumulator
`acc`; `none` when a character is not a digit. -/
def digitsValue : Nat → List Char → Option Nat
  | acc, [] => some acc
  | acc, c :: cs =>
    match digitValue c with
    | none => none
    | some d => digitsValue (acc * 10 + d) cs

/-- JavaScript `Number(str)` on the integer fragment: the empty string is `0`,
an optionally signed run of decimal digits is its value, anything else `NaN`. -/
def toNumber : List Char → JSNum
  | [] => JSNum.num 0
  | '-' :: c :: cs =>
    match digitsValue 0 (c :: cs) with
    | some n => JSNum.num (-(n : Int))
    | none => JSNum.nan
  | '+' :: c :: cs =>
    match digitsValue 0 (c :: cs) with
    | some n => JSNum.num (n : Int)
    | none => JSNum.nan
  | c :: cs =>
    match digitsValue 0 (c :: cs) with
    | some n => JSNum.num (n : Int)
    | none => JSNum.nan

/-- JavaScript `str.padStart(2, '0')`. -/
def padStart2 (s : String) : String :=
  if s.length < 2 then String.mk (List.replicate (2 - s.length) '0') ++ s else s

/-! ## `parseTime` and `formatTime` -/

/-- The function `parseTime` of `TimetableView.jsx`:
`const [time, period] = timeStr.split(' ')`,
`let [hours, minutes] = time.split(':').map(Number)`, the two AM/PM
adjustments, and `hours * 60 + minutes`. A piece missing from a destructured
array is `undefined`: `period` is then neither `'PM'` nor `'AM'`, and
`hours * 60 + undefined` is `NaN`. -/
def parseTime (timeStr : String) : JSNum :=
  let parts := splitChar ' ' timeStr.data
  let time : List Char := parts.headD []
  let period : Option (List Char) := parts.tail.head?
  let fields := (splitChar ':' time).map toNumber
  let hours : JSNum := fields.headD JSNum.nan
  let minutes : Option JSNum := fields.tail.head?
  let hours :=
    if period = some ['P', 'M'] && hours.strictNe (JSNum.num 12) then hours.add (JSNum.num 12)
    else hours
  let hours :=
    if period = some ['A', 'M'] && hours.strictEq (JSNum.num 12) then JSNum.num 0
    else hours
  match minutes with
  | some m => (hours.mul (JSNum.num 60)).add m
  | none => JSNum.nan

/-- The function `formatTime` of `TimetableView.jsx`. `Math.floor(minutes / 60)`
is floor division and `%` is the truncating remainder; on `NaN` every
comparison fails and both numbers print as `NaN`. -/
def formatTime : JSNum → String
  | JSNum.nan => "NaN:NaN AM"
  | JSNum.num minutes =>
    let hours := Int.fdiv minutes 60
    let mins := Int.tmod minutes 60
    let period := if 12 ≤ hours then "PM" else "AM"
    let hours := if 12 < hours then hours - 12 else hours
    let hours := if hours = 0 then 12 else hours
    toString hours ++ ":" ++ padStart2 (toString mins) ++ " " ++ period

/-- A field that `Number` maps to `NaN` whatever follows its first character:
it starts with an ASCII letter other than `I`. A string that `Number` converts
to a number starts, after white space, with a digit, a sign, a point or the
`I` of `Infinity`. -/
def startsWithLetter : List Char → Bool
  | [] => false
  | c :: _ =>
    ((65 ≤ c.toNat && c.toNat ≤ 90) || (97 ≤ c.toNat && c.toNat ≤ 122)) && c != 'I'

/-- Time strings on which `parseTime` gives `NaN`: the part before the first
space has no `:`, so that `minutes` is `undefined`, or its hour field or its
minute field starts with an ASCII letter other than `I`. -/
def malformedTime (timeStr : String) : Bool :=
  let time : List Char := (splitChar ' ' timeStr.data).headD []
  let fields := splitChar ':' time
  decide (fields.length < 2) || startsWithLetter (fields.headD []) ||
    startsWithLetter (fields.tail.headD [])

/-! ## Settings and schedule blocks -/

/-- One entry of `settings.breakTimes`. -/
structure BreakTime where
  name : String
  startTime : String
  endTime : String
  enabled : Bool
  deriving DecidableEq, Repr

/-- The object `settings.workingHours`. -/
structure WorkingHours where
  startTime : String
  endTime : String
  deriving DecidableEq, Repr

/-- The settings object handed to `calculateSchedule`. -/
structure Settings where
  workingHours : WorkingHours
  periodDuration : Int
  numberOfPeriods : Int
  breakTimes : List BreakTime
  deriving DecidableEq, Repr

/-- An element of the local array `enabledBreaks`: an enabled break with its
times converted to minutes. -/
structure EnabledBreak where
  name : String
  startMinutes : JSNum
  endMinutes : JSNum
  deriving DecidableEq, Repr

/-- An object pushed on `schedule`. The minute values are the arguments the
code gives to `formatTime` for the `startTime` and `endTime` fields. -/
inductive ScheduleItem where
  | period (periodNumber : Int) (startMinutes endMinutes duration : JSNum) : ScheduleItem
  | breakBlock (name : String) (startMinutes endMinutes duration : JSNum) : ScheduleItem
  deriving DecidableEq, Repr

namespace ScheduleItem

/-- Minute value behind the field `startTime`. -/
def startMinutes : ScheduleItem → JSNum
  | period _ s _ _ => s
  | breakBlock _ s _ _ => s

/-- Minute value behind the field `endTime`. -/
def endMinutes : ScheduleItem → JSNum
  | period _ _ e _ => e
  | breakBlock _ _ e _ => e

/-- The field `duration`. -/
def duration : ScheduleItem → JSNum
  | period _ _ _ d => d
  | breakBlock _ _ _ d => d

/-- The field `startTime`. -/
def startTime (b : ScheduleItem) : String := formatTime b.startMinutes

/-- The field `endTime`. -/
def endTime (b : ScheduleItem) : String := formatTime b.endMinutes

/-- Test `item.type === 'period'`. -/
def isPeriod : ScheduleItem → Bool
  | period _ _ _ _ => true
  | breakBlock _ _ _ _ => false

/-- Test `item.type === 'break'`. -/
def isBreak : ScheduleItem → Bool
  | period _ _ _ _ => false
  | breakBlock _ _ _ _ => true

/-- The field `periodNumber` of a period block. -/
def periodNumber? : ScheduleItem → Option Int
  | period n _ _ _ => some n
  | breakBlock _ _ _ _ => none

end ScheduleItem

/-! ## `calculateSchedule` -/

/-- The `.map` callback of `calculateSchedule`: name and parsed times. -/
def toEnabledBreak (b : BreakTime) : EnabledBreak :=
  { name := b.name
    startMinutes := parseTime b.startTime
    endMinutes := parseTime b.endTime }

/-- The comparator `(a, b) => a.startMinutes - b.startMinutes`. -/
def compareBreaks (a b : EnabledBreak) : JSNum := a.startMinutes.sub b.startMinutes

/-- The order the comparator induces: `a` may stay before `b` unless the
comparator is positive (a `NaN` comparator counts as zero). -/
def breakOrder (a b : EnabledBreak) : Prop :=
  (compareBreaks a b).gt (JSNum.num 0) = false

instance : DecidableRel breakOrder := fun a b =>
  inferInstanceAs (Decidable ((compareBreaks a b).gt (JSNum.num 0) = false))

/-- The call `.sort(comparator)`: a stable sort, here insertion sort. When no
start time is `NaN` the comparator is consistent and the result is the one
every stable sort produces. -/
def sortBreaks (l : List EnabledBreak) : List EnabledBreak :=
  l.insertionSort breakOrder

/-- The array `enabledBreaks` as first computed: filter, map, sort. -/
def enabledBreaksOf (settings : Settings) : List EnabledBreak :=
  sortBreaks ((settings.breakTimes.filter (fun b => b.enabled)).map toEnabledBreak)

/-- The test of the `for` loop: the break starts at or after `currentTime` and
before `currentTime + periodDuration`. -/
def interrupts (currentTime : JSNum) (periodDuration : Int) (breakItem : EnabledBreak) : Bool :=
  breakItem.startMinutes.ge currentTime &&
    breakItem.startMinutes.lt (currentTime.add (JSNum.num periodDuration))

/-- The `while` loop of `calculateSchedule`, from the state
`(currentTime, periodNumber, enabledBreaks)`; the result lists the objects
pushed on `schedule` from this iteration on. The `for` loop is `find?`, and
`indexOf` followed by `splice` removes the element found, which is the first
one passing the test: `eraseP`. With no fuel left the result is empty. -/
def scheduleLoop (endMinutes : JSNum) (periodDuration numberOfPeriods : Int) :
    Nat → JSNum → Int → List EnabledBreak → List ScheduleItem
  | 0, _, _, _ => []
  | fuel + 1, currentTime, periodNumber, enabledBreaks =>
    if currentTime.lt endMinutes && decide (periodNumber ≤ numberOfPeriods) then
      match enabledBreaks.find? (interrupts currentTime periodDuration) with
      | some breakToInsert =>
        let timeBeforeBreak := breakToInsert.startMinutes.sub currentTime
        let breakBlock := ScheduleItem.breakBlock breakToInsert.name
          breakToInsert.startMinutes breakToInsert.endMinutes
          (breakToInsert.endMinutes.sub breakToInsert.startMinutes)
        let remaining := enabledBreaks.eraseP (interrupts currentTime periodDuration)
        if timeBeforeBreak.ge (JSNum.num 20) && decide (periodNumber ≤ numberOfPeriods) then
          ScheduleItem.period periodNumber currentTime breakToInsert.startMinutes timeBeforeBreak
            :: breakBlock
            :: scheduleLoop endMinutes periodDuration numberOfPeriods fuel
                breakToInsert.endMinutes (periodNumber + 1) remaining
        else
          breakBlock
            :: scheduleLoop endMinutes periodDuration numberOfPeriods fuel
                breakToInsert.endMinutes periodNumber remaining
      | none =>
        let periodEnd := (currentTime.add (JSNum.num periodDuration)).min endMinutes
        if periodEnd.gt currentTime && decide (periodNumber ≤ numberOfPeriods) then
          ScheduleItem.period periodNumber currentTime periodEnd (periodEnd.sub currentTime)
            :: scheduleLoop endMinutes periodDuration numberOfPeriods fuel
                periodEnd (periodNumber + 1) enabledBreaks
        else []
    else []

/-- Fuel that suffices for the loop started with `enabledBreaks` and
`periodNumber = 1`: every iteration that does not exit removes a break or
increments `periodNumber`. -/
def loopFuel (numberOfPeriods : Int) (enabledBreaks : List EnabledBreak) : Nat :=
  enabledBreaks.length + numberOfPeriods.toNat + 1

/-- The function `calculateSchedule` of `TimetableView.jsx`. -/
def calculateSchedule (settings : Settings) : List ScheduleItem :=
  let startMinutes := parseTime settings.workingHours.startTime
  let endMinutes := parseTime settings.workingHours.endTime
  let periodDuration := settings.periodDuration
  let numberOfPeriods := settings.numberOfPeriods
  let enabledBreaks := enabledBreaksOf settings
  scheduleLoop endMinutes periodDuration numberOfPeriods
    (loopFuel numberOfPeriods enabledBreaks) startMinutes 1 enabledBreaks

/-! ## Closed form of a run without breaks -/

/-- Closed form of the block at index `i` (from 0) of a run without breaks
started at minute `cur` with period number `pn`. -/
def noBreakBlock (we pd cur pn : Int) (i : Nat) : ScheduleItem :=
  ScheduleItem.period (pn + i) (JSNum.num (cur + i * pd))
    (JSNum.num (min (cur + (i + 1) * pd) we))
    (JSNum.num (min (cur + (i + 1) * pd) we - (cur + i * pd)))

/-! ## Inputs used as examples and counterexamples -/

/-- The settings of the worked example: 9:00 AM to 1:00 PM, 60-minute
periods, four periods, lunch from 11:00 AM to 11:30 AM. -/
def exampleSettings : Settings :=
  { workingHours := { startTime := "9:00 AM", endTime := "1:00 PM" }
    periodDuration := 60
    numberOfPeriods := 4
    breakTimes := [{ name := "Lunch", startTime := "11:00 AM", endTime := "11:30 AM",
                     enabled := true }] }

/-- Settings without breaks whose window is not a multiple of the period:
9:00 AM to 10:30 AM, 60-minute periods, four periods requested. -/
def shortWindowSettings : Settings :=
  { workingHours := { startTime := "9:00 AM", endTime := "10:30 AM" }
    periodDuration := 60
    numberOfPeriods := 4
    breakTimes := [] }

/-- Settings requesting a negative number of periods: 9:00 AM to 1:00 PM,
60-minute periods, `numberOfPeriods = -1`, no breaks. -/
def negativePeriodsSettings : Settings :=
  { workingHours := { startTime := "9:00 AM", endTime := "1:00 PM" }
    periodDuration := 60
    numberOfPeriods := -1
    breakTimes := [] }

/-- The worked example without its break: 9:00 AM to 1:00 PM, 60-minute
periods, four periods, no breaks. -/
def plainSettings : Settings :=
  { workingHours := { startTime := "9:00 AM", endTime := "1:00 PM" }
    periodDuration := 60
    numberOfPeriods := 4
    breakTimes := [] }

/-- An enabled break from 9:10 AM to 12:50 PM, strictly inside the window of
`plainSettings` and longer than three periods. -/
def longBreak : BreakTime :=
  { name := "Assembly", startTime := "9:10 AM", endTime := "12:50 PM", enabled := true }

/-- The lunch break of the worked example. -/
def lunchBreak : BreakTime :=
  { name := "Lunch", startTime := "11:00 AM", endTime := "11:30 AM", enabled := true }

/-- One requested period and an enabled break late in the window: 9:00 AM to
1:00 PM, 60-minute periods, lunch from 12:00 PM to 12:30 PM. -/
def lateBreakSettings : Settings :=
  { workingHours := { startTime := "9:00 AM", endTime := "1:00 PM" }
    periodDuration := 60
    numberOfPeriods := 1
    breakTimes := [{ name := "Lunch", startTime := "12:00 PM", endTime := "12:30 PM",
                     enabled := true }] }

/-- A break that starts after the end of the working window but less than one
period after the start of the last period: 9:00 AM to 12:30 PM, 60-minute
periods, four periods, lunch from 12:45 PM to 1:15 PM. -/
def lateLeadInSettings : Settings :=
  { workingHours := { startTime := "9:00 AM", endTime := "12:30 PM" }
    periodDuration := 60
    numberOfPeriods := 4
    breakTimes := [{ name := "Lunch", startTime := "12:45 PM", endTime := "1:15 PM",
                     enabled := true }] }

/-- Settings whose working-hours start time is not a clock time. -/
def malformedStartSettings : Settings :=
  { workingHours := { startTime := "abc", endTime := "1:00 PM" }
    periodDuration := 60
    numberOfPeriods := 4
    breakTimes := [] }

/-- The worked example with one more period requested than fits: 9:00 AM to
1:00 PM, 60-minute periods, five periods, lunch from 11:00 AM to 11:30 AM. -/
def sparePeriodSettings : Settings :=
  { workingHours := { startTime := "9:00 AM", endTime := "1:00 PM" }
    periodDuration := 60
    numberOfPeriods := 5
    breakTimes := [{ name := "Lunch", startTime := "11:00 AM", endTime := "11:30 AM",
                     enabled := true }] }

/-- The worked example with the start time written without AM or PM. -/
def noPeriodStartSettings : Settings :=
  { workingHours := { startTime := "9:00", endTime := "1:00 PM" }
    periodDuration := 60
    numberOfPeriods := 4
    breakTimes := [] }

/-- The worked example with a break whose start time is not a time. -/
def malformedBreakSettings : Settings :=
  { workingHours := { startTime := "9:00 AM", endTime := "1:00 PM" }
    periodDuration := 60
    numberOfPeriods := 4
    breakTimes := [{ name := "Lunch", startTime := "noon", endTime := "12:30 PM",
                     enabled := true }] }

/-- Settings with a break that starts inside an earlier break: Assembly from
10:00 AM to 11:00 AM and Tea from 10:30 AM to 10:45 AM. -/
def nestedBreakSettings : Settings :=
  { workingHours := { startTime := "9:00 AM", endTime := "1:00 PM" }
    periodDuration := 60
    numberOfPeriods := 4
    breakTimes := [{ name := "Assembly", startTime := "10:00 AM", endTime := "11:00 AM",
                     enabled := true },
                   { name := "Tea", startTime := "10:30 AM", endTime := "10:45 AM",
                     enabled := true }] }

/-! ## Further definitions used in the statements -/

/-- The wall-clock string `h:mm AM` or `h:mm PM` of the settings format: the
hour without padding, the minute padded to two digits, then the period. -/
def clockString (h m : Nat) (period : String) : String :=
  toString h ++ ":" ++ padStart2 (toString m) ++ " " ++ period

/-- The Break block the loop pushes for a pending break. -/
def breakBlockOf (b : EnabledBreak) : ScheduleItem :=
  ScheduleItem.breakBlock b.name b.startMinutes b.endMinutes
    (b.endMinutes.sub b.startMinutes)

/-- The pending break behind a Break block, `none` for a Period block. -/
def ScheduleItem.break? : ScheduleItem → Option EnabledBreak
  | ScheduleItem.period _ _ _ _ => none
  | ScheduleItem.breakBlock name s e _ => some { name := name, startMinutes := s, endMinutes := e }

/-- The breaks behind the Break blocks of a schedule, in output order. -/
def breaksOf (schedule : List ScheduleItem) : List EnabledBreak :=
  schedule.filterMap ScheduleItem.break?

/-- Number of times the body of the `while` loop of `calculateSchedule` is
executed from the state `(currentTime, periodNumber, enabledBreaks)`: same
tests and same state changes as `scheduleLoop`; an iteration that ends in the
`break` statement counts. `none` when the fuel runs out before the loop
exits. -/
def loopIterations (endMinutes : JSNum) (periodDuration numberOfPeriods : Int) :
    Nat → JSNum → Int → List EnabledBreak → Option Nat
  | 0, _, _, _ => none
  | fuel + 1, currentTime, periodNumber, enabledBreaks =>
    if currentTime.lt endMinutes && decide (periodNumber ≤ numberOfPeriods) then
      match enabledBreaks.find? (interrupts currentTime periodDuration) with
      | some breakToInsert =>
        let timeBeforeBreak := breakToInsert.startMinutes.sub currentTime
        let remaining := enabledBreaks.eraseP (interrupts currentTime periodDuration)
        if timeBeforeBreak.ge (JSNum.num 20) && decide (periodNumber ≤ numberOfPeriods) then
          (loopIterations endMinutes periodDuration numberOfPeriods fuel
            breakToInsert.endMinutes (periodNumber + 1) remaining).map (fun k => k + 1)
        else
          (loopIterations endMinutes periodDuration numberOfPeriods fuel
            breakToInsert.endMinutes periodNumber remaining).map (fun k => k + 1)
      | none =>
        let periodEnd := (currentTime.add (JSNum.num periodDuration)).min endMinutes
        if periodEnd.gt currentTime && decide (periodNumber ≤ numberOfPeriods) then
          (loopIterations endMinutes periodDuration numberOfPeriods fuel
            periodEnd (periodNumber + 1) enabledBreaks).map (fun k => k + 1)
        else some 1
    else some 0

/-- A break wholly before the working window: 9:00 AM to 1:00 PM, 60-minute
periods, four periods, assembly from 8:00 AM to 8:30 AM. -/
def earlyBreakSettings : Settings :=
  { workingHours := { startTime := "9:00 AM", endTime := "1:00 PM" }
    periodDuration := 60
    numberOfPeriods := 4
    breakTimes := [{ name := "Assembly", startTime := "8:00 AM", endTime := "8:30 AM",
                     enabled := true }] }

/-- A break that starts inside the working window and ends after it. -/
def labBreak : BreakTime :=
  { name := "Lab", startTime := "12:30 PM", endTime := "2:00 PM", enabled := true }

/-- The window 9:00 AM to 1:00 PM, 60-minute periods, four periods, with
`labBreak` as only break. -/
def overrunBreakSettings : Settings :=
  { workingHours := { startTime := "9:00 AM", endTime := "1:00 PM" }
    periodDuration := 60
    numberOfPeriods := 4
    breakTimes := [labBreak] }

/-- Two enabled breaks, the later one ending before it starts: 9:00 AM to
1:00 PM, 60-minute periods, four periods. -/
def backwardBreakSettings : Settings :=
  { workingHours := { startTime := "9:00 AM", endTime := "1:00 PM" }
    periodDuration := 60
    numberOfPeriods := 4
    breakTimes :=
      [ { name := "Early", startTime := "8:30 AM", endTime := "8:45 AM", enabled := true },
        { name := "Back", startTime := "9:00 AM", endTime := "8:00 AM", enabled := true } ] }

/-- A break half an hour after the start of the window. -/
def teaBreak : BreakTime :=
  { name := "Tea", startTime := "9:30 AM", endTime := "9:45 AM", enabled := true }

/-- The window 9:00 AM to 1:00 PM, 60-minute periods, four periods, with
`teaBreak` as only break. -/
def teaBreakSettings : Settings :=
  { workingHours := { startTime := "9:00 AM", endTime := "1:00 PM" }
    periodDuration := 60
    numberOfPeriods := 4
    breakTimes := [teaBreak] }

/-- The hour shown for minute `m` of the day: 12 for the hours 0 and 12. -/
def clockHour (m : Nat) : Nat := if m / 60 % 12 = 0 then 12 else m / 60 % 12

/-- The period shown for minute `m` of the day. -/
def clockPeriod (m : Nat) : String := if 12 ≤ m / 60 then "PM" else "AM"

end TimetableView

/-! # The server: data model

`server/models/Faculty.js`, `server/models/Timetable.js` and the two
controllers of `server/controllers`. A MongoDB collection is the list of its
documents in insertion order; `findOne` returns the first match. The strings
`message` and `error` of a reply, the timestamps and `console.log` are not
modelled. The controllers run one at a time.
-/

namespace Server

/-- A MongoDB ObjectId, as the string that prints it. -/
abbrev ObjectId := String

/-- The reply of a controller: the HTTP status and the fields `success` and
`data` of the JSON body. -/
structure Response (α : Type) where
  status : Nat
  success : Bool
  data : Option α
  deriving DecidableEq, Repr

/-- Rewrites the first element of a list that passes the test `p`: the effect
of saving the document a `findOne` has returned. -/
def updateFirst {α : Type} (p : α → Bool) (f : α → α) : List α → List α
  | [] => []
  | x :: xs => if p x then f x :: xs else x :: updateFirst p f xs

/-- The schema `availabilitySchema` of `Faculty.js`: a day and the period
numbers of that day. -/
structure AvailabilityEntry where
  day : String
  periods : List Int
  deriving DecidableEq, Repr

end Server

/-! # The assignment engine -/

namespace AssignmentEngine

open Server

/-- Modelled from the spec: an element of the faculty roster (section 6); the
generator `utils/timetableGenerator` and the roster it reads are absent from
the sources. -/
structure RosterEntry where
  id : String
  name : String
  subjectCode : String
  subjectName : String
  departmentId : String
  availability : List AvailabilityEntry
  deriving DecidableEq, Repr

/-- Modelled from the spec: the slot of a timetable cell (section 3), given the
absence of `utils/timetableGenerator`. -/
structure Slot where
  subjectName : String
  facultyName : String
  facultyId : String
  deriving DecidableEq, Repr

/-- Modelled from the spec: a cell of the timetable `day → periodNumber →
Slot | empty` (section 3), given the absence of `utils/timetableGenerator`. -/
structure Cell where
  day : String
  periodNumber : Int
  slot : Option Slot
  deriving DecidableEq, Repr

/-- Modelled from the spec: a timetable, as the list of its cells in day order
then period order (section 4.2), given the absence of
`utils/timetableGenerator`. -/
abbrev Timetable := List Cell

/-- An occupancy key `(facultyId, day, periodNumber)`. -/
abbrev OccupancyKey := String × String × Int

/-- The constant `DAYS` of the client pages: the fixed five-day week. -/
def DAYS : List String := ["Monday", "Tuesday", "Wednesday", "Thursday", "Friday"]

/-- Modelled from the spec: the availability of a faculty member includes the
cell `(day, periodNumber)` (section 4.2, step 2a); `utils/timetableGenerator`
is absent from the sources. -/
def isAvailable (f : RosterEntry) (day : String) (periodNumber : Int) : Bool :=
  f.availability.any (fun a => a.day == day && a.periods.contains periodNumber)

/-- Modelled from the spec: the cells to fill, every day of the week and every
period number of a Period block of the schedule, in day order then period
order (section 4.2); `utils/timetableGenerator` is absent from the sources. -/
def cellsOf (schedule : List TimetableView.ScheduleItem) : List (String × Int) :=
  DAYS.flatMap (fun day =>
    (schedule.filterMap TimetableView.ScheduleItem.periodNumber?).map (fun p => (day, p)))

/-- Modelled from the spec: step 2 of the algorithm of section 4.2, absent from
the sources with `utils/timetableGenerator`. For each cell in turn, the first
faculty member of the filtered roster who is available in the cell and whose
key `(facultyId, day, periodNumber)` is not in the occupancy set is assigned
and the key is added to the set; with no candidate the cell stays empty. The
result is the grid and the occupancy set at the end. -/
def fillCells (filtered : List RosterEntry) :
    List (String × Int) → List OccupancyKey → Timetable × List OccupancyKey
  | [], occupied => ([], occupied)
  | (day, p) :: cells, occupied =>
    match filtered.find? (fun f => isAvailable f day p && !occupied.contains (f.id, day, p)) with
    | some f =>
      let rest := fillCells filtered cells ((f.id, day, p) :: occupied)
      ({ day := day, periodNumber := p,
         slot := some { subjectName := f.subjectName, facultyName := f.name,
                        facultyId := f.id } } :: rest.1, rest.2)
    | none =>
      let rest := fillCells filtered cells occupied
      ({ day := day, periodNumber := p, slot := none } :: rest.1, rest.2)

/-- Modelled from the spec: the contract `generate` of section 4.2 with the
occupancy set of the run made explicit (section 9); `utils/timetableGenerator`
is absent from the sources. The roster is filtered to the target department;
an empty filtered roster gives `NotFound` (`none`). -/
def generateWith (occupied : List OccupancyKey) (departmentId : String)
    (roster : List RosterEntry) (schedule : List TimetableView.ScheduleItem) :
    Option Timetable × List OccupancyKey :=
  let filtered := roster.filter (fun f => f.departmentId == departmentId)
  if filtered.isEmpty then (none, occupied)
  else
    let filled := fillCells filtered (cellsOf schedule) occupied
    (some filled.1, filled.2)

/-- Modelled from the spec: `generate(departmentId, facultyRoster,
scheduleBlocks)` of section 4.2, a run for one department that starts with an
empty occupancy set; `utils/timetableGenerator` is absent from the sources. -/
def generate (departmentId : String) (roster : List RosterEntry)
    (schedule : List TimetableView.ScheduleItem) : Option Timetable :=
  (generateWith [] departmentId roster schedule).1

/-- Two timetables book the same faculty member in the same `(day,
periodNumber)` cell. -/
def SharesBooking (t1 t2 : Timetable) : Prop :=
  ∃ c1 ∈ t1, ∃ c2 ∈ t2, c1.day = c2.day ∧ c1.periodNumber = c2.periodNumber ∧
    ∃ s1 s2 : Slot, c1.slot = some s1 ∧ c2.slot = some s2 ∧ s1.facultyId = s2.facultyId

/-- A roster that lists the faculty member `f1` under two departments, free on
Monday period 1 in both. -/
def sharedRoster : List RosterEntry :=
  [ { id := "f1", name := "Ada", subjectCode := "CS101", subjectName := "Programming",
      departmentId := "cs", availability := [{ day := "Monday", periods := [1] }] },
    { id := "f1", name := "Ada", subjectCode := "MA101", subjectName := "Algebra",
      departmentId := "math", availability := [{ day := "Monday", periods := [1] }] } ]

/-- A roster that lists the faculty member `f1` under two departments, on
Monday period 1 for one and on Monday period 2 for the other. -/
def splitRoster : List RosterEntry :=
  [ { id := "f1", name := "Ada", subjectCode := "CS101", subjectName := "Programming",
      departmentId := "cs", availability := [{ day := "Monday", periods := [1] }] },
    { id := "f1", name := "Ada", subjectCode := "MA101", subjectName := "Algebra",
      departmentId := "math", availability := [{ day := "Monday", periods := [2] }] } ]

end AssignmentEngine

/-! # The timetable controller -/

namespace TimetableController

open Server

/-- A document of the collection `Timetable` (`Timetable.js`): the department
and the generated grid, both required. -/
structure TimetableDoc where
  _id : ObjectId
  department : ObjectId
  timetable : AssignmentEngine.Timetable
  deriving DecidableEq, Repr

/-- What the call `await generateTimetable(actualDeptId)` does: it throws, or
it returns a falsy value (`none`) or a timetable. -/
inductive GeneratorOutcome where
  | threw : GeneratorOutcome
  | returned (timetable : Option AssignmentEngine.Timetable) : GeneratorOutcome
  deriving DecidableEq, Repr

/-- What a request to the timetable controller depends on and the sources do
not contain, taken as parameters: `parsedId str` is `some id` when
`JSON.parse(str)` succeeds and the value has a truthy `_id`, which is `id`;
`generateTimetable` is the generator `utils/timetableGenerator`, which reads
the faculty and, following the spec, does not write the collection
`Timetable`; `castObjectId` is the cast Mongoose applies to a department id in
a query, `none` when it raises a `CastError`; `newId` is the `_id` Mongoose
gives to a created document. -/
structure Env where
  parsedId : String → Option String
  generateTimetable : String → GeneratorOutcome
  castObjectId : String → Option ObjectId
  newId : ObjectId

/-- The value `actualDeptId`: the `_id` of the parsed object when there is one,
the query value itself otherwise (lines 24-37). -/
def actualDeptId (env : Env) (departmentId : String) : String :=
  match env.parsedId departmentId with
  | some id => id
  | none => departmentId

/-- The controller `generateTimetableForDepartment` of
`timetableController.js`, on the query value `departmentId` (`none` when the
parameter is missing) and the collection `Timetable`; it returns the reply and
the collection afterwards. An exception ends in the `catch` block: status
500, nothing written. -/
def generateTimetableForDepartment (env : Env) (departmentId : Option String)
    (store : List TimetableDoc) : Response TimetableDoc × List TimetableDoc :=
  match departmentId with
  | none => ({ status := 400, success := false, data := none }, store)
  | some departmentId =>
    if departmentId = "" then ({ status := 400, success := false, data := none }, store)
    else
      match env.generateTimetable (actualDeptId env departmentId) with
      | GeneratorOutcome.threw => ({ status := 500, success := false, data := none }, store)
      | GeneratorOutcome.returned none =>
        ({ status := 404, success := false, data := none }, store)
      | GeneratorOutcome.returned (some generatedTimetable) =>
        match env.castObjectId (actualDeptId env departmentId) with
        | none => ({ status := 500, success := false, data := none }, store)
        | some dept =>
          match store.find? (fun doc => doc.department == dept) with
          | some timetableDoc =>
            let saved := { timetableDoc with timetable := generatedTimetable }
            ({ status := 200, success := true, data := some saved },
              updateFirst (fun doc => doc.department == dept) (fun _ => saved) store)
          | none =>
            if store.any (fun doc => doc._id == env.newId) then
              ({ status := 500, success := false, data := none }, store)
            else
              let created : TimetableDoc :=
                { _id := env.newId, department := dept, timetable := generatedTimetable }
              ({ status := 200, success := true, data := some created }, store ++ [created])

/-- A one-cell timetable used as example. -/
def exampleTimetable : AssignmentEngine.Timetable :=
  [{ day := "Monday", periodNumber := 1,
     slot := some { subjectName := "Programming", facultyName := "Ada", facultyId := "f1" } }]

/-- An environment used as example: plain ids, every string a valid ObjectId,
a generator that knows the department `cs` only. -/
def exampleEnv : Env :=
  { parsedId := fun _ => none
    generateTimetable := fun d =>
      if d = "cs" then GeneratorOutcome.returned (some exampleTimetable)
      else GeneratorOutcome.returned none
    castObjectId := fun d => some d
    newId := "t1" }

/-- A stored timetable document of another department. -/
def mathDoc : TimetableDoc :=
  { _id := "t0", department := "math", timetable := [] }

/-- The controller `getTimetableByDepartment` of `timetableController.js`, on
the query value `departmentId` and the collection `Timetable`. The query value
is given to `findOne` as it is; a `CastError` ends in the `catch` block with
status 500. `populate('department')` does not change the timetable and is not
modelled. -/
def getTimetableByDepartment (env : Env) (departmentId : Option String)
    (store : List TimetableDoc) : Response TimetableDoc :=
  match departmentId with
  | none => { status := 400, success := false, data := none }
  | some departmentId =>
    if departmentId = "" then { status := 400, success := false, data := none }
    else
      match env.castObjectId departmentId with
      | none => { status := 500, success := false, data := none }
      | some dept =>
        match store.find? (fun doc => doc.department == dept) with
        | none => { status := 404, success := false, data := none }
        | some timetable => { status := 200, success := true, data := some timetable }

/-- A hexadecimal digit. -/
def isHexDigit (c : Char) : Bool :=
  (48 ≤ c.toNat && c.toNat ≤ 57) || (97 ≤ c.toNat && c.toNat ≤ 102) ||
    (65 ≤ c.toNat && c.toNat ≤ 70)

/-- The id of a department, 24 hexadecimal digits. -/
def csDepartmentId : String := "64b7f0c2a1b2c3d4e5f60718"

/-- The department `csDepartmentId` as the serialized object
`{"_id":"64b7f0c2a1b2c3d4e5f60718"}`. -/
def serializedDepartment : String := "\x7b\"_id\":\"64b7f0c2a1b2c3d4e5f60718\"\x7d"

/-- An environment for the serialized query value: `JSON.parse` finds the
`_id` of `serializedDepartment` and fails on `csDepartmentId`, which is not
JSON; a string casts to an ObjectId when it is 24 hexadecimal digits; the
generator knows the department `csDepartmentId`. -/
def serializedEnv : Env :=
  { parsedId := fun s => if s = serializedDepartment then some csDepartmentId else none
    generateTimetable := fun d =>
      if d = csDepartmentId then GeneratorOutcome.returned (some exampleTimetable)
      else GeneratorOutcome.returned none
    castObjectId := fun s => if s.length = 24 && s.data.all isHexDigit then some s else none
    newId := "64b7f0c2a1b2c3d4e5f60799" }

end TimetableController

/-! # The faculty controller -/

namespace FacultyController

open Server

/-- Modelled from the spec: a document of the collection `Subject`, whose
model `models/Subject` is absent from the sources, after
`populate("department")`: a subject has a code and belongs to one department
(section 3). `department` is the `_id` of the populated department, `none`
when the reference does not resolve. -/
structure Subject where
  _id : ObjectId
  code : String
  department : Option ObjectId
  deriving DecidableEq, Repr

/-- A document of the collection `Faculty` (`facultySchema` of `Faculty.js`). -/
structure FacultyDoc where
  _id : ObjectId
  name : String
  subject : ObjectId
  department : ObjectId
  availability : List AvailabilityEntry
  deriving DecidableEq, Repr

/-- The JSON body of a request: the three fields the controllers read, each
possibly missing, and a `department` field standing for whatever else the
client sends. -/
structure Body where
  name : Option String
  subjectCode : Option String
  availability : Option (List AvailabilityEntry)
  department : Option String
  deriving DecidableEq, Repr

/-- What a request to the faculty controller depends on besides the
collection `Faculty`: the collection `Subject`, the cast Mongoose applies to
the `:id` parameter (`none` when it raises a `CastError`), and the `_id`
Mongoose gives to a created document. -/
structure Env where
  subjects : List Subject
  castObjectId : String → Option ObjectId
  newId : ObjectId

/-- White space in the sense of JavaScript `trim`. -/
def isWhiteSpace (c : Char) : Bool :=
  c.toNat ∈ [0x9, 0xA, 0xB, 0xC, 0xD, 0x20, 0xA0, 0x1680, 0x2000, 0x2001, 0x2002, 0x2003,
    0x2004, 0x2005, 0x2006, 0x2007, 0x2008, 0x2009, 0x200A, 0x2028, 0x2029, 0x202F, 0x205F,
    0x3000, 0xFEFF]

/-- JavaScript `str.trim()`, the setter `trim: true` of the field `name`. -/
def jsTrim (s : String) : String :=
  String.mk ((s.data.dropWhile isWhiteSpace).reverse.dropWhile isWhiteSpace).reverse

/-- The validation of `facultySchema` on the fields a controller submits: the
trimmed `name` is required, so not empty, and every availability entry needs
a non-empty `day`. `subject` and `department` are set by the controller;
`periods` is `[Number]` with no `min`, `max` or validator, and a required
array passes whatever it holds. -/
def validates (name : String) (availability : List AvailabilityEntry) : Bool :=
  jsTrim name != "" && availability.all (fun a => a.day != "")

/-- The controller `addFaculty` of `facultyController.js`, on the request body
and the collection `Faculty`; it returns the reply and the collection
afterwards. A `TypeError` on `subjectDoc.department._id`, a validation error
and a duplicate `_id` end in the `catch` block: status 500, nothing stored. -/
def addFaculty (env : Env) (body : Body) (store : List FacultyDoc) :
    Response FacultyDoc × List FacultyDoc :=
  match body.name, body.subjectCode, body.availability with
  | some name, some subjectCode, some availability =>
    if name = "" || subjectCode = "" || availability.length = 0 then
      ({ status := 400, success := false, data := none }, store)
    else
      match env.subjects.find? (fun s => s.code == subjectCode) with
      | none => ({ status := 400, success := false, data := none }, store)
      | some subjectDoc =>
        match subjectDoc.department with
        | none => ({ status := 500, success := false, data := none }, store)
        | some departmentId =>
          if validates name availability && !store.any (fun doc => doc._id == env.newId) then
            let faculty : FacultyDoc :=
              { _id := env.newId, name := jsTrim name, subject := subjectDoc._id,
                department := departmentId, availability := availability }
            ({ status := 201, success := true, data := some faculty }, store ++ [faculty])
          else ({ status := 500, success := false, data := none }, store)
  | _, _, _ => ({ status := 400, success := false, data := none }, store)

/-- The controller `updateFaculty` of `facultyController.js`, on the `:id`
parameter, the request body and the collection `Faculty`. A `TypeError` on
`subjectDoc.department._id`, a `CastError` on the id and a validation error
(`runValidators: true`) end in the `catch` block: status 500, nothing
changed. -/
def updateFaculty (env : Env) (id : String) (body : Body) (store : List FacultyDoc) :
    Response FacultyDoc × List FacultyDoc :=
  match body.name, body.subjectCode, body.availability with
  | some name, some subjectCode, some availability =>
    if name = "" || subjectCode = "" then
      ({ status := 400, success := false, data := none }, store)
    else if availability.length = 0 then
      ({ status := 400, success := false, data := none }, store)
    else
      match env.subjects.find? (fun s => s.code == subjectCode) with
      | none => ({ status := 404, success := false, data := none }, store)
      | some subjectDoc =>
        match subjectDoc.department with
        | none => ({ status := 500, success := false, data := none }, store)
        | some departmentId =>
          match env.castObjectId id with
          | none => ({ status := 500, success := false, data := none }, store)
          | some oid =>
            if validates name availability then
              match store.find? (fun doc => doc._id == oid) with
              | none => ({ status := 404, success := false, data := none }, store)
              | some doc =>
                let faculty : FacultyDoc :=
                  { doc with name := jsTrim name, subject := subjectDoc._id,
                             department := departmentId, availability := availability }
                ({ status := 200, success := true, data := some faculty },
                  updateFirst (fun d => d._id == oid) (fun _ => faculty) store)
            else ({ status := 500, success := false, data := none }, store)
  | _, _, _ => ({ status := 400, success := false, data := none }, store)

/-- The invariant of the faculty collection: the department of every faculty
document is the department of its subject. -/
def DepartmentOfSubject (env : Env) (store : List FacultyDoc) : Prop :=
  ∀ doc ∈ store, ∃ s ∈ env.subjects, s._id = doc.subject ∧ s.department = some doc.department

/-- An environment used as example: one subject `CS101` of department `cs`. -/
def exampleEnv : Env :=
  { subjects := [{ _id := "s1", code := "CS101", department := some "cs" }]
    castObjectId := fun s => some s
    newId := "f9" }

/-- A request body whose availability holds the period number 99. -/
def outOfRangeBody : Body :=
  { name := some "Ada", subjectCode := some "CS101",
    availability := some [{ day := "Monday", periods := [99] }],
    department := some "math" }

/-- A stored faculty document used as example. -/
def storedFaculty : FacultyDoc :=
  { _id := "f1", name := "Ada", subject := "s1", department := "cs",
    availability := [{ day := "Monday", periods := [1] }] }

/-- An environment with two subjects: `CS101` of department `cs` and `MA101`
of department `math`. -/
def twoSubjectEnv : Env :=
  { subjects := [{ _id := "s1", code := "CS101", department := some "cs" },
                 { _id := "s2", code := "MA101", department := some "math" }]
    castObjectId := fun s => some s
    newId := "f9" }

/-- A request body with the subject code `MA101`; its `department` field names
another department. -/
def mathBody : Body :=
  { name := some "Ada", subjectCode := some "MA101",
    availability := some [{ day := "Tuesday", periods := [2] }],
    department := some "cs" }

end FacultyController

/-! # The faculty management page

`server/client/src/pages/FacultyManagement.jsx`: the availability grid. The
state `selectedSlots` is an object from keys to values, read only through the
truthiness of `selectedSlots[key]`; the state `periods` is the list of period
numbers of the grid.
-/

namespace FacultyManagement
open Server

/-- The constant `DAYS` of `FacultyManagement.jsx`. -/
def DAYS : List String := ["Monday", "Tuesday", "Wednesday", "Thursday", "Friday"]

/-- The state `selectedSlots`: the truthiness of `selectedSlots[key]` at every
key. -/
abbrev SlotMap := String → Bool

/-- The template literal of the key of a slot: the day, a hyphen and the period
number in decimal. -/
def slotKey (day : String) (period : Int) : String :=
  day ++ "-" ++ toString period

/-- The value `Array.from({ length: numPeriods }, (_, i) => i + 1)` that
`fetchSettings` stores in `periods`: the list `[1, ..., numPeriods]`. -/
def periodsUpTo (numPeriods : Nat) : List Int :=
  (List.range numPeriods).map (fun (i : Nat) => (i : Int) + 1)

/-- The function `convertSlotsToAvailability` of `FacultyManagement.jsx`, with
the states `periods` and `selectedSlots` it reads as arguments: for each day of
`DAYS` the periods whose key is truthy, the days without such a period left
out. -/
def convertSlotsToAvailability (periods : List Int) (selectedSlots : SlotMap) :
    List AvailabilityEntry :=
  DAYS.filterMap (fun day =>
    let dayPeriods := periods.filter (fun period => selectedSlots (slotKey day period))
    if dayPeriods.length > 0 then some { day := day, periods := dayPeriods } else none)

/-- The object `{}`: no key is truthy. -/
def emptySlots : SlotMap := fun _ => false

/-- The assignment `slots[key] = true`. -/
def setSlot (slots : SlotMap) (key : String) : SlotMap :=
  fun k => if k = key then true else slots k

/-- The slot map `handleEdit` of `FacultyManagement.jsx` builds from
`faculty.availability` and stores in `selectedSlots`: starting from `{}`, the
key of every period of every entry is set to `true`. -/
def restoreSlots (availability : List AvailabilityEntry) : SlotMap :=
  availability.foldl
    (fun slots avail =>
      avail.periods.foldl (fun slots period => setSlot slots (slotKey avail.day period)) slots)
    emptySlots

/-- The pairs `(day, period)` of an availability, in order. -/
def slotPairs (availability : List AvailabilityEntry) : List (String × Int) :=
  availability.flatMap (fun avail => avail.periods.map (fun period => (avail.day, period)))

/-- A selection map with one stale key: `Monday-9` is truthy, nothing else. -/
def staleSlots : SlotMap := fun key => key == "Monday-9"

/-- A selection map with Monday 1 and 3 and Wednesday 2 selected. -/
def exampleSlots : SlotMap :=
  fun key => key == "Monday-1" || key == "Monday-3" || key == "Wednesday-2"

/-- An availability on Monday and Wednesday. -/
def exampleAvailability : List AvailabilityEntry :=
  [{ day := "Monday", periods := [1, 3] }, { day := "Wednesday", periods := [2] }]

end FacultyManagement

/-! # Properties -/

namespace TimetableView

/-! ## The worked example -/

/-- Claim C1: on the worked example (9:00 AM to 1:00 PM, 60-minute periods, four
periods, lunch 11:00 AM to 11:30 AM) `calculateSchedule` returns exactly five
blocks, in this order: Period 1 9:00 AM-10:00 AM, Period 2 10:00 AM-11:00 AM,
Break Lunch 11:00 AM-11:30 AM, Period 3 11:30 AM-12:30 PM and Period 4
12:30 PM-1:00 PM of duration 30; the second part gives the rendered
`startTime` and `endTime` strings. -/
theorem calculateSchedule_example :
    calculateSchedule exampleSettings =
      [ ScheduleItem.period 1 (JSNum.num 540) (JSNum.num 600) (JSNum.num 60),
        ScheduleItem.period 2 (JSNum.num 600) (JSNum.num 660) (JSNum.num 60),
        ScheduleItem.breakBlock "Lunch" (JSNum.num 660) (JSNum.num 690) (JSNum.num 30),
        ScheduleItem.period 3 (JSNum.num 690) (JSNum.num 750) (JSNum.num 60),
        ScheduleItem.period 4 (JSNum.num 750) (JSNum.num 780) (JSNum.num 30) ] ∧
    (calculateSchedule exampleSettings).map (fun b => (b.startTime, b.endTime)) =
      [ ("9:00 AM", "10:00 AM"), ("10:00 AM", "11:00 AM"), ("11:00 AM", "11:30 AM"),
        ("11:30 AM", "12:30 PM"), ("12:30 PM", "1:00 PM") ] := by
  constructor <;> decide

/-! ## Runs without breaks -/

theorem scheduleLoop_nan_start (e : JSNum) (pd n : Int) (fuel : Nat) (pn : Int)
    (l : List EnabledBreak) : scheduleLoop e pd n fuel JSNum.nan pn l = [] := by
  cases fuel <;> simp [scheduleLoop, JSNum.lt]

theorem scheduleLoop_nan_end (pd n : Int) (fuel : Nat) (cur : JSNum) (pn : Int)
    (l : List EnabledBreak) : scheduleLoop JSNum.nan pd n fuel cur pn l = [] := by
  cases fuel <;> cases cur <;> simp [scheduleLoop, JSNum.lt]

theorem scheduleLoop_nobreak_step (we pd n : Int) (fuel : Nat) (cur pn : Int) (hpd : 0 < pd) :
    scheduleLoop (JSNum.num we) pd n (fuel + 1) (JSNum.num cur) pn [] =
      if cur < we ∧ pn ≤ n then
        ScheduleItem.period pn (JSNum.num cur) (JSNum.num (min (cur + pd) we))
            (JSNum.num (min (cur + pd) we - cur))
          :: scheduleLoop (JSNum.num we) pd n fuel (JSNum.num (min (cur + pd) we)) (pn + 1) []
      else [] := by
  by_cases h : cur < we ∧ pn ≤ n
  · have h1 : cur < min (cur + pd) we := by
      rcases h with ⟨h1, _⟩
      exact lt_min (by omega) h1
    simp [scheduleLoop, JSNum.lt, JSNum.add, JSNum.min, JSNum.gt, JSNum.sub, h, h1]
  · simp only [scheduleLoop, JSNum.lt, if_neg h]
    simp
    intro a b
    exact absurd ⟨a, b⟩ h

theorem scheduleLoop_nobreak_get (we pd n : Int) (hpd : 0 < pd) :
    ∀ (fuel : Nat) (cur pn : Int) (i : Nat),
      i < (scheduleLoop (JSNum.num we) pd n fuel (JSNum.num cur) pn []).length →
      (scheduleLoop (JSNum.num we) pd n fuel (JSNum.num cur) pn [])[i]? =
          some (noBreakBlock we pd cur pn i) ∧ cur + i * pd < we := by
  intro fuel
  induction fuel with
  | zero => intro cur pn i hi; simp [scheduleLoop] at hi
  | succ fuel ih =>
    intro cur pn i hi
    rw [scheduleLoop_nobreak_step we pd n fuel cur pn hpd] at hi ⊢
    by_cases h : cur < we ∧ pn ≤ n
    · rw [if_pos h] at hi ⊢
      cases i with
      | zero => simp [noBreakBlock, h.1]
      | succ j =>
        have hj : j < (scheduleLoop (JSNum.num we) pd n fuel
            (JSNum.num (min (cur + pd) we)) (pn + 1) []).length := by
          simpa using hi
        obtain ⟨h1, h2⟩ := ih (min (cur + pd) we) (pn + 1) j hj
        have hjpd : 0 ≤ (j : Int) * pd := mul_nonneg (Int.ofNat_nonneg j) (le_of_lt hpd)
        have hmin : min (cur + pd) we = cur + pd := by
          rcases min_choice (cur + pd) we with hc | hc
          · exact hc
          · rw [hc] at h2; omega
        rw [hmin] at h1 h2
        have e1 : cur + pd + (j : Int) * pd = cur + ((j + 1 : Nat) : Int) * pd := by push_cast; ring
        have e2 : cur + pd + ((j : Int) + 1) * pd = cur + (((j + 1 : Nat) : Int) + 1) * pd := by
          push_cast; ring
        have e3 : pn + 1 + (j : Int) = pn + ((j + 1 : Nat) : Int) := by push_cast; ring
        refine ⟨?_, by rw [← e1]; exact h2⟩
        rw [List.getElem?_cons_succ, hmin, h1]
        simp only [noBreakBlock, e1, e2, e3]
    · rw [if_neg h] at hi
      simp at hi


theorem ceilDiv_nonpos (x pd : Int) (hpd : 0 < pd) (hx : x ≤ 0) : (x + pd - 1) / pd ≤ 0 := by
  have : (x + pd - 1) / pd < 1 := Int.ediv_lt_of_lt_mul hpd (by omega)
  omega

theorem ceilDiv_shift (x pd : Int) (hpd : 0 < pd) :
    (x - pd + pd - 1) / pd = (x + pd - 1) / pd - 1 := by
  have h : x - pd + pd - 1 = (x + pd - 1) + (-1) * pd := by ring
  rw [h, Int.add_mul_ediv_right _ _ (ne_of_gt hpd)]
  ring

theorem ceilDiv_pos (x pd : Int) (hpd : 0 < pd) (hx : 0 < x) : 1 ≤ (x + pd - 1) / pd := by
  have h : x + pd - 1 = (x - 1) + 1 * pd := by ring
  rw [h, Int.add_mul_ediv_right _ _ (ne_of_gt hpd)]
  have : 0 ≤ (x - 1) / pd := Int.ediv_nonneg (by omega) (le_of_lt hpd)
  omega

theorem ceilDiv_one (x pd : Int) (hpd : 0 < pd) (hx : 0 < x) (hx2 : x ≤ pd) :
    (x + pd - 1) / pd = 1 := by
  have h : x + pd - 1 = (x - 1) + 1 * pd := by ring
  rw [h, Int.add_mul_ediv_right _ _ (ne_of_gt hpd)]
  have : (x - 1) / pd = 0 := Int.ediv_eq_zero_of_lt (by omega) (by omega)
  omega

theorem scheduleLoop_nobreak_length (we pd n : Int) (hpd : 0 < pd) :
    ∀ (fuel : Nat) (cur pn : Int), (n + 1 - pn).toNat < fuel →
      ((scheduleLoop (JSNum.num we) pd n fuel (JSNum.num cur) pn []).length : Int) =
        max 0 (min (n + 1 - pn) ((we - cur + pd - 1) / pd)) := by
  intro fuel
  induction fuel with
  | zero => intro cur pn h; omega
  | succ fuel ih =>
    intro cur pn hf
    rw [scheduleLoop_nobreak_step we pd n fuel cur pn hpd]
    by_cases h : cur < we ∧ pn ≤ n
    · rw [if_pos h]
      have hf2 : (n + 1 - (pn + 1)).toNat < fuel := by omega
      have hlen := ih (min (cur + pd) we) (pn + 1) hf2
      rw [List.length_cons]
      push_cast
      rw [hlen]
      have hc := ceilDiv_pos (we - cur) pd hpd (by omega)
      by_cases hle : cur + pd ≤ we
      · rw [min_eq_left hle]
        have hs := ceilDiv_shift (we - cur) pd hpd
        have e : we - (cur + pd) + pd - 1 = we - cur - pd + pd - 1 := by ring
        rw [e, hs]
        omega
      · rw [min_eq_right (show we ≤ cur + pd by omega)]
        have h1 := ceilDiv_one (we - cur) pd hpd (by omega) (by omega)
        have h0 := ceilDiv_nonpos (we - we) pd hpd (by omega)
        omega
    · rw [if_neg h]
      simp only [List.length_nil, Nat.cast_zero]
      by_cases h1 : cur < we
      · have : ¬ pn ≤ n := fun h2 => h ⟨h1, h2⟩
        omega
      · have h0 := ceilDiv_nonpos (we - cur) pd hpd (by omega)
        omega

theorem scheduleLoop_nil_isPeriod (e : JSNum) (pd n : Int) :
    ∀ (fuel : Nat) (cur : JSNum) (pn : Int),
      ∀ b ∈ scheduleLoop e pd n fuel cur pn [], b.isPeriod = true := by
  intro fuel
  induction fuel with
  | zero => intro cur pn b hb; simp [scheduleLoop] at hb
  | succ fuel ih =>
    intro cur pn b hb
    simp only [scheduleLoop, List.find?_nil] at hb
    split at hb
    · split at hb
      · rcases List.mem_cons.1 hb with hb | hb
        · rw [hb]; rfl
        · exact ih _ _ b hb
      · simp at hb
    · simp at hb

theorem enabledBreaksOf_eq_nil (s : Settings) (hb : ∀ b ∈ s.breakTimes, b.enabled = false) :
    enabledBreaksOf s = [] := by
  have : s.breakTimes.filter (fun b => b.enabled) = [] := by
    rw [List.filter_eq_nil_iff]
    intro b hbm
    simp [hb b hbm]
  simp [enabledBreaksOf, sortBreaks, this]

theorem calculateSchedule_noBreaks (s : Settings) (hb : ∀ b ∈ s.breakTimes, b.enabled = false) :
    calculateSchedule s =
      scheduleLoop (parseTime s.workingHours.endTime) s.periodDuration s.numberOfPeriods
        (s.numberOfPeriods.toNat + 1) (parseTime s.workingHours.startTime) 1 [] := by
  simp [calculateSchedule, enabledBreaksOf_eq_nil s hb, loopFuel]

/-- Claim C2, as amended: for settings with no enabled break, `workStart <
workEnd`, `periodDuration > 0` and `numberOfPeriods >= 0`, the number of Period
blocks `calculateSchedule` emits is
`min(numberOfPeriods, ceil((workEnd - workStart) / periodDuration))`: a final
partial period, clipped to `workEnd`, is emitted too. -/
theorem calculateSchedule_noBreaks_periodCount (s : Settings) (ws we : Int)
    (hs : parseTime s.workingHours.startTime = JSNum.num ws)
    (he : parseTime s.workingHours.endTime = JSNum.num we)
    (hb : ∀ b ∈ s.breakTimes, b.enabled = false)
    (hlt : ws < we) (hpd : 0 < s.periodDuration) (hn : 0 ≤ s.numberOfPeriods) :
    (((calculateSchedule s).filter ScheduleItem.isPeriod).length : Int) =
      min s.numberOfPeriods ((we - ws + s.periodDuration - 1) / s.periodDuration) := by
  rw [calculateSchedule_noBreaks s hb, hs, he]
  rw [List.filter_eq_self.2 (scheduleLoop_nil_isPeriod _ _ _ _ _ _)]
  rw [scheduleLoop_nobreak_length we _ _ hpd _ ws 1 (by omega)]
  have hc := ceilDiv_pos (we - ws) _ hpd (by omega)
  omega

/-- Counterexample to claim C2 as stated: from 9:00 AM to 10:30 AM with
60-minute periods and four periods requested, two Period blocks are emitted
while `min(4, floor(90 / 60))` is 1. -/
theorem calculateSchedule_noBreaks_floor_fails :
    parseTime shortWindowSettings.workingHours.startTime = JSNum.num 540 ∧
    parseTime shortWindowSettings.workingHours.endTime = JSNum.num 630 ∧
    (∀ b ∈ shortWindowSettings.breakTimes, b.enabled = false) ∧
    (540 : Int) < 630 ∧ 0 < shortWindowSettings.periodDuration ∧
    0 ≤ shortWindowSettings.numberOfPeriods ∧
    (((calculateSchedule shortWindowSettings).filter ScheduleItem.isPeriod).length : Int) = 2 ∧
    min shortWindowSettings.numberOfPeriods ((630 - 540) / shortWindowSettings.periodDuration) = 1 := by
  decide

theorem calculateSchedule_noBreaks_periodCount_witness :
    parseTime shortWindowSettings.workingHours.startTime = JSNum.num 540 ∧
    parseTime shortWindowSettings.workingHours.endTime = JSNum.num 630 ∧
    (((calculateSchedule shortWindowSettings).filter ScheduleItem.isPeriod).length : Int) =
      min shortWindowSettings.numberOfPeriods
        ((630 - 540 + shortWindowSettings.periodDuration - 1) / shortWindowSettings.periodDuration) :=
  ⟨by decide, by decide,
    calculateSchedule_noBreaks_periodCount shortWindowSettings 540 630 (by decide) (by decide)
      (by decide) (by decide) (by decide) (by decide)⟩

/-- Claim C3: for settings with no enabled break and `periodDuration > 0`, the
block at index `i` (from 0) of the output of `calculateSchedule` is Period
number `i + 1` with start `workStart + i * periodDuration`, end
`min(workStart + (i + 1) * periodDuration, workEnd)` and the difference as
duration; and each block starts at the minute where the block before it ends. -/
theorem calculateSchedule_noBreaks_blocks (s : Settings)
    (hb : ∀ b ∈ s.breakTimes, b.enabled = false) (hpd : 0 < s.periodDuration) :
    (∀ i : Nat, i < (calculateSchedule s).length →
      ∃ ws we : Int,
        parseTime s.workingHours.startTime = JSNum.num ws ∧
        parseTime s.workingHours.endTime = JSNum.num we ∧
        (calculateSchedule s)[i]? =
          some (ScheduleItem.period (1 + i) (JSNum.num (ws + i * s.periodDuration))
            (JSNum.num (min (ws + (i + 1) * s.periodDuration) we))
            (JSNum.num (min (ws + (i + 1) * s.periodDuration) we - (ws + i * s.periodDuration))))) ∧
    (∀ (i : Nat) (a b : ScheduleItem), (calculateSchedule s)[i]? = some a →
      (calculateSchedule s)[i + 1]? = some b → b.startMinutes = a.endMinutes) := by
  have key : ∀ i : Nat, i < (calculateSchedule s).length →
      ∃ ws we : Int,
        parseTime s.workingHours.startTime = JSNum.num ws ∧
        parseTime s.workingHours.endTime = JSNum.num we ∧
        (calculateSchedule s)[i]? = some (noBreakBlock we s.periodDuration ws 1 i) ∧
        ws + i * s.periodDuration < we := by
    intro i hi
    rw [calculateSchedule_noBreaks s hb] at hi ⊢
    cases hs : parseTime s.workingHours.startTime with
    | nan => rw [hs, scheduleLoop_nan_start] at hi; simp at hi
    | num ws =>
      cases he : parseTime s.workingHours.endTime with
      | nan => rw [he, scheduleLoop_nan_end] at hi; simp at hi
      | num we =>
        rw [hs, he] at hi
        obtain ⟨h1, h2⟩ := scheduleLoop_nobreak_get we _ _ hpd _ ws 1 i hi
        exact ⟨ws, we, rfl, rfl, h1, h2⟩
  constructor
  · intro i hi
    obtain ⟨ws, we, h1, h2, h3, _⟩ := key i hi
    exact ⟨ws, we, h1, h2, h3⟩
  · intro i a b ha hb2
    have hi1 : i + 1 < (calculateSchedule s).length := by
      by_contra hcon
      rw [List.getElem?_eq_none (by omega)] at hb2
      exact Option.noConfusion hb2
    obtain ⟨ws, we, h1, h2, h3, _⟩ := key i (by omega)
    obtain ⟨ws2, we2, h1b, h2b, h3b, h4b⟩ := key (i + 1) hi1
    rw [h1] at h1b
    rw [h2] at h2b
    injection h1b with e1
    injection h2b with e2
    subst e1 e2
    rw [ha] at h3
    rw [hb2] at h3b
    injection h3 with h3
    injection h3b with h3b
    subst h3 h3b
    simp only [noBreakBlock, ScheduleItem.startMinutes, ScheduleItem.endMinutes]
    push_cast at h4b ⊢
    rw [min_eq_left (le_of_lt h4b)]

theorem calculateSchedule_noBreaks_blocks_witness :
    (∀ b ∈ shortWindowSettings.breakTimes, b.enabled = false) ∧
    0 < shortWindowSettings.periodDuration ∧
    ((∀ i : Nat, i < (calculateSchedule shortWindowSettings).length →
      ∃ ws we : Int,
        parseTime shortWindowSettings.workingHours.startTime = JSNum.num ws ∧
        parseTime shortWindowSettings.workingHours.endTime = JSNum.num we ∧
        (calculateSchedule shortWindowSettings)[i]? =
          some (ScheduleItem.period (1 + i)
            (JSNum.num (ws + i * shortWindowSettings.periodDuration))
            (JSNum.num (min (ws + (i + 1) * shortWindowSettings.periodDuration) we))
            (JSNum.num (min (ws + (i + 1) * shortWindowSettings.periodDuration) we -
              (ws + i * shortWindowSettings.periodDuration))))) ∧
    (∀ (i : Nat) (a b : ScheduleItem), (calculateSchedule shortWindowSettings)[i]? = some a →
      (calculateSchedule shortWindowSettings)[i + 1]? = some b →
        b.startMinutes = a.endMinutes)) :=
  ⟨by decide, by decide, calculateSchedule_noBreaks_blocks shortWindowSettings (by decide) (by decide)⟩

/-! ## Period numbering and the origin of break blocks -/

theorem range_succ_map_shift (pn : Int) (k : Nat) :
    (List.range (k + 1)).map (fun i : Nat => pn + (i : Int)) =
      pn :: (List.range k).map (fun i : Nat => pn + 1 + (i : Int)) := by
  rw [List.range_succ_eq_map, List.map_cons, List.map_map]
  simp only [Nat.cast_zero, add_zero, List.cons.injEq, true_and]
  apply List.map_congr_left
  intro i _
  simp only [Function.comp, Nat.cast_succ]
  ring

theorem scheduleLoop_periodNumbers (e : JSNum) (pd n : Int) :
    ∀ (fuel : Nat) (cur : JSNum) (pn : Int) (brks : List EnabledBreak),
      ∃ k : Nat,
        (scheduleLoop e pd n fuel cur pn brks).filterMap ScheduleItem.periodNumber? =
          (List.range k).map (fun i : Nat => pn + (i : Int)) ∧
        (k = 0 ∨ pn + k ≤ n + 1) := by
  intro fuel
  induction fuel with
  | zero => intro cur pn brks; exact ⟨0, by simp [scheduleLoop], Or.inl rfl⟩
  | succ fuel ih =>
    intro cur pn brks
    simp only [scheduleLoop]
    split
    · rename_i hg
      have hpn : pn ≤ n := by simp at hg; exact hg.2
      split
      · rename_i b hfind
        split
        · obtain ⟨k, hk1, hk2⟩ := ih b.endMinutes (pn + 1)
            (brks.eraseP (interrupts cur pd))
          refine ⟨k + 1, ?_, Or.inr (by push_cast; omega)⟩
          rw [range_succ_map_shift, ← hk1]
          simp [ScheduleItem.periodNumber?]
        · obtain ⟨k, hk1, hk2⟩ := ih b.endMinutes pn (brks.eraseP (interrupts cur pd))
          refine ⟨k, ?_, hk2⟩
          rw [← hk1]
          simp [ScheduleItem.periodNumber?]
      · split
        · obtain ⟨k, hk1, hk2⟩ := ih ((cur.add (JSNum.num pd)).min e) (pn + 1) brks
          refine ⟨k + 1, ?_, Or.inr (by push_cast; omega)⟩
          rw [range_succ_map_shift, ← hk1]
          simp [ScheduleItem.periodNumber?]
        · exact ⟨0, by simp, Or.inl rfl⟩
    · exact ⟨0, by simp, Or.inl rfl⟩

/-- Claim C4, as amended: for every settings, the Period blocks in the output
of `calculateSchedule`, in output order, carry the numbers 1, 2, ..., k with no
gap and no repeat, and `k <= max(numberOfPeriods, 0)`; so `k <= numberOfPeriods`
as soon as `numberOfPeriods` is not negative. -/
theorem calculateSchedule_periodNumbers (s : Settings) :
    ∃ k : Nat,
      (calculateSchedule s).filterMap ScheduleItem.periodNumber? =
        (List.range k).map (fun i : Nat => (i : Int) + 1) ∧
      (k : Int) ≤ max s.numberOfPeriods 0 := by
  obtain ⟨k, h1, h2⟩ := scheduleLoop_periodNumbers (parseTime s.workingHours.endTime)
    s.periodDuration s.numberOfPeriods (loopFuel s.numberOfPeriods (enabledBreaksOf s))
    (parseTime s.workingHours.startTime) 1 (enabledBreaksOf s)
  refine ⟨k, ?_, by omega⟩
  simp only [calculateSchedule]
  rw [h1]
  apply List.map_congr_left
  intro i _
  ring

/-- Counterexample to claim C4 as stated: with `numberOfPeriods = -1` no count
`k` of emitted periods satisfies `k <= numberOfPeriods`. -/
theorem calculateSchedule_periodNumbers_negative :
    ¬ ∃ k : Nat,
      (calculateSchedule negativePeriodsSettings).filterMap ScheduleItem.periodNumber? =
        (List.range k).map (fun i : Nat => (i : Int) + 1) ∧
      (k : Int) ≤ negativePeriodsSettings.numberOfPeriods := by
  rintro ⟨k, _, h2⟩
  have h3 : negativePeriodsSettings.numberOfPeriods = -1 := rfl
  omega

theorem scheduleLoop_break_mem (e : JSNum) (pd n : Int) (name : String) (st en d : JSNum) :
    ∀ (fuel : Nat) (cur : JSNum) (pn : Int) (brks : List EnabledBreak),
      ScheduleItem.breakBlock name st en d ∈ scheduleLoop e pd n fuel cur pn brks →
      ∃ b ∈ brks, b.name = name ∧ b.startMinutes = st ∧ b.endMinutes = en := by
  intro fuel
  induction fuel with
  | zero => intro cur pn brks h; simp [scheduleLoop] at h
  | succ fuel ih =>
    intro cur pn brks h
    simp only [scheduleLoop] at h
    split at h
    · split at h
      · rename_i b hfind
        have hbm : b ∈ brks := List.mem_of_find?_eq_some hfind
        have hrest : ∀ pn2, ScheduleItem.breakBlock name st en d ∈
            scheduleLoop e pd n fuel b.endMinutes pn2 (brks.eraseP (interrupts cur pd)) →
            ∃ b ∈ brks, b.name = name ∧ b.startMinutes = st ∧ b.endMinutes = en := by
          intro pn2 hm
          obtain ⟨x, hx, hx2⟩ := ih _ _ _ hm
          exact ⟨x, List.mem_of_mem_eraseP hx, hx2⟩
        split at h
        · rcases List.mem_cons.1 h with h | h
          · exact ScheduleItem.noConfusion h
          · rcases List.mem_cons.1 h with h | h
            · injection h with h1 h2 h3 h4
              exact ⟨b, hbm, h1.symm, h2.symm, h3.symm⟩
            · exact hrest _ h
        · rcases List.mem_cons.1 h with h | h
          · injection h with h1 h2 h3 h4
            exact ⟨b, hbm, h1.symm, h2.symm, h3.symm⟩
          · exact hrest _ h
      · split at h
        · rcases List.mem_cons.1 h with h | h
          · exact ScheduleItem.noConfusion h
          · exact ih _ _ _ h
        · simp at h
    · simp at h

theorem mem_enabledBreaksOf (s : Settings) (eb : EnabledBreak) :
    eb ∈ enabledBreaksOf s ↔ ∃ b ∈ s.breakTimes, b.enabled = true ∧ toEnabledBreak b = eb := by
  unfold enabledBreaksOf sortBreaks
  rw [(List.perm_insertionSort breakOrder _).mem_iff]
  simp [List.mem_map, List.mem_filter, and_assoc]

/-- Claim C5: for every settings, `calculateSchedule` returns the same schedule
as on the settings with every disabled break removed from `breakTimes`, and
every Break block of the output carries the name and the parsed start and end
times of an enabled break of the settings. -/
theorem calculateSchedule_ignores_disabled (s : Settings) :
    calculateSchedule s =
      calculateSchedule { s with breakTimes := s.breakTimes.filter (fun b => b.enabled) } ∧
    ∀ (name : String) (st en d : JSNum),
      ScheduleItem.breakBlock name st en d ∈ calculateSchedule s →
      ∃ b ∈ s.breakTimes, b.enabled = true ∧ b.name = name ∧
        parseTime b.startTime = st ∧ parseTime b.endTime = en := by
  constructor
  · simp [calculateSchedule, enabledBreaksOf, List.filter_filter]
  · intro name st en d h
    obtain ⟨eb, heb, h1, h2, h3⟩ := scheduleLoop_break_mem _ _ _ name st en d _ _ _ _ h
    obtain ⟨b, hb, hen, hto⟩ := (mem_enabledBreaksOf s eb).1 heb
    subst hto
    exact ⟨b, hb, hen, h1, h2, h3⟩

/-! ## Termination of the loop -/

/-- The loop never runs out of fuel: with more fuel than pending breaks plus
periods still allowed, the result does not depend on the amount of fuel. -/
theorem scheduleLoop_fuel_irrelevant (e : JSNum) (pd n : Int) :
    ∀ (f g : Nat) (cur : JSNum) (pn : Int) (brks : List EnabledBreak),
      brks.length + (n + 1 - pn).toNat < f → brks.length + (n + 1 - pn).toNat < g →
      scheduleLoop e pd n f cur pn brks = scheduleLoop e pd n g cur pn brks := by
  intro f
  induction f with
  | zero => intro g cur pn brks hf; omega
  | succ f ih =>
    intro g cur pn brks hf hg
    cases g with
    | zero => omega
    | succ g =>
      simp only [scheduleLoop]
      split
      · rename_i hguard
        have hpn : pn ≤ n := by simp at hguard; exact hguard.2
        split
        · rename_i b hfind
          have hlen : (brks.eraseP (interrupts cur pd)).length = brks.length - 1 :=
            List.length_eraseP_of_mem (List.mem_of_find?_eq_some hfind) (List.find?_some hfind)
          have hpos : 0 < brks.length := List.length_pos_of_mem (List.mem_of_find?_eq_some hfind)
          rw [ih g b.endMinutes (pn + 1) _ (by omega) (by omega),
            ih g b.endMinutes pn _ (by omega) (by omega)]
        · rw [ih g _ (pn + 1) brks (by omega) (by omega)]
      · rfl

/-- Giving the loop of `calculateSchedule` more fuel than `loopFuel` does not
change the schedule. -/
theorem calculateSchedule_more_fuel (s : Settings) (extra : Nat) :
    scheduleLoop (parseTime s.workingHours.endTime) s.periodDuration s.numberOfPeriods
        (loopFuel s.numberOfPeriods (enabledBreaksOf s) + extra)
        (parseTime s.workingHours.startTime) 1 (enabledBreaksOf s) =
      calculateSchedule s := by
  simp only [calculateSchedule]
  apply scheduleLoop_fuel_irrelevant
  · simp only [loopFuel]; omega
  · simp only [loopFuel]; omega

/-! ## Settings with a single enabled break -/

theorem interrupts_num (cur pd bs : Int) (b : EnabledBreak) (hb : b.startMinutes = JSNum.num bs) :
    interrupts (JSNum.num cur) pd b = (decide (cur ≤ bs) && decide (bs < cur + pd)) := by
  simp [interrupts, hb, JSNum.ge, JSNum.lt, JSNum.add]

theorem floorDiv_shift (x pd : Int) (hpd : 0 < pd) : (x - pd) / pd = x / pd - 1 := by
  have h : x - pd = x + (-1) * pd := by ring
  rw [h, Int.add_mul_ediv_right _ _ (ne_of_gt hpd)]
  ring

theorem scheduleLoop_single_break_mem (we pd n : Int) (b : EnabledBreak) (bs : Int)
    (hb : b.startMinutes = JSNum.num bs) (hpd : 0 < pd) (h2 : bs < we) :
    ∀ (fuel : Nat) (cur pn : Int), cur ≤ bs → pn + (bs - cur) / pd ≤ n →
      ((bs - cur) / pd).toNat < fuel →
      ScheduleItem.breakBlock b.name (JSNum.num bs) b.endMinutes
          (b.endMinutes.sub (JSNum.num bs)) ∈
        scheduleLoop (JSNum.num we) pd n fuel (JSNum.num cur) pn [b] := by
  intro fuel
  induction fuel with
  | zero => intro cur pn _ _ hf; omega
  | succ fuel ih =>
    intro cur pn hcur hpn hf
    have hq : 0 ≤ (bs - cur) / pd := Int.ediv_nonneg (by omega) (le_of_lt hpd)
    have hguard : cur < we ∧ pn ≤ n := ⟨by omega, by omega⟩
    by_cases hin : bs < cur + pd
    · have hi : interrupts (JSNum.num cur) pd b = true := by
        rw [interrupts_num cur pd bs b hb]; simp [hcur, hin]
      simp only [scheduleLoop, JSNum.lt, List.find?_cons, hi, hb]
      simp only [hguard, decide_True, Bool.and_self, if_true]
      split <;> simp
    · have hi : interrupts (JSNum.num cur) pd b = false := by
        rw [interrupts_num cur pd bs b hb]; simp [hin]
      have hmin : min (cur + pd) we = cur + pd := min_eq_left (by omega)
      have hsh := floorDiv_shift (bs - cur) pd hpd
      have hq2 : 0 ≤ (bs - cur - pd) / pd := Int.ediv_nonneg (by omega) (le_of_lt hpd)
      have e : bs - (cur + pd) = bs - cur - pd := by ring
      have := ih (cur + pd) (pn + 1) (by omega) (by rw [e]; omega) (by rw [e]; omega)
      simp only [scheduleLoop, JSNum.lt, List.find?_cons, hi, List.find?_nil, JSNum.add,
        JSNum.min, JSNum.gt, hmin]
      simp only [hguard, decide_True, Bool.and_self, if_true]
      have hgt : cur < cur + pd := by omega
      simp only [hgt, decide_True, if_true]
      exact List.mem_cons_of_mem _ this


theorem enabledBreaksOf_single (s : Settings) (b : BreakTime)
    (hen : s.breakTimes.filter (fun x => x.enabled) = [b]) :
    enabledBreaksOf s = [toEnabledBreak b] := by
  simp [enabledBreaksOf, sortBreaks, hen]

/-- With exactly one enabled break, whose start lies in `[workStart, workEnd)`,
the output contains its Break block as soon as `numberOfPeriods >
floor((break.start - workStart) / periodDuration)`. -/
theorem calculateSchedule_single_break_emitted (s : Settings) (b : BreakTime) (ws we bs : Int)
    (hs : parseTime s.workingHours.startTime = JSNum.num ws)
    (he : parseTime s.workingHours.endTime = JSNum.num we)
    (hen : s.breakTimes.filter (fun x => x.enabled) = [b])
    (hbs : parseTime b.startTime = JSNum.num bs)
    (hpd : 0 < s.periodDuration) (h1 : ws ≤ bs) (h2 : bs < we)
    (hn : (bs - ws) / s.periodDuration < s.numberOfPeriods) :
    ScheduleItem.breakBlock b.name (JSNum.num bs) (parseTime b.endTime)
        ((parseTime b.endTime).sub (JSNum.num bs)) ∈ calculateSchedule s := by
  have hq : 0 ≤ (bs - ws) / s.periodDuration := Int.ediv_nonneg (by omega) (le_of_lt hpd)
  simp only [calculateSchedule, enabledBreaksOf_single s b hen, hs, he, loopFuel]
  exact scheduleLoop_single_break_mem we _ _ (toEnabledBreak b) bs hbs hpd h2 _ ws 1 h1
    (by omega) (by simp only [List.length_singleton]; omega)

theorem scheduleLoop_single_break_length (we pd n : Int) (b : EnabledBreak) (bs be : Int)
    (hb : b.startMinutes = JSNum.num bs) (hbe : b.endMinutes = JSNum.num be)
    (hpd : 0 < pd) (h1 : bs < be) (h2 : bs < we) :
    ∀ (fuel : Nat) (cur pn : Int), cur ≤ bs → 1 + (n + 1 - pn).toNat < fuel →
      ((scheduleLoop (JSNum.num we) pd n fuel (JSNum.num cur) pn [b]).length : Int) ≤
        max 0 (min (n + 1 - pn) ((we - cur + pd - 1) / pd)) + 2 := by
  intro fuel
  induction fuel with
  | zero => intro cur pn _ hf; omega
  | succ fuel ih =>
    intro cur pn hcur hf
    by_cases hguard : cur < we ∧ pn ≤ n
    · have hmono : (we - be + pd - 1) / pd ≤ (we - cur + pd - 1) / pd :=
        Int.ediv_le_ediv hpd (by omega)
      by_cases hin : bs < cur + pd
      · have hi : interrupts (JSNum.num cur) pd b = true := by
          rw [interrupts_num cur pd bs b hb]; simp [hcur, hin]
        have hl1 := scheduleLoop_nobreak_length we pd n hpd fuel be (pn + 1) (by omega)
        have hl2 := scheduleLoop_nobreak_length we pd n hpd fuel be pn (by omega)
        simp only [scheduleLoop, JSNum.lt, List.find?_cons, hi, hb, hbe, List.eraseP_cons,
          List.eraseP_nil, cond_true]
        simp only [hguard, decide_True, Bool.and_self, if_true]
        split
        · simp only [List.length_cons]
          push_cast
          rw [hl1]
          omega
        · simp only [List.length_cons]
          push_cast
          rw [hl2]
          omega
      · have hi : interrupts (JSNum.num cur) pd b = false := by
          rw [interrupts_num cur pd bs b hb]; simp [hin]
        have hmin : min (cur + pd) we = cur + pd := min_eq_left (by omega)
        have hsh := ceilDiv_shift (we - cur) pd hpd
        have e : we - (cur + pd) + pd - 1 = we - cur - pd + pd - 1 := by ring
        have hrec := ih (cur + pd) (pn + 1) (by omega) (by omega)
        rw [e, hsh] at hrec
        have hc := ceilDiv_pos (we - cur) pd hpd (by omega)
        have hgt : cur < cur + pd := by omega
        have hstep : scheduleLoop (JSNum.num we) pd n (fuel + 1) (JSNum.num cur) pn [b] =
            ScheduleItem.period pn (JSNum.num cur) (JSNum.num (cur + pd))
                ((JSNum.num (cur + pd)).sub (JSNum.num cur))
              :: scheduleLoop (JSNum.num we) pd n fuel (JSNum.num (cur + pd)) (pn + 1) [b] := by
          simp [scheduleLoop, JSNum.lt, hi, JSNum.add, JSNum.min, JSNum.gt, hmin, hguard, hgt]
        rw [hstep, List.length_cons]
        push_cast
        omega
    · have : scheduleLoop (JSNum.num we) pd n (fuel + 1) (JSNum.num cur) pn [b] = [] := by
        simp only [scheduleLoop, JSNum.lt]
        rw [if_neg]
        simpa using hguard
      rw [this]
      simp only [List.length_nil, Nat.cast_zero]
      omega

/-- Claim C6, as amended: for settings with no enabled break, `periodDuration >
0`, `numberOfPeriods >= 1`, and one enabled break with `workStart < break.start
< break.end < workEnd`, the number of blocks emitted with the break added is
at most the number emitted without it plus 2 (the break and at most one
lead-in period). -/
theorem calculateSchedule_single_break_count (s : Settings) (b : BreakTime) (ws we bs be : Int)
    (hs : parseTime s.workingHours.startTime = JSNum.num ws)
    (he : parseTime s.workingHours.endTime = JSNum.num we)
    (hno : ∀ x ∈ s.breakTimes, x.enabled = false)
    (hen : b.enabled = true)
    (hbs : parseTime b.startTime = JSNum.num bs) (hbe : parseTime b.endTime = JSNum.num be)
    (hpd : 0 < s.periodDuration) (hn : 1 ≤ s.numberOfPeriods)
    (h1 : ws < bs) (h2 : bs < be) (h3 : be < we) :
    (calculateSchedule { s with breakTimes := s.breakTimes ++ [b] }).length ≤
      (calculateSchedule s).length + 2 := by
  have hfil : (s.breakTimes ++ [b]).filter (fun x => x.enabled) = [b] := by
    rw [List.filter_append, List.filter_eq_nil_iff.2 (fun x hx => by simp [hno x hx])]
    simp [hen]
  have hA := scheduleLoop_nobreak_length we s.periodDuration s.numberOfPeriods hpd
    (s.numberOfPeriods.toNat + 1) ws 1 (by omega)
  have hB := scheduleLoop_single_break_length we s.periodDuration s.numberOfPeriods
    (toEnabledBreak b) bs be hbs hbe hpd h2 (by omega)
    (1 + s.numberOfPeriods.toNat + 1) ws 1 (by omega) (by omega)
  rw [calculateSchedule_noBreaks s hno, hs, he]
  simp only [calculateSchedule, enabledBreaksOf_single { s with breakTimes := s.breakTimes ++ [b] } b hfil, hs, he, loopFuel,
    List.length_singleton]
  omega

/-- Counterexample to claim C6 as stated: adding the break 9:10 AM-12:50 PM to
the four-period layout 9:00 AM-1:00 PM leaves two blocks (the break and one
period) where four were emitted without it. -/
theorem calculateSchedule_single_break_count_fails :
    (∀ x ∈ plainSettings.breakTimes, x.enabled = false) ∧ longBreak.enabled = true ∧
    parseTime plainSettings.workingHours.startTime = JSNum.num 540 ∧
    parseTime plainSettings.workingHours.endTime = JSNum.num 780 ∧
    parseTime longBreak.startTime = JSNum.num 550 ∧
    parseTime longBreak.endTime = JSNum.num 770 ∧
    0 < plainSettings.periodDuration ∧ 1 ≤ plainSettings.numberOfPeriods ∧
    (calculateSchedule plainSettings).length = 4 ∧
    calculateSchedule { plainSettings with breakTimes := plainSettings.breakTimes ++ [longBreak] } =
      [ ScheduleItem.breakBlock "Assembly" (JSNum.num 550) (JSNum.num 770) (JSNum.num 220),
        ScheduleItem.period 1 (JSNum.num 770) (JSNum.num 780) (JSNum.num 10) ] := by
  decide

theorem calculateSchedule_single_break_count_witness :
    (∀ x ∈ plainSettings.breakTimes, x.enabled = false) ∧ lunchBreak.enabled = true ∧
    parseTime lunchBreak.startTime = JSNum.num 660 ∧
    parseTime lunchBreak.endTime = JSNum.num 690 ∧
    (calculateSchedule
        { plainSettings with breakTimes := plainSettings.breakTimes ++ [lunchBreak] }).length ≤
      (calculateSchedule plainSettings).length + 2 :=
  ⟨by decide, by decide, by decide, by decide,
    calculateSchedule_single_break_count plainSettings lunchBreak 540 780 660 690
      (by decide) (by decide) (by decide) (by decide) (by decide) (by decide) (by decide)
      (by decide) (by decide) (by decide) (by decide)⟩

/-! ## Which breaks are emitted -/

theorem JSNum.ge_iff {a b : JSNum} :
    a.ge b = true ↔ ∃ x y : Int, a = JSNum.num x ∧ b = JSNum.num y ∧ y ≤ x := by
  cases a <;> cases b <;> simp [JSNum.ge]

theorem JSNum.lt_iff {a b : JSNum} :
    a.lt b = true ↔ ∃ x y : Int, a = JSNum.num x ∧ b = JSNum.num y ∧ x < y := by
  cases a <;> cases b <;> simp [JSNum.lt]

theorem orderedInsert_pairwise_before (a : EnabledBreak)
    (ha : a.startMinutes.lt a.endMinutes = true) :
    ∀ l : List EnabledBreak,
      l.Pairwise (fun x y => y.startMinutes.ge x.endMinutes = true) →
      (∀ x ∈ l, x.startMinutes.lt x.endMinutes = true) →
      (∀ x ∈ l, x.startMinutes.ge a.endMinutes = true ∨ a.startMinutes.ge x.endMinutes = true) →
      (l.orderedInsert breakOrder a).Pairwise
        (fun x y => y.startMinutes.ge x.endMinutes = true) := by
  intro l
  induction l with
  | nil => intro _ _ _; simp
  | cons b l ih =>
    intro hpw hwf hdis
    obtain ⟨as, ae, has, hae, hase⟩ := JSNum.lt_iff.1 ha
    obtain ⟨bs, be, hbs, hbe, hbse⟩ := JSNum.lt_iff.1 (hwf b (List.mem_cons_self _ _))
    have hdb := hdis b (List.mem_cons_self _ _)
    simp only [has, hae, hbs, hbe, JSNum.ge, decide_eq_true_eq] at hdb
    rw [List.orderedInsert]
    split
    · rename_i hord
      simp only [breakOrder, compareBreaks, has, hbs, JSNum.sub, JSNum.gt,
        decide_eq_false_iff_not, not_lt] at hord
      have hab : ae ≤ bs := by omega
      refine List.pairwise_cons.2 ⟨?_, hpw⟩
      intro x hx
      rcases List.mem_cons.1 hx with hx | hx
      · subst hx
        simp only [hbs, hae, JSNum.ge, decide_eq_true_eq]
        exact hab
      · have hbx := (List.pairwise_cons.1 hpw).1 x hx
        obtain ⟨xs, be2, hxs, hbe2, h3⟩ := JSNum.ge_iff.1 hbx
        rw [hbe] at hbe2
        injection hbe2 with hbe2
        simp only [hxs, hae, JSNum.ge, decide_eq_true_eq]
        omega
    · rename_i hord
      simp only [breakOrder, compareBreaks, has, hbs, JSNum.sub, JSNum.gt,
        decide_eq_false_iff_not, not_lt, not_le] at hord
      have hba : be ≤ as := by omega
      refine List.pairwise_cons.2 ⟨?_, ?_⟩
      · intro x hx
        rcases (List.mem_orderedInsert breakOrder).1 hx with hx | hx
        · subst hx
          simp only [has, hbe, JSNum.ge, decide_eq_true_eq]
          exact hba
        · exact (List.pairwise_cons.1 hpw).1 x hx
      · exact ih (List.pairwise_cons.1 hpw).2 (fun x hx => hwf x (List.mem_cons_of_mem _ hx))
          (fun x hx => hdis x (List.mem_cons_of_mem _ hx))

theorem sortBreaks_pairwise_before :
    ∀ l : List EnabledBreak,
      (∀ x ∈ l, x.startMinutes.lt x.endMinutes = true) →
      l.Pairwise (fun x y => y.startMinutes.ge x.endMinutes = true ∨
        x.startMinutes.ge y.endMinutes = true) →
      (sortBreaks l).Pairwise (fun x y => y.startMinutes.ge x.endMinutes = true) := by
  intro l
  induction l with
  | nil => intro _ _; simp [sortBreaks]
  | cons a l ih =>
    intro hwf hdis
    have hmem : ∀ x, x ∈ List.insertionSort breakOrder l ↔ x ∈ l :=
      fun x => (List.perm_insertionSort breakOrder l).mem_iff
    simp only [sortBreaks, List.insertionSort]
    apply orderedInsert_pairwise_before a (hwf a (List.mem_cons_self _ _))
    · exact ih (fun x hx => hwf x (List.mem_cons_of_mem _ hx)) (List.pairwise_cons.1 hdis).2
    · intro x hx
      exact hwf x (List.mem_cons_of_mem _ ((hmem x).1 hx))
    · intro x hx
      exact (List.pairwise_cons.1 hdis).1 x ((hmem x).1 hx)

/-! ## Chronological order -/

theorem JSNum.ge_self_of_lt_left {a b : JSNum} (h : a.lt b = true) : a.ge a = true := by
  cases a <;> cases b <;> simp_all [JSNum.lt, JSNum.ge]

theorem JSNum.lt_of_sub_ge {a b : JSNum} (h : (b.sub a).ge (JSNum.num 20) = true) :
    a.lt b = true := by
  cases a <;> cases b <;> simp_all [JSNum.lt, JSNum.ge, JSNum.sub]
  omega

theorem JSNum.lt_of_gt {a b : JSNum} (h : b.gt a = true) : a.lt b = true := by
  cases a <;> cases b <;> simp_all [JSNum.lt, JSNum.gt]

theorem scheduleLoop_chronological (e : JSNum) (pd n : Int) :
    ∀ (fuel : Nat) (cur : JSNum) (pn : Int) (brks : List EnabledBreak),
      (∀ b ∈ brks, b.startMinutes.lt b.endMinutes = true) →
      (∀ x ∈ scheduleLoop e pd n fuel cur pn brks, x.startMinutes.lt x.endMinutes = true) ∧
      (∀ x, (scheduleLoop e pd n fuel cur pn brks).head? = some x →
        x.startMinutes.ge cur = true) ∧
      List.Chain' (fun a b : ScheduleItem => b.startMinutes.ge a.endMinutes = true)
        (scheduleLoop e pd n fuel cur pn brks) := by
  intro fuel
  induction fuel with
  | zero => intro cur pn brks _; simp [scheduleLoop]
  | succ fuel ih =>
    intro cur pn brks hbrks
    simp only [scheduleLoop]
    split
    · rename_i hguard
      have hcur : cur.ge cur = true := by
        simp only [Bool.and_eq_true] at hguard
        exact JSNum.ge_self_of_lt_left hguard.1
      split
      · rename_i b hfind
        have hbm : b ∈ brks := List.mem_of_find?_eq_some hfind
        have hbi : interrupts cur pd b = true := List.find?_some hfind
        have hbse : b.startMinutes.lt b.endMinutes = true := hbrks b hbm
        have hbge : b.startMinutes.ge cur = true := by
          simp only [interrupts, Bool.and_eq_true] at hbi
          exact hbi.1
        have hrest : ∀ x ∈ brks.eraseP (interrupts cur pd),
            x.startMinutes.lt x.endMinutes = true :=
          fun x hx => hbrks x (List.mem_of_mem_eraseP hx)
        split
        · rename_i hlead
          obtain ⟨h1, h2, h3⟩ := ih b.endMinutes (pn + 1) _ hrest
          simp only [Bool.and_eq_true] at hlead
          refine ⟨?_, ?_, ?_⟩
          · intro x hx
            rcases List.mem_cons.1 hx with hx | hx
            · subst hx; exact JSNum.lt_of_sub_ge hlead.1
            · rcases List.mem_cons.1 hx with hx | hx
              · subst hx; exact hbse
              · exact h1 x hx
          · intro x hx
            simp only [List.head?_cons, Option.some.injEq] at hx
            subst hx
            exact hcur
          · rw [List.chain'_cons', List.chain'_cons']
            refine ⟨?_, ?_, h3⟩
            · intro y hy
              simp only [List.head?_cons, Option.mem_def, Option.some.injEq] at hy
              subst hy
              exact JSNum.ge_self_of_lt_left hbse
            · intro y hy
              exact h2 y hy
        · obtain ⟨h1, h2, h3⟩ := ih b.endMinutes pn _ hrest
          refine ⟨?_, ?_, ?_⟩
          · intro x hx
            rcases List.mem_cons.1 hx with hx | hx
            · subst hx; exact hbse
            · exact h1 x hx
          · intro x hx
            simp only [List.head?_cons, Option.some.injEq] at hx
            subst hx
            exact hbge
          · rw [List.chain'_cons']
            exact ⟨fun y hy => h2 y hy, h3⟩
      · split
        · rename_i hemit
          obtain ⟨h1, h2, h3⟩ := ih ((cur.add (JSNum.num pd)).min e) (pn + 1) brks hbrks
          simp only [Bool.and_eq_true] at hemit
          refine ⟨?_, ?_, ?_⟩
          · intro x hx
            rcases List.mem_cons.1 hx with hx | hx
            · subst hx; exact JSNum.lt_of_gt hemit.1
            · exact h1 x hx
          · intro x hx
            simp only [List.head?_cons, Option.some.injEq] at hx
            subst hx
            exact hcur
          · rw [List.chain'_cons']
            exact ⟨fun y hy => h2 y hy, h3⟩
        · simp
    · simp

/-- Claim C8: for every settings in which every enabled break has start < end
(whatever `periodDuration` is, so in particular when it is positive), every
block emitted by `calculateSchedule` has start < end in minutes, the first
block starts at or after `workStart`, and every later block starts at or after
the end of the block before it. -/
theorem calculateSchedule_chronological (s : Settings)
    (hbr : ∀ b ∈ s.breakTimes, b.enabled = true →
      (parseTime b.startTime).lt (parseTime b.endTime) = true) :
    (∀ x ∈ calculateSchedule s, x.startMinutes.lt x.endMinutes = true) ∧
    (∀ x, (calculateSchedule s).head? = some x →
      x.startMinutes.ge (parseTime s.workingHours.startTime) = true) ∧
    List.Chain' (fun a b : ScheduleItem => b.startMinutes.ge a.endMinutes = true)
      (calculateSchedule s) := by
  apply scheduleLoop_chronological
  intro eb heb
  obtain ⟨b, hb, hen, hto⟩ := (mem_enabledBreaksOf s eb).1 heb
  subst hto
  exact hbr b hb hen

theorem calculateSchedule_chronological_witness :
    (∀ b ∈ exampleSettings.breakTimes, b.enabled = true →
      (parseTime b.startTime).lt (parseTime b.endTime) = true) ∧
    ((∀ x ∈ calculateSchedule exampleSettings, x.startMinutes.lt x.endMinutes = true) ∧
    (∀ x, (calculateSchedule exampleSettings).head? = some x →
      x.startMinutes.ge (parseTime exampleSettings.workingHours.startTime) = true) ∧
    List.Chain' (fun a b : ScheduleItem => b.startMinutes.ge a.endMinutes = true)
      (calculateSchedule exampleSettings)) :=
  ⟨by decide, calculateSchedule_chronological exampleSettings (by decide)⟩

/-! ## The working window and malformed times -/

/-- Claim C9, the code at the failing input: from 9:00 AM to 12:30 PM with
60-minute periods and an enabled break 12:45 PM-1:15 PM, the lead-in Period 4
runs from 12:00 PM to 12:45 PM, past `workEnd` (minute 750), although
`periodDuration > 0` and the break has start < end. -/
theorem calculateSchedule_leadIn_overruns :
    0 < lateLeadInSettings.periodDuration ∧
    (∀ b ∈ lateLeadInSettings.breakTimes, b.enabled = true →
      (parseTime b.startTime).lt (parseTime b.endTime) = true) ∧
    parseTime lateLeadInSettings.workingHours.endTime = JSNum.num 750 ∧
    calculateSchedule lateLeadInSettings =
      [ ScheduleItem.period 1 (JSNum.num 540) (JSNum.num 600) (JSNum.num 60),
        ScheduleItem.period 2 (JSNum.num 600) (JSNum.num 660) (JSNum.num 60),
        ScheduleItem.period 3 (JSNum.num 660) (JSNum.num 720) (JSNum.num 60),
        ScheduleItem.period 4 (JSNum.num 720) (JSNum.num 765) (JSNum.num 45),
        ScheduleItem.breakBlock "Lunch" (JSNum.num 765) (JSNum.num 795) (JSNum.num 30) ] ∧
    (JSNum.num 765).gt (parseTime lateLeadInSettings.workingHours.endTime) = true := by
  decide

/-- In the model as in the code, `Number` of a field that starts with a letter
other than `I` is `NaN`. -/
theorem toNumber_startsWithLetter (field : List Char) (h : startsWithLetter field = true) :
    toNumber field = JSNum.nan := by
  cases field with
  | nil => simp [startsWithLetter] at h
  | cons c cs =>
    simp only [startsWithLetter, Bool.and_eq_true, bne_iff_ne, ne_eq] at h
    have hal : 65 ≤ c.toNat := by
      have := h.1
      simp only [Bool.or_eq_true, Bool.and_eq_true, decide_eq_true_eq] at this
      omega
    have hdv : digitValue c = none := by
      simp only [digitValue]
      rw [if_neg (by omega), if_neg (by omega)]
    have hm : c ≠ '-' := by
      intro hc; rw [hc] at hal; revert hal; decide
    have hp : c ≠ '+' := by
      intro hc; rw [hc] at hal; revert hal; decide
    unfold toNumber
    split
    · rename_i heq; cases heq
    · rename_i heq; injection heq with h1 _; exact absurd h1 hm
    · rename_i heq; injection heq with h1 _; exact absurd h1 hp
    · rename_i c2 cs2 _ _ heq
      injection heq with h1 h2
      subst h1 h2
      simp [digitsValue, hdv]

/-- On a malformed time string `parseTime` gives `NaN`. -/
theorem parseTime_malformed (timeStr : String) (h : malformedTime timeStr = true) :
    parseTime timeStr = JSNum.nan := by
  simp only [malformedTime, Bool.or_eq_true, decide_eq_true_eq] at h
  simp only [parseTime]
  generalize splitChar ':' ((splitChar ' ' timeStr.data).headD []) = fields at h ⊢
  generalize (splitChar ' ' timeStr.data).tail.head? = period
  cases fields with
  | nil => simp
  | cons f1 rest =>
    cases rest with
    | nil => simp
    | cons f2 rest =>
      simp only [List.length_cons, List.headD_cons, List.tail_cons] at h
      simp only [List.map_cons, List.headD_cons, List.tail_cons, List.head?_cons]
      rcases h with (h | h) | h
      · omega
      · rw [toNumber_startsWithLetter f1 h]
        cases hf2 : toNumber f2 <;> (split_ifs <;> simp [JSNum.add, JSNum.mul, JSNum.strictEq] at *)
      · rw [toNumber_startsWithLetter f2 h]
        cases hf1 : toNumber f1 <;> (split_ifs <;> simp [JSNum.add, JSNum.mul] at *)

/-- Claim C10, as amended: `calculateSchedule` does not validate its time
strings. When the working-hours start or end time is malformed in the sense
of `malformedTime` (no `:` before the first space, or an hour or minute field
that starts with a letter other than `I`), `parseTime` gives `NaN` for it and
`calculateSchedule` returns the empty schedule. -/
theorem calculateSchedule_unparseable_hours (s : Settings)
    (h : malformedTime s.workingHours.startTime = true ∨
      malformedTime s.workingHours.endTime = true) :
    (parseTime s.workingHours.startTime = JSNum.nan ∨
      parseTime s.workingHours.endTime = JSNum.nan) ∧
    calculateSchedule s = [] := by
  rcases h with h | h
  · have hp := parseTime_malformed _ h
    exact ⟨Or.inl hp, by simp only [calculateSchedule, hp, scheduleLoop_nan_start]⟩
  · have hp := parseTime_malformed _ h
    exact ⟨Or.inr hp, by simp only [calculateSchedule, hp, scheduleLoop_nan_end]⟩

/-- Counterexample to claim C10 as stated: none of three settings with a time
string not of the form `H:MM AM|PM` makes the call fail. With the start time
`abc` the schedule returned is empty; with the start time `9:00` it is the
four periods from 9:00 AM to 1:00 PM; with a break starting at `noon` it is
the same four periods, without the break. -/
theorem calculateSchedule_malformed_returns :
    malformedStartSettings.workingHours.startTime = "abc" ∧
    parseTime "abc" = JSNum.nan ∧
    calculateSchedule malformedStartSettings = [] ∧
    parseTime "9:00" = JSNum.num 540 ∧
    calculateSchedule noPeriodStartSettings =
      [ ScheduleItem.period 1 (JSNum.num 540) (JSNum.num 600) (JSNum.num 60),
        ScheduleItem.period 2 (JSNum.num 600) (JSNum.num 660) (JSNum.num 60),
        ScheduleItem.period 3 (JSNum.num 660) (JSNum.num 720) (JSNum.num 60),
        ScheduleItem.period 4 (JSNum.num 720) (JSNum.num 780) (JSNum.num 60) ] ∧
    parseTime "noon" = JSNum.nan ∧
    calculateSchedule malformedBreakSettings =
      [ ScheduleItem.period 1 (JSNum.num 540) (JSNum.num 600) (JSNum.num 60),
        ScheduleItem.period 2 (JSNum.num 600) (JSNum.num 660) (JSNum.num 60),
        ScheduleItem.period 3 (JSNum.num 660) (JSNum.num 720) (JSNum.num 60),
        ScheduleItem.period 4 (JSNum.num 720) (JSNum.num 780) (JSNum.num 60) ] := by
  decide

/-- Claim C10, as amended, on the start time `abc`, which has no `:`. -/
theorem calculateSchedule_unparseable_hours_witness :
    malformedTime malformedStartSettings.workingHours.startTime = true ∧
    (parseTime malformedStartSettings.workingHours.startTime = JSNum.nan ∨
      parseTime malformedStartSettings.workingHours.endTime = JSNum.nan) ∧
    calculateSchedule malformedStartSettings = [] :=
  ⟨by decide, calculateSchedule_unparseable_hours malformedStartSettings (Or.inl (by decide))⟩

/-! ## Wall-clock strings -/

set_option maxRecDepth 100000 in
theorem parseTime_clock_bounded :
    ∀ h < 13, ∀ m < 60, 1 ≤ h →
      parseTime (clockString h m "AM") = JSNum.num (((h % 12) * 60 + m : Nat) : Int) ∧
      parseTime (clockString h m "PM") = JSNum.num (((h % 12) * 60 + m + 720 : Nat) : Int) := by
  decide

/-- Claim C11: for every hour `h` in 1..12 and minute `m` in 0..59, `parseTime`
maps `h:mm AM` to `(h mod 12) * 60 + m` and `h:mm PM` to
`(h mod 12) * 60 + m + 720`; in particular `12:00 AM` is 0 and `12:00 PM` is
720. -/
theorem parseTime_clock (h m : Nat) (h1 : 1 ≤ h) (h12 : h ≤ 12) (hm : m ≤ 59) :
    parseTime (clockString h m "AM") = JSNum.num ((h % 12 : Nat) * 60 + m) ∧
    parseTime (clockString h m "PM") = JSNum.num ((h % 12 : Nat) * 60 + m + 720) ∧
    parseTime "12:00 AM" = JSNum.num 0 ∧ parseTime "12:00 PM" = JSNum.num 720 := by
  obtain ⟨ha, hp⟩ := parseTime_clock_bounded h (by omega) m (by omega) h1
  refine ⟨?_, ?_, by decide, by decide⟩
  · rw [ha]; push_cast; rfl
  · rw [hp]; push_cast; rfl

theorem parseTime_clock_witness :
    (1 : Nat) ≤ 9 ∧ (9 : Nat) ≤ 12 ∧ (5 : Nat) ≤ 59 ∧ clockString 9 5 "AM" = "9:05 AM" ∧
    (parseTime (clockString 9 5 "AM") = JSNum.num ((9 % 12 : Nat) * 60 + (5 : Nat)) ∧
    parseTime (clockString 9 5 "PM") = JSNum.num ((9 % 12 : Nat) * 60 + (5 : Nat) + 720) ∧
    parseTime "12:00 AM" = JSNum.num 0 ∧ parseTime "12:00 PM" = JSNum.num 720) :=
  ⟨by decide, by decide, by decide, by decide,
    parseTime_clock 9 5 (by decide) (by decide) (by decide)⟩

/-! ## The first iteration with one break -/

theorem scheduleLoop_succ (e : JSNum) (pd n : Int) (fuel : Nat) (cur : JSNum) (pn : Int)
    (l : List EnabledBreak) :
    scheduleLoop e pd n (fuel + 1) cur pn l =
      if cur.lt e && decide (pn ≤ n) then
        match l.find? (interrupts cur pd) with
        | some b =>
          if (b.startMinutes.sub cur).ge (JSNum.num 20) && decide (pn ≤ n) then
            ScheduleItem.period pn cur b.startMinutes (b.startMinutes.sub cur)
              :: ScheduleItem.breakBlock b.name b.startMinutes b.endMinutes
                  (b.endMinutes.sub b.startMinutes)
              :: scheduleLoop e pd n fuel b.endMinutes (pn + 1) (l.eraseP (interrupts cur pd))
          else
            ScheduleItem.breakBlock b.name b.startMinutes b.endMinutes
                (b.endMinutes.sub b.startMinutes)
              :: scheduleLoop e pd n fuel b.endMinutes pn (l.eraseP (interrupts cur pd))
        | none =>
          if ((cur.add (JSNum.num pd)).min e).gt cur && decide (pn ≤ n) then
            ScheduleItem.period pn cur ((cur.add (JSNum.num pd)).min e)
                (((cur.add (JSNum.num pd)).min e).sub cur)
              :: scheduleLoop e pd n fuel ((cur.add (JSNum.num pd)).min e) (pn + 1) l
          else []
      else [] := rfl

/-- Claim C19: for settings with `numberOfPeriods >= 1`, `workStart < workEnd`
and exactly one enabled break, whose start lies in
`[workStart, workStart + periodDuration)`, the output of `calculateSchedule`
starts with Period 1 covering `[workStart, break.start)` followed by the Break
block when `break.start - workStart >= 20`, and starts with the Break block
itself otherwise. -/
theorem calculateSchedule_leadIn_rule (s : Settings) (b : BreakTime) (ws we bs : Int)
    (hs : parseTime s.workingHours.startTime = JSNum.num ws)
    (he : parseTime s.workingHours.endTime = JSNum.num we)
    (hen : s.breakTimes.filter (fun x => x.enabled) = [b])
    (hbs : parseTime b.startTime = JSNum.num bs)
    (hn : 1 ≤ s.numberOfPeriods) (hlt : ws < we)
    (h1 : ws ≤ bs) (h2 : bs < ws + s.periodDuration) :
    (20 ≤ bs - ws → ∃ rest : List ScheduleItem,
      calculateSchedule s =
        ScheduleItem.period 1 (JSNum.num ws) (JSNum.num bs) (JSNum.num (bs - ws))
          :: ScheduleItem.breakBlock b.name (JSNum.num bs) (parseTime b.endTime)
              ((parseTime b.endTime).sub (JSNum.num bs))
          :: rest) ∧
    (bs - ws < 20 → ∃ rest : List ScheduleItem,
      calculateSchedule s =
        ScheduleItem.breakBlock b.name (JSNum.num bs) (parseTime b.endTime)
            ((parseTime b.endTime).sub (JSNum.num bs))
          :: rest) := by
  have hi : interrupts (JSNum.num ws) s.periodDuration (toEnabledBreak b) = true := by
    rw [interrupts_num ws _ bs _ hbs]; simp [h1, h2]
  have hfuel : loopFuel s.numberOfPeriods [toEnabledBreak b] =
      (s.numberOfPeriods.toNat + 1) + 1 := by
    simp only [loopFuel, List.length_singleton]; omega
  have hguard : ws < we ∧ 1 ≤ s.numberOfPeriods := ⟨hlt, hn⟩
  have hsm : (toEnabledBreak b).startMinutes = JSNum.num bs := hbs
  have hem : (toEnabledBreak b).endMinutes = parseTime b.endTime := rfl
  have hnm : (toEnabledBreak b).name = b.name := rfl
  have hstep : calculateSchedule s =
      if 20 ≤ bs - ws then
        ScheduleItem.period 1 (JSNum.num ws) (JSNum.num bs) (JSNum.num (bs - ws))
          :: ScheduleItem.breakBlock b.name (JSNum.num bs) (parseTime b.endTime)
              ((parseTime b.endTime).sub (JSNum.num bs))
          :: scheduleLoop (JSNum.num we) s.periodDuration s.numberOfPeriods
              (s.numberOfPeriods.toNat + 1) (parseTime b.endTime) (1 + 1) []
      else
        ScheduleItem.breakBlock b.name (JSNum.num bs) (parseTime b.endTime)
            ((parseTime b.endTime).sub (JSNum.num bs))
          :: scheduleLoop (JSNum.num we) s.periodDuration s.numberOfPeriods
              (s.numberOfPeriods.toNat + 1) (parseTime b.endTime) 1 [] := by
    simp only [calculateSchedule, enabledBreaksOf_single s b hen, hs, he, hfuel]
    rw [scheduleLoop_succ]
    simp only [JSNum.lt, List.find?_cons, hi, hsm, hem, hnm, JSNum.sub, JSNum.ge,
      List.eraseP_cons_of_pos]
    simp only [hguard, decide_True, Bool.and_self, if_true, Bool.and_true, decide_eq_true_eq]
  constructor
  · intro hgap
    exact ⟨_, by rw [hstep, if_pos hgap]⟩
  · intro hgap
    exact ⟨_, by rw [hstep, if_neg (by omega)]⟩

theorem calculateSchedule_leadIn_rule_witness :
    parseTime teaBreakSettings.workingHours.startTime = JSNum.num 540 ∧
    parseTime teaBreakSettings.workingHours.endTime = JSNum.num 780 ∧
    parseTime teaBreak.startTime = JSNum.num 570 ∧
    (570 : Int) < 540 + teaBreakSettings.periodDuration ∧
    ∃ rest : List ScheduleItem,
      calculateSchedule teaBreakSettings =
        ScheduleItem.period 1 (JSNum.num 540) (JSNum.num 570) (JSNum.num (570 - 540))
          :: ScheduleItem.breakBlock teaBreak.name (JSNum.num 570) (parseTime teaBreak.endTime)
              ((parseTime teaBreak.endTime).sub (JSNum.num 570))
          :: rest :=
  ⟨by decide, by decide, by decide, by decide,
    (calculateSchedule_leadIn_rule teaBreakSettings teaBreak 540 780 570 (by decide) (by decide)
      (by decide) (by decide) (by decide) (by decide) (by decide) (by decide)).1 (by decide)⟩

/-! ## Breaks outside the working window -/

/-- Every Break block of a run is the block of one of the pending breaks. -/
theorem scheduleLoop_break_origin (e : JSNum) (pd n : Int) :
    ∀ (fuel : Nat) (cur : JSNum) (pn : Int) (l : List EnabledBreak),
      ∀ x ∈ scheduleLoop e pd n fuel cur pn l, x.isBreak = true →
        ∃ b ∈ l, x = breakBlockOf b := by
  intro fuel
  induction fuel with
  | zero => intro cur pn l x hx; simp [scheduleLoop] at hx
  | succ fuel ih =>
    intro cur pn l x hx hbr
    rw [scheduleLoop_succ] at hx
    split at hx
    · split at hx
      · rename_i b hfind
        have hbm : b ∈ l := List.mem_of_find?_eq_some hfind
        have hrest : ∀ pn2, x ∈ scheduleLoop e pd n fuel b.endMinutes pn2
            (l.eraseP (interrupts cur pd)) → ∃ b ∈ l, x = breakBlockOf b := by
          intro pn2 hm
          obtain ⟨y, hy, hy2⟩ := ih _ _ _ x hm hbr
          exact ⟨y, List.mem_of_mem_eraseP hy, hy2⟩
        split at hx
        · rcases List.mem_cons.1 hx with h | h
          · rw [h] at hbr; exact absurd hbr (by simp [ScheduleItem.isBreak])
          · rcases List.mem_cons.1 h with h | h
            · exact ⟨b, hbm, h⟩
            · exact hrest _ h
        · rcases List.mem_cons.1 hx with h | h
          · exact ⟨b, hbm, h⟩
          · exact hrest _ h
      · split at hx
        · rcases List.mem_cons.1 hx with h | h
          · rw [h] at hbr; exact absurd hbr (by simp [ScheduleItem.isBreak])
          · exact ih _ _ _ x h hbr
        · simp at hx
    · simp at hx

/-- A single pending break that starts before the current time never fires. -/
theorem scheduleLoop_stale_break (we pd n : Int) (b : EnabledBreak) (bs : Int)
    (hb : b.startMinutes = JSNum.num bs) :
    ∀ (fuel : Nat) (cur pn : Int), bs < cur →
      scheduleLoop (JSNum.num we) pd n fuel (JSNum.num cur) pn [b] =
        scheduleLoop (JSNum.num we) pd n fuel (JSNum.num cur) pn [] := by
  intro fuel
  induction fuel with
  | zero => intro cur pn _; rfl
  | succ fuel ih =>
    intro cur pn hcur
    have hi : interrupts (JSNum.num cur) pd b = false := by
      rw [interrupts_num cur pd bs b hb]
      simp only [Bool.and_eq_false_imp, decide_eq_true_eq, decide_eq_false_iff_not]
      intro h; omega
    rw [scheduleLoop_succ, scheduleLoop_succ]
    simp only [List.find?_cons, hi, List.find?_nil, JSNum.add, JSNum.min, JSNum.gt]
    by_cases hgt : cur < min (cur + pd) we
    · rw [ih (min (cur + pd) we) (pn + 1) (by omega)]
    · simp [hgt]

/-- Claim C17, as amended: for settings with `periodDuration > 0` and a single
enabled break, (1) a break that starts inside `[workStart, workEnd)` is
emitted with its configured start and end, unclipped, even when it ends after
`workEnd`, provided `numberOfPeriods > floor((break.start - workStart) /
periodDuration)`; (2) a break that starts before `workStart` is never
emitted; (3) every Break block of the output carries the configured start and
end of the break. -/
theorem calculateSchedule_outside_break (s : Settings) (b : BreakTime) (ws we bs : Int)
    (hs : parseTime s.workingHours.startTime = JSNum.num ws)
    (he : parseTime s.workingHours.endTime = JSNum.num we)
    (hen : s.breakTimes.filter (fun x => x.enabled) = [b])
    (hbs : parseTime b.startTime = JSNum.num bs)
    (hpd : 0 < s.periodDuration) :
    (ws ≤ bs → bs < we → (bs - ws) / s.periodDuration < s.numberOfPeriods →
      ScheduleItem.breakBlock b.name (JSNum.num bs) (parseTime b.endTime)
          ((parseTime b.endTime).sub (JSNum.num bs)) ∈ calculateSchedule s) ∧
    (bs < ws → ∀ x ∈ calculateSchedule s, x.isBreak = false) ∧
    (∀ x ∈ calculateSchedule s, x.isBreak = true →
      x = ScheduleItem.breakBlock b.name (JSNum.num bs) (parseTime b.endTime)
          ((parseTime b.endTime).sub (JSNum.num bs))) := by
  refine ⟨?_, ?_, ?_⟩
  · intro h1 h2 hn
    exact calculateSchedule_single_break_emitted s b ws we bs hs he hen hbs hpd h1 h2 hn
  · intro hlt x hx
    simp only [calculateSchedule, enabledBreaksOf_single s b hen, hs, he] at hx
    rw [scheduleLoop_stale_break we _ _ (toEnabledBreak b) bs hbs _ ws 1 hlt] at hx
    have := scheduleLoop_nil_isPeriod _ _ _ _ _ _ x hx
    cases x <;> simp_all [ScheduleItem.isPeriod, ScheduleItem.isBreak]
  · intro x hx hbr
    simp only [calculateSchedule, enabledBreaksOf_single s b hen] at hx
    obtain ⟨y, hy, hxy⟩ := scheduleLoop_break_origin _ _ _ _ _ _ _ x hx hbr
    rw [List.mem_singleton] at hy
    subst hy
    rw [hxy]
    simp only [breakBlockOf, toEnabledBreak, hbs]

/-- Counterexample to claim C17 as stated: the break 8:00 AM-8:30 AM lies wholly
before the window 9:00 AM-1:00 PM and the output consists of the four periods
only. -/
theorem calculateSchedule_early_break_not_emitted :
    parseTime earlyBreakSettings.workingHours.startTime = JSNum.num 540 ∧
    parseTime earlyBreakSettings.workingHours.endTime = JSNum.num 780 ∧
    0 < earlyBreakSettings.periodDuration ∧ 1 ≤ earlyBreakSettings.numberOfPeriods ∧
    earlyBreakSettings.breakTimes =
      [{ name := "Assembly", startTime := "8:00 AM", endTime := "8:30 AM", enabled := true }] ∧
    parseTime "8:00 AM" = JSNum.num 480 ∧ parseTime "8:30 AM" = JSNum.num 510 ∧
    calculateSchedule earlyBreakSettings =
      [ ScheduleItem.period 1 (JSNum.num 540) (JSNum.num 600) (JSNum.num 60),
        ScheduleItem.period 2 (JSNum.num 600) (JSNum.num 660) (JSNum.num 60),
        ScheduleItem.period 3 (JSNum.num 660) (JSNum.num 720) (JSNum.num 60),
        ScheduleItem.period 4 (JSNum.num 720) (JSNum.num 780) (JSNum.num 60) ] := by
  decide

theorem calculateSchedule_outside_break_witness :
    parseTime overrunBreakSettings.workingHours.startTime = JSNum.num 540 ∧
    parseTime overrunBreakSettings.workingHours.endTime = JSNum.num 780 ∧
    parseTime labBreak.startTime = JSNum.num 750 ∧ parseTime labBreak.endTime = JSNum.num 840 ∧
    0 < overrunBreakSettings.periodDuration ∧
    ScheduleItem.breakBlock labBreak.name (JSNum.num 750) (parseTime labBreak.endTime)
        ((parseTime labBreak.endTime).sub (JSNum.num 750)) ∈
      calculateSchedule overrunBreakSettings :=
  ⟨by decide, by decide, by decide, by decide, by decide,
    (calculateSchedule_outside_break overrunBreakSettings labBreak 540 780 750 (by decide)
      (by decide) (by decide) (by decide) (by decide)).1 (by decide) (by decide) (by decide)⟩


/-! ## Each break fires at most once -/

theorem breaksOf_period_cons (pn : Int) (a b d : JSNum) (l : List ScheduleItem) :
    breaksOf (ScheduleItem.period pn a b d :: l) = breaksOf l := rfl

theorem breaksOf_break_cons (x : EnabledBreak) (d : JSNum) (l : List ScheduleItem) :
    breaksOf (ScheduleItem.breakBlock x.name x.startMinutes x.endMinutes d :: l) =
      x :: breaksOf l := rfl

theorem breaksOf_length (l : List ScheduleItem) :
    (breaksOf l).length = (l.filter ScheduleItem.isBreak).length := by
  induction l with
  | nil => rfl
  | cons x l ih =>
    cases x with
    | period pn a b d => simpa [breaksOf, ScheduleItem.break?, ScheduleItem.isBreak] using ih
    | breakBlock nm a b d => simpa [breaksOf, ScheduleItem.break?, ScheduleItem.isBreak] using ih

/-- The breaks fired by a run are, up to order, among the pending breaks, each
used at most once. -/
theorem scheduleLoop_breaks_subperm (e : JSNum) (pd n : Int) :
    ∀ (fuel : Nat) (cur : JSNum) (pn : Int) (l : List EnabledBreak),
      (breaksOf (scheduleLoop e pd n fuel cur pn l)).Subperm l := by
  intro fuel
  induction fuel with
  | zero => intro cur pn l; exact (List.nil_sublist l).subperm
  | succ fuel ih =>
    intro cur pn l
    rw [scheduleLoop_succ]
    split
    · split
      · rename_i b hfind
        obtain ⟨hpb, as, bs, hl, has⟩ := List.find?_eq_some.1 hfind
        have hnot : ∀ a ∈ as, ¬ interrupts cur pd a = true := by
          intro a ha; simpa using has a ha
        have herase : l.eraseP (interrupts cur pd) = as ++ bs := by
          rw [hl, List.eraseP_append_right _ hnot, List.eraseP_cons_of_pos hpb]
        have hperm : (b :: (as ++ bs)).Subperm l := by
          rw [hl]; exact (List.perm_middle).symm.subperm
        rw [herase]
        split
        · rw [breaksOf_period_cons, breaksOf_break_cons]
          exact ((List.subperm_cons b).2 (ih _ _ _)).trans hperm
        · rw [breaksOf_break_cons]
          exact ((List.subperm_cons b).2 (ih _ _ _)).trans hperm
      · split
        · rw [breaksOf_period_cons]
          exact ih _ _ _
        · exact (List.nil_sublist l).subperm
    · exact (List.nil_sublist l).subperm

theorem JSNum.ge_trans {a b c : JSNum} (h1 : a.ge b = true) (h2 : b.ge c = true) :
    a.ge c = true := by
  cases a <;> cases b <;> cases c <;> simp_all [JSNum.ge]
  omega

/-- When breaks are sorted by start and none ends before it starts, the breaks
fired by a run are, in output order, a subsequence of the pending breaks that
start at or after the current time. -/
theorem scheduleLoop_breaks_sublist (e : JSNum) (pd n : Int) :
    ∀ (fuel : Nat) (cur : JSNum) (pn : Int) (l : List EnabledBreak),
      l.Pairwise (fun a b => b.startMinutes.ge a.startMinutes = true) →
      (∀ x ∈ l, x.endMinutes.ge x.startMinutes = true) →
      (breaksOf (scheduleLoop e pd n fuel cur pn l)).Sublist
        (l.filter (fun x => x.startMinutes.ge cur)) := by
  intro fuel
  induction fuel with
  | zero => intro cur pn l _ _; exact List.nil_sublist _
  | succ fuel ih =>
    intro cur pn l hsorted hwf
    rw [scheduleLoop_succ]
    split
    · split
      · rename_i b hfind
        obtain ⟨hpb, as, bs, hl, has⟩ := List.find?_eq_some.1 hfind
        have hnot : ∀ a ∈ as, ¬ interrupts cur pd a = true := by
          intro a ha; simpa using has a ha
        have herase : l.eraseP (interrupts cur pd) = as ++ bs := by
          rw [hl, List.eraseP_append_right _ hnot, List.eraseP_cons_of_pos hpb]
        have hbm : b ∈ l := List.mem_of_find?_eq_some hfind
        have hbwf := hwf b hbm
        have hbcur : b.startMinutes.ge cur = true := by
          simp only [interrupts, Bool.and_eq_true] at hpb; exact hpb.1
        have hecur : b.endMinutes.ge cur = true := JSNum.ge_trans hbwf hbcur
        have hsorted2 : (as ++ bs).Pairwise
            (fun a b => b.startMinutes.ge a.startMinutes = true) := by
          rw [hl] at hsorted
          exact hsorted.sublist (List.Sublist.append_left (List.sublist_cons_self b bs) as)
        have hwf2 : ∀ x ∈ as ++ bs, x.endMinutes.ge x.startMinutes = true := by
          intro x hx
          apply hwf x
          rw [hl]
          rcases List.mem_append.1 hx with hx | hx
          · exact List.mem_append_left _ hx
          · exact List.mem_append_right _ (List.mem_cons_of_mem _ hx)
        have hasdead : as.filter (fun x => x.startMinutes.ge b.endMinutes) = [] := by
          rw [List.filter_eq_nil_iff]
          intro a ha hcon
          have hab : b.startMinutes.ge a.startMinutes = true := by
            rw [hl] at hsorted
            exact (List.pairwise_append.1 hsorted).2.2 a ha b (List.mem_cons_self _ _)
          apply hnot a ha
          obtain ⟨x1, y1, hx1, hy1, h1⟩ := JSNum.ge_iff.1 hcon
          obtain ⟨x2, y2, hx2, hy2, h2⟩ := JSNum.ge_iff.1 hbwf
          obtain ⟨x3, y3, hx3, hy3, h3⟩ := JSNum.ge_iff.1 hbcur
          rw [hy1] at hx2; injection hx2 with hx2
          rw [hy2] at hx3; injection hx3 with hx3
          subst hx2 hx3
          simp only [hx1, hy2, JSNum.ge, decide_eq_true_eq] at hab
          simp only [interrupts, hy2, hy3, JSNum.ge, JSNum.lt, JSNum.add, Bool.and_eq_true,
            decide_eq_true_eq] at hpb
          simp only [interrupts, hx1, hy3, JSNum.ge, JSNum.lt, JSNum.add, Bool.and_eq_true,
            decide_eq_true_eq]
          omega
        have hkey : ∀ pn2, (b :: breaksOf (scheduleLoop e pd n fuel b.endMinutes pn2
            (as ++ bs))).Sublist (l.filter (fun x => x.startMinutes.ge cur)) := by
          intro pn2
          have h1 := ih b.endMinutes pn2 (as ++ bs) hsorted2 hwf2
          rw [List.filter_append, hasdead, List.nil_append] at h1
          have h2 : (bs.filter (fun x => x.startMinutes.ge b.endMinutes)).Sublist
              (bs.filter (fun x => x.startMinutes.ge cur)) :=
            List.monotone_filter_right bs (fun x hx => JSNum.ge_trans hx hecur)
          have hcons : List.filter (fun x => x.startMinutes.ge cur) (b :: bs) =
              b :: List.filter (fun x => x.startMinutes.ge cur) bs := by
            simp [List.filter_cons, hbcur]
          rw [hl, List.filter_append, hcons]
          exact List.sublist_append_of_sublist_right ((h1.trans h2).cons₂ b)
        rw [herase]
        split
        · rw [breaksOf_period_cons, breaksOf_break_cons]
          exact hkey _
        · rw [breaksOf_break_cons]
          exact hkey _
      · split
        · rename_i hemit
          rw [breaksOf_period_cons]
          simp only [Bool.and_eq_true] at hemit
          have hge : ((cur.add (JSNum.num pd)).min e).ge cur = true := by
            have := hemit.1
            revert this
            cases cur <;> cases e <;> simp [JSNum.add, JSNum.min, JSNum.gt, JSNum.ge]
            intro h1 h2
            omega
          exact (ih _ _ l hsorted hwf).trans
            (List.monotone_filter_right l (fun x hx => JSNum.ge_trans hx hge))
        · exact List.nil_sublist _
    · exact List.nil_sublist _


theorem orderedInsert_sorted_start (a : EnabledBreak) (ha : ∃ v, a.startMinutes = JSNum.num v) :
    ∀ l : List EnabledBreak,
      l.Pairwise (fun x y => y.startMinutes.ge x.startMinutes = true) →
      (∀ x ∈ l, ∃ v, x.startMinutes = JSNum.num v) →
      (l.orderedInsert breakOrder a).Pairwise
        (fun x y => y.startMinutes.ge x.startMinutes = true) := by
  intro l
  induction l with
  | nil => intro _ _; simp
  | cons b l ih =>
    intro hpw hnum
    obtain ⟨av, hav⟩ := ha
    obtain ⟨bv, hbv⟩ := hnum b (List.mem_cons_self _ _)
    rw [List.orderedInsert]
    split
    · rename_i hord
      simp only [breakOrder, compareBreaks, hav, hbv, JSNum.sub, JSNum.gt,
        decide_eq_false_iff_not, not_lt] at hord
      have hba : b.startMinutes.ge a.startMinutes = true := by
        simp only [hav, hbv, JSNum.ge, decide_eq_true_eq]; omega
      refine List.pairwise_cons.2 ⟨?_, hpw⟩
      intro x hx
      rcases List.mem_cons.1 hx with hx | hx
      · subst hx; exact hba
      · exact JSNum.ge_trans ((List.pairwise_cons.1 hpw).1 x hx) hba
    · rename_i hord
      simp only [breakOrder, compareBreaks, hav, hbv, JSNum.sub, JSNum.gt,
        decide_eq_false_iff_not, not_lt, not_le] at hord
      refine List.pairwise_cons.2 ⟨?_, ?_⟩
      · intro x hx
        rcases (List.mem_orderedInsert breakOrder).1 hx with hx | hx
        · subst hx
          simp only [hav, hbv, JSNum.ge, decide_eq_true_eq]; omega
        · exact (List.pairwise_cons.1 hpw).1 x hx
      · exact ih (List.pairwise_cons.1 hpw).2
          (fun x hx => hnum x (List.mem_cons_of_mem _ hx))

theorem sortBreaks_sorted_start :
    ∀ l : List EnabledBreak, (∀ x ∈ l, ∃ v, x.startMinutes = JSNum.num v) →
      (sortBreaks l).Pairwise (fun x y => y.startMinutes.ge x.startMinutes = true) := by
  intro l
  induction l with
  | nil => intro _; simp [sortBreaks]
  | cons a l ih =>
    intro hnum
    have hmem : ∀ x, x ∈ List.insertionSort breakOrder l ↔ x ∈ l :=
      fun x => (List.perm_insertionSort breakOrder l).mem_iff
    simp only [sortBreaks, List.insertionSort]
    apply orderedInsert_sorted_start a (hnum a (List.mem_cons_self _ _))
    · exact ih (fun x hx => hnum x (List.mem_cons_of_mem _ hx))
    · intro x hx
      exact hnum x (List.mem_cons_of_mem _ ((hmem x).1 hx))

/-- Claim C18, as amended: for every settings, the breaks behind the Break
blocks of the output are, up to order, among the enabled breaks, each enabled
break accounting for at most one Break block, so the number of Break blocks
never exceeds the number of enabled breaks; and when no enabled break ends
before it starts, the Break blocks follow, in output order, a subsequence of
the enabled breaks sorted by start time. -/
theorem calculateSchedule_breaks_once (s : Settings) :
    (breaksOf (calculateSchedule s)).Subperm (enabledBreaksOf s) ∧
    ((calculateSchedule s).filter ScheduleItem.isBreak).length ≤
      (s.breakTimes.filter (fun b => b.enabled)).length ∧
    ((∀ b ∈ s.breakTimes, b.enabled = true →
        (parseTime b.endTime).ge (parseTime b.startTime) = true) →
      (breaksOf (calculateSchedule s)).Sublist (enabledBreaksOf s)) := by
  have hsub := scheduleLoop_breaks_subperm (parseTime s.workingHours.endTime) s.periodDuration
    s.numberOfPeriods (loopFuel s.numberOfPeriods (enabledBreaksOf s))
    (parseTime s.workingHours.startTime) 1 (enabledBreaksOf s)
  refine ⟨hsub, ?_, ?_⟩
  · have h1 := hsub.length_le
    rw [breaksOf_length] at h1
    have h2 : (enabledBreaksOf s).length = (s.breakTimes.filter (fun b => b.enabled)).length := by
      simp only [enabledBreaksOf, sortBreaks, List.length_insertionSort, List.length_map]
    rw [h2] at h1
    exact h1
  · intro hwf
    have hwf2 : ∀ x ∈ enabledBreaksOf s, x.endMinutes.ge x.startMinutes = true := by
      intro x hx
      obtain ⟨y, hy, hyen, rfl⟩ := (mem_enabledBreaksOf s x).1 hx
      exact hwf y hy hyen
    have hsorted : (enabledBreaksOf s).Pairwise
        (fun x y => y.startMinutes.ge x.startMinutes = true) := by
      apply sortBreaks_sorted_start
      intro x hx
      obtain ⟨y, hy, rfl⟩ := List.mem_map.1 hx
      have hy2 := List.mem_filter.1 hy
      obtain ⟨_, v, _, hv, _⟩ := JSNum.ge_iff.1 (hwf y hy2.1 hy2.2)
      exact ⟨v, hv⟩
    exact (scheduleLoop_breaks_sublist _ _ _ _ _ _ _ hsorted hwf2).trans (List.filter_sublist _)

/-- Counterexample to claim C18 as stated: the break `Back` (9:00 AM to
8:00 AM) sets the current time back to 8:00 AM, after which the break `Early`
(8:30 AM) fires; the output order `Back, Early` is not a subsequence of the
sorted order `Early, Back`. -/
theorem calculateSchedule_breaks_out_of_order :
    enabledBreaksOf backwardBreakSettings =
      [ { name := "Early", startMinutes := JSNum.num 510, endMinutes := JSNum.num 525 },
        { name := "Back", startMinutes := JSNum.num 540, endMinutes := JSNum.num 480 } ] ∧
    breaksOf (calculateSchedule backwardBreakSettings) =
      [ { name := "Back", startMinutes := JSNum.num 540, endMinutes := JSNum.num 480 },
        { name := "Early", startMinutes := JSNum.num 510, endMinutes := JSNum.num 525 } ] ∧
    ¬ (breaksOf (calculateSchedule backwardBreakSettings)).Sublist
        (enabledBreaksOf backwardBreakSettings) := by
  decide

theorem calculateSchedule_breaks_once_witness :
    (∀ b ∈ exampleSettings.breakTimes, b.enabled = true →
        (parseTime b.endTime).ge (parseTime b.startTime) = true) ∧
    (breaksOf (calculateSchedule exampleSettings)).Sublist (enabledBreaksOf exampleSettings) :=
  ⟨by decide, (calculateSchedule_breaks_once exampleSettings).2.2 (by decide)⟩

/-! ## Number of iterations -/

theorem loopIterations_bound (e : JSNum) (pd n : Int) :
    ∀ (fuel : Nat) (cur : JSNum) (pn : Int) (l : List EnabledBreak),
      l.length + (n + 1 - pn).toNat < fuel →
      ∃ k : Nat, loopIterations e pd n fuel cur pn l = some k ∧
        k ≤ l.length + (n + 1 - pn).toNat := by
  intro fuel
  induction fuel with
  | zero => intro cur pn l hf; omega
  | succ fuel ih =>
    intro cur pn l hf
    simp only [loopIterations]
    split
    · rename_i hguard
      have hpn : pn ≤ n := by simp at hguard; exact hguard.2
      split
      · rename_i b hfind
        have hlen : (l.eraseP (interrupts cur pd)).length = l.length - 1 :=
          List.length_eraseP_of_mem (List.mem_of_find?_eq_some hfind) (List.find?_some hfind)
        have hpos : 0 < l.length := List.length_pos_of_mem (List.mem_of_find?_eq_some hfind)
        split
        · obtain ⟨k, hk, hkb⟩ := ih b.endMinutes (pn + 1) (l.eraseP (interrupts cur pd))
            (by omega)
          exact ⟨k + 1, by rw [hk]; rfl, by omega⟩
        · obtain ⟨k, hk, hkb⟩ := ih b.endMinutes pn (l.eraseP (interrupts cur pd)) (by omega)
          exact ⟨k + 1, by rw [hk]; rfl, by omega⟩
      · split
        · obtain ⟨k, hk, hkb⟩ := ih ((cur.add (JSNum.num pd)).min e) (pn + 1) l (by omega)
          exact ⟨k + 1, by rw [hk]; rfl, by omega⟩
        · exact ⟨1, rfl, by omega⟩
    · exact ⟨0, rfl, by omega⟩

/-- Claim C20, as amended: for all values of `workStart`, `workEnd` (integers or
`NaN`), all integers `periodDuration` and `numberOfPeriods` and every list of
pending breaks, the loop of `calculateSchedule` exits, after at most
`max(numberOfPeriods, 0) + (number of enabled breaks) + 1` executions of its
body. -/
theorem calculateSchedule_terminates (endMinutes startMinutes : JSNum)
    (periodDuration numberOfPeriods : Int) (enabledBreaks : List EnabledBreak) :
    ∃ k : Nat,
      loopIterations endMinutes periodDuration numberOfPeriods
        (loopFuel numberOfPeriods enabledBreaks) startMinutes 1 enabledBreaks = some k ∧
      (k : Int) ≤ max numberOfPeriods 0 + enabledBreaks.length + 1 := by
  obtain ⟨k, hk, hkb⟩ := loopIterations_bound endMinutes periodDuration numberOfPeriods
    (loopFuel numberOfPeriods enabledBreaks) startMinutes 1 enabledBreaks
    (by simp only [loopFuel]; omega)
  exact ⟨k, hk, by omega⟩

/-- Counterexample to claim C20 as stated: with `numberOfPeriods = -2` and no
break the body is executed 0 times, while
`numberOfPeriods + (number of enabled breaks) + 1` is `-1`. -/
theorem calculateSchedule_iterations_negative :
    loopIterations (JSNum.num 780) 60 (-2) (loopFuel (-2) []) (JSNum.num 540) 1 [] = some 0 ∧
    ¬ ((0 : Int) ≤ -2 + (([] : List EnabledBreak).length : Int) + 1) := by
  decide

end TimetableView

/-! # Properties of the assignment engine -/

namespace AssignmentEngine

open Server

/-- The occupancy key of a filled cell is in the set at the end and was not in
the set at the start; the set only grows; the faculty member of a filled cell
comes from the filtered roster. -/
theorem fillCells_spec (filtered : List RosterEntry) :
    ∀ (cells : List (String × Int)) (occupied : List OccupancyKey),
      (∀ k ∈ occupied, k ∈ (fillCells filtered cells occupied).2) ∧
      (∀ c ∈ (fillCells filtered cells occupied).1, ∀ s : Slot, c.slot = some s →
        (s.facultyId, c.day, c.periodNumber) ∈ (fillCells filtered cells occupied).2 ∧
        (s.facultyId, c.day, c.periodNumber) ∉ occupied ∧
        ∃ f ∈ filtered, f.id = s.facultyId) := by
  intro cells
  induction cells with
  | nil => intro occupied; simp [fillCells]
  | cons cell cells ih =>
    intro occupied
    obtain ⟨day, p⟩ := cell
    simp only [fillCells]
    split
    · rename_i f hfind
      obtain ⟨ih1, ih2⟩ := ih ((f.id, day, p) :: occupied)
      have hf := (List.find?_eq_some.1 hfind).1
      have hfm : f ∈ filtered := List.mem_of_find?_eq_some hfind
      simp only [Bool.and_eq_true, Bool.not_eq_true', List.contains_eq_any_beq,
        List.any_eq_false, beq_iff_eq] at hf
      constructor
      · intro k hk
        exact ih1 k (List.mem_cons_of_mem _ hk)
      · intro c hc s hs
        rcases List.mem_cons.1 hc with hc | hc
        · subst hc
          simp only [Option.some.injEq] at hs
          subst hs
          refine ⟨ih1 _ (List.mem_cons_self _ _), ?_, f, hfm, rfl⟩
          intro hmem
          exact hf.2 _ hmem rfl
        · obtain ⟨h1, h2, h3⟩ := ih2 c hc s hs
          exact ⟨h1, fun hmem => h2 (List.mem_cons_of_mem _ hmem), h3⟩
    · obtain ⟨ih1, ih2⟩ := ih occupied
      constructor
      · exact ih1
      · intro c hc s hs
        rcases List.mem_cons.1 hc with hc | hc
        · subst hc
          exact Option.noConfusion hs
        · exact ih2 c hc s hs

theorem generateWith_spec (occupied : List OccupancyKey) (d : String)
    (roster : List RosterEntry) (schedule : List TimetableView.ScheduleItem) :
    (∀ k ∈ occupied, k ∈ (generateWith occupied d roster schedule).2) ∧
    (∀ t, (generateWith occupied d roster schedule).1 = some t →
      ∀ c ∈ t, ∀ s : Slot, c.slot = some s →
        (s.facultyId, c.day, c.periodNumber) ∈ (generateWith occupied d roster schedule).2 ∧
        (s.facultyId, c.day, c.periodNumber) ∉ occupied ∧
        ∃ f ∈ roster, f.departmentId = d ∧ f.id = s.facultyId) := by
  simp only [generateWith]
  by_cases hempty : (roster.filter (fun f => f.departmentId == d)).isEmpty = true
  · rw [if_pos hempty]
    exact ⟨fun k hk => hk, fun t ht => Option.noConfusion ht⟩
  · rw [if_neg hempty]
    obtain ⟨h1, h2⟩ := fillCells_spec (roster.filter (fun f => f.departmentId == d))
      (cellsOf schedule) occupied
    refine ⟨h1, ?_⟩
    intro t ht c hc s hs
    simp only [Option.some.injEq] at ht
    subst ht
    obtain ⟨h3, h4, f, hf, hfid⟩ := h2 c hc s hs
    refine ⟨h3, h4, f, (List.mem_filter.1 hf).1, ?_, hfid⟩
    simpa using (List.mem_filter.1 hf).2

/-- The faculty member of a filled cell comes from the filtered roster and is
available in the cell. -/
theorem fillCells_candidate (filtered : List RosterEntry) :
    ∀ (cells : List (String × Int)) (occupied : List OccupancyKey),
      ∀ c ∈ (fillCells filtered cells occupied).1, ∀ s : Slot, c.slot = some s →
        ∃ f ∈ filtered, f.id = s.facultyId ∧ isAvailable f c.day c.periodNumber = true := by
  intro cells
  induction cells with
  | nil => intro occupied; simp [fillCells]
  | cons cell cells ih =>
    intro occupied
    obtain ⟨day, p⟩ := cell
    simp only [fillCells]
    split
    · rename_i f hfind
      have hf := (List.find?_eq_some.1 hfind).1
      have hfm : f ∈ filtered := List.mem_of_find?_eq_some hfind
      simp only [Bool.and_eq_true] at hf
      intro c hc s hs
      rcases List.mem_cons.1 hc with hc | hc
      · subst hc
        simp only [Option.some.injEq] at hs
        subst hs
        exact ⟨f, hfm, rfl, hf.1⟩
      · exact ih _ c hc s hs
    · intro c hc s hs
      rcases List.mem_cons.1 hc with hc | hc
      · subst hc
        exact Option.noConfusion hs
      · exact ih _ c hc s hs

/-- The faculty member of a filled cell of a generated timetable is listed in
the roster under the target department and is available in the cell. -/
theorem generate_candidate (d : String) (roster : List RosterEntry)
    (schedule : List TimetableView.ScheduleItem) (t : Timetable)
    (ht : generate d roster schedule = some t) :
    ∀ c ∈ t, ∀ s : Slot, c.slot = some s →
      ∃ f ∈ roster, f.departmentId = d ∧ f.id = s.facultyId ∧
        isAvailable f c.day c.periodNumber = true := by
  simp only [generate, generateWith] at ht
  by_cases hempty : (roster.filter (fun f => f.departmentId == d)).isEmpty = true
  · rw [if_pos hempty] at ht
    exact Option.noConfusion ht
  · rw [if_neg hempty] at ht
    simp only [Option.some.injEq] at ht
    subst ht
    intro c hc s hs
    obtain ⟨f, hf, hfid, hav⟩ :=
      fillCells_candidate (roster.filter (fun f => f.departmentId == d)) (cellsOf schedule) []
        c hc s hs
    refine ⟨f, (List.mem_filter.1 hf).1, ?_, hfid, hav⟩
    simpa using (List.mem_filter.1 hf).2

/-- Claim C14 fails as stated: on a roster that lists `f1` under the
departments `cs` and `math`, free on Monday period 1 in both, `generate` for
`cs` and `generate` for `math` both place `f1` in the cell Monday 1. -/
theorem generate_double_books :
    ∃ t1 t2 : Timetable,
      generate "cs" sharedRoster
          (TimetableView.calculateSchedule TimetableView.exampleSettings) = some t1 ∧
      generate "math" sharedRoster
          (TimetableView.calculateSchedule TimetableView.exampleSettings) = some t2 ∧
      ({ day := "Monday", periodNumber := 1,
         slot := some { subjectName := "Programming", facultyName := "Ada",
                        facultyId := "f1" } } : Cell) ∈ t1 ∧
      ({ day := "Monday", periodNumber := 1,
         slot := some { subjectName := "Algebra", facultyName := "Ada",
                        facultyId := "f1" } } : Cell) ∈ t2 ∧
      SharesBooking t1 t2 := by
  have hm1 : Cell.mk "Monday" 1 (some (Slot.mk "Programming" "Ada" "f1")) ∈
      (fillCells (sharedRoster.filter (fun f => f.departmentId == "cs"))
        (cellsOf (TimetableView.calculateSchedule TimetableView.exampleSettings)) []).1 := by
    decide
  have hm2 : Cell.mk "Monday" 1 (some (Slot.mk "Algebra" "Ada" "f1")) ∈
      (fillCells (sharedRoster.filter (fun f => f.departmentId == "math"))
        (cellsOf (TimetableView.calculateSchedule TimetableView.exampleSettings)) []).1 := by
    decide
  exact ⟨_, _, rfl, rfl, hm1, hm2, _, hm1, _, hm2, rfl, rfl, _, _, rfl, rfl, rfl⟩

/-- Claim C14, as amended: for every roster, schedule and two different
departments such that no facultyId is listed under both departments with
availabilities that include a common `(day, periodNumber)` cell, the
timetables `generate` produces for the two departments never place the same
facultyId in the same cell. -/
theorem no_cross_department_booking (roster : List RosterEntry)
    (schedule : List TimetableView.ScheduleItem) (d1 d2 : String) (t1 t2 : Timetable)
    (hapart : ∀ f ∈ roster, ∀ g ∈ roster, f.departmentId = d1 → g.departmentId = d2 →
      f.id = g.id → ∀ (day : String) (p : Int),
        ¬ (isAvailable f day p = true ∧ isAvailable g day p = true))
    (h1 : generate d1 roster schedule = some t1)
    (h2 : generate d2 roster schedule = some t2) :
    ¬ SharesBooking t1 t2 := by
  rintro ⟨c1, hc1, c2, hc2, hday, hper, s1, s2, hs1, hs2, hsid⟩
  obtain ⟨f, hf, hfd, hfid, hfa⟩ := generate_candidate d1 roster schedule t1 h1 c1 hc1 s1 hs1
  obtain ⟨g, hg, hgd, hgid, hga⟩ := generate_candidate d2 roster schedule t2 h2 c2 hc2 s2 hs2
  refine hapart f hf g hg hfd hgd (by rw [hfid, hgid, hsid]) c1.day c1.periodNumber ⟨hfa, ?_⟩
  rw [hday, hper]
  exact hga

/-- Claim C14, as amended, on a roster that lists `f1` under `cs` for Monday
period 1 and under `math` for Monday period 2: the two timetables share no
booking. -/
theorem no_cross_department_booking_witness :
    (∀ f ∈ splitRoster, ∀ g ∈ splitRoster, f.departmentId = "cs" → g.departmentId = "math" →
      f.id = g.id → ∀ (day : String) (p : Int),
        ¬ (isAvailable f day p = true ∧ isAvailable g day p = true)) ∧
    (∃ t1 t2 : Timetable,
      generate "cs" splitRoster (TimetableView.calculateSchedule TimetableView.exampleSettings) =
        some t1 ∧
      generate "math" splitRoster
          (TimetableView.calculateSchedule TimetableView.exampleSettings) = some t2 ∧
      Cell.mk "Monday" 1 (some (Slot.mk "Programming" "Ada" "f1")) ∈ t1 ∧
      Cell.mk "Monday" 2 (some (Slot.mk "Algebra" "Ada" "f1")) ∈ t2 ∧
      ¬ SharesBooking t1 t2) := by
  have hapart : ∀ f ∈ splitRoster, ∀ g ∈ splitRoster, f.departmentId = "cs" →
      g.departmentId = "math" → f.id = g.id → ∀ (day : String) (p : Int),
        ¬ (isAvailable f day p = true ∧ isAvailable g day p = true) := by
    intro f hf g hg hfd hgd _ day p
    simp only [splitRoster, List.mem_cons, List.mem_singleton, List.not_mem_nil, or_false] at hf hg
    rcases hf with rfl | rfl
    · rcases hg with rfl | rfl
      · exact absurd hgd (by decide)
      · simp only [isAvailable]
        simp
        intro _ h1 _ h2
        omega
    · exact absurd hfd (by decide)
  exact ⟨hapart, _, _, rfl, rfl, by decide, by decide,
    no_cross_department_booking splitRoster
      (TimetableView.calculateSchedule TimetableView.exampleSettings) "cs" "math" _ _ hapart
      rfl rfl⟩

end AssignmentEngine

/-! # Properties of the timetable controller -/

namespace TimetableController

open Server

/-- Claim C12: when the generator yields no timetable for the requested
department, `generateTimetableForDepartment` answers with status 404 and
`success = false`, and the collection `Timetable` is left exactly as it was. -/
theorem generate_no_timetable (env : Env) (departmentId : String) (store : List TimetableDoc)
    (hq : departmentId ≠ "")
    (hgen : env.generateTimetable (actualDeptId env departmentId) =
      GeneratorOutcome.returned none) :
    generateTimetableForDepartment env (some departmentId) store =
      ({ status := 404, success := false, data := none }, store) := by
  simp only [generateTimetableForDepartment, hq, if_false, hgen]

theorem generate_no_timetable_witness :
    ("math" : String) ≠ "" ∧
    exampleEnv.generateTimetable (actualDeptId exampleEnv "math") =
      GeneratorOutcome.returned none ∧
    generateTimetableForDepartment exampleEnv (some "math") [mathDoc] =
      ({ status := 404, success := false, data := none }, [mathDoc]) :=
  ⟨by decide, by decide,
    generate_no_timetable exampleEnv "math" [mathDoc] (by decide) (by decide)⟩

theorem updateFirst_length {α : Type} (p : α → Bool) (f : α → α) (l : List α) :
    (updateFirst p f l).length = l.length := by
  induction l with
  | nil => rfl
  | cons x xs ih =>
    simp only [updateFirst]
    split <;> simp [ih]

theorem updateFirst_filter {α : Type} (p q : α → Bool) (f : α → α) (l : List α)
    (hq : ∀ x, p x = true → q x = false) (hf : ∀ x, p x = true → q (f x) = false) :
    (updateFirst p f l).filter q = l.filter q := by
  induction l with
  | nil => rfl
  | cons x xs ih =>
    simp only [updateFirst]
    split
    · rename_i hp
      simp [List.filter_cons, hq x hp, hf x hp]
    · simp [List.filter_cons, ih]

theorem updateFirst_find {α : Type} (p : α → Bool) (f : α → α) (l : List α) (x : α)
    (hfind : l.find? p = some x) (hf : p (f x) = true) :
    (updateFirst p f l).find? p = some (f x) := by
  induction l with
  | nil => simp at hfind
  | cons y ys ih =>
    simp only [updateFirst]
    by_cases hp : p y = true
    · rw [List.find?_cons_of_pos _ hp] at hfind
      injection hfind with hfind
      subst hfind
      simp [hp, hf]
    · rw [List.find?_cons_of_neg _ hp] at hfind
      simp [hp, ih hfind]

theorem updateFirst_filter_same {α : Type} (p : α → Bool) (f : α → α) (l : List α)
    (hf : ∀ x, p x = true → p (f x) = true) :
    ((updateFirst p f l).filter p).length = (l.filter p).length := by
  induction l with
  | nil => rfl
  | cons x xs ih =>
    simp only [updateFirst]
    split
    · rename_i hp
      simp [List.filter_cons, hp, hf x hp]
    · rename_i hp
      simp [List.filter_cons, hp, ih]

/-- Claim C13: when the generator returns a timetable `t` for the department
`d`, `generateTimetableForDepartment` answers 200 and leaves the collection
with the document for `d` holding `t`; it appends a new document exactly when
none existed for `d` and otherwise rewrites the timetable of the existing one;
the documents of every other department are unchanged; and a collection with
at most one document per department still has at most one per department. -/
theorem generate_upsert (env : Env) (departmentId : String) (store : List TimetableDoc)
    (t : AssignmentEngine.Timetable) (d : ObjectId)
    (hq : departmentId ≠ "")
    (hgen : env.generateTimetable (actualDeptId env departmentId) =
      GeneratorOutcome.returned (some t))
    (hcast : env.castObjectId (actualDeptId env departmentId) = some d)
    (hnew : ∀ doc ∈ store, doc._id ≠ env.newId) :
    (generateTimetableForDepartment env (some departmentId) store).1.status = 200 ∧
    (∃ doc, (generateTimetableForDepartment env (some departmentId) store).2.find?
        (fun x => x.department == d) = some doc ∧ doc.timetable = t ∧
        (generateTimetableForDepartment env (some departmentId) store).1.data = some doc) ∧
    (store.find? (fun x => x.department == d) = none →
      (generateTimetableForDepartment env (some departmentId) store).2 =
        store ++ [{ _id := env.newId, department := d, timetable := t }]) ∧
    (∀ old, store.find? (fun x => x.department == d) = some old →
      (generateTimetableForDepartment env (some departmentId) store).2 =
        updateFirst (fun x => x.department == d) (fun _ => { old with timetable := t })
          store ∧
      (generateTimetableForDepartment env (some departmentId) store).2.length =
        store.length) ∧
    (generateTimetableForDepartment env (some departmentId) store).2.filter
        (fun x => x.department != d) = store.filter (fun x => x.department != d) ∧
    ((∀ e : ObjectId, (store.filter (fun x => x.department == e)).length ≤ 1) →
      ∀ e : ObjectId, ((generateTimetableForDepartment env (some departmentId) store).2.filter
        (fun x => x.department == e)).length ≤ 1) := by
  have hany : store.any (fun doc => doc._id == env.newId) = false := by
    rw [List.any_eq_false]
    intro doc hdoc
    simpa using hnew doc hdoc
  cases hfind : store.find? (fun x => x.department == d) with
  | none =>
    have hres : generateTimetableForDepartment env (some departmentId) store =
        ({ status := 200, success := true,
           data := some { _id := env.newId, department := d, timetable := t } },
          store ++ [{ _id := env.newId, department := d, timetable := t }]) := by
      simp only [generateTimetableForDepartment, hq, if_false, hgen, hcast, hfind, hany]
      simp
    rw [hres]
    have hnone : ∀ x ∈ store, ¬ (x.department == d) = true := by
      simpa using hfind
    refine ⟨rfl, ?_, fun _ => rfl, ?_, ?_, ?_⟩
    · refine ⟨{ _id := env.newId, department := d, timetable := t }, ?_, rfl, rfl⟩
      rw [List.find?_append, hfind]
      simp
    · intro old hold
      exact Option.noConfusion hold
    · simp [List.filter_append]
    · intro huniq e
      simp only [List.filter_append, List.length_append]
      by_cases hed : e = d
      · subst hed
        have : store.filter (fun x => x.department == e) = [] := by
          rw [List.filter_eq_nil_iff]; exact hnone
        simp [this]
      · have : ([{ _id := env.newId, department := d, timetable := t }] : List TimetableDoc).filter
            (fun x => x.department == e) = [] := by
          simp [List.filter_cons, Ne.symm hed]
        rw [this]
        simpa using huniq e
  | some old =>
    have hold : (old.department == d) = true := (List.find?_eq_some.1 hfind).1
    have holdd : old.department = d := by simpa using hold
    have hres : generateTimetableForDepartment env (some departmentId) store =
        ({ status := 200, success := true, data := some { old with timetable := t } },
          updateFirst (fun x => x.department == d) (fun _ => { old with timetable := t })
            store) := by
      simp only [generateTimetableForDepartment, hq, if_false, hgen, hcast, hfind]
    rw [hres]
    refine ⟨rfl, ?_, ?_, ?_, ?_, ?_⟩
    · refine ⟨{ old with timetable := t }, ?_, rfl, rfl⟩
      have := updateFirst_find (fun x : TimetableDoc => x.department == d)
        (fun _ => { old with timetable := t }) store old hfind hold
      exact this
    · intro hcon
      exact Option.noConfusion hcon
    · intro old2 hold2
      injection hold2 with hold2
      subst hold2
      exact ⟨rfl, updateFirst_length _ _ _⟩
    · apply updateFirst_filter
      · intro x hx
        simp only [beq_iff_eq] at hx
        simp [hx]
      · intro x _
        simp [holdd]
    · intro huniq e
      by_cases hed : e = d
      · subst hed
        have hsame := updateFirst_filter_same (fun x : TimetableDoc => x.department == e)
          (fun _ => { old with timetable := t }) store (fun _ _ => hold)
        show ((updateFirst (fun x : TimetableDoc => x.department == e)
          (fun _ => { old with timetable := t }) store).filter
            (fun x => x.department == e)).length ≤ 1
        rw [hsame]
        exact huniq e
      · have : (updateFirst (fun x => x.department == d)
            (fun _ => { old with timetable := t }) store).filter (fun x => x.department == e) =
            store.filter (fun x => x.department == e) := by
          apply updateFirst_filter
          · intro x hx
            simp only [beq_iff_eq] at hx
            simp [hx, Ne.symm hed]
          · intro x _
            simp [holdd, Ne.symm hed]
        show ((updateFirst (fun x : TimetableDoc => x.department == d)
          (fun _ => { old with timetable := t }) store).filter
            (fun x => x.department == e)).length ≤ 1
        rw [this]
        exact huniq e

theorem generate_upsert_witness :
    ("cs" : String) ≠ "" ∧
    exampleEnv.generateTimetable (actualDeptId exampleEnv "cs") =
      GeneratorOutcome.returned (some exampleTimetable) ∧
    exampleEnv.castObjectId (actualDeptId exampleEnv "cs") = some "cs" ∧
    (∀ doc ∈ [mathDoc], doc._id ≠ exampleEnv.newId) ∧
    (generateTimetableForDepartment exampleEnv (some "cs") [mathDoc]).2 =
      [mathDoc] ++ [{ _id := exampleEnv.newId, department := "cs", timetable := exampleTimetable }] :=
  ⟨by decide, by decide, by decide, by decide,
    (generate_upsert exampleEnv "cs" [mathDoc] exampleTimetable "cs" (by decide) (by decide)
      (by decide) (by decide)).2.2.1 (by decide)⟩

end TimetableController

/-! # Properties of the faculty controller -/

namespace FacultyController

open Server

theorem updateFirst_mem {α : Type} (p : α → Bool) (f : α → α) (l : List α) :
    ∀ y ∈ updateFirst p f l, y ∈ l ∨ ∃ x ∈ l, p x = true ∧ y = f x := by
  induction l with
  | nil => intro y hy; simp [updateFirst] at hy
  | cons x xs ih =>
    intro y hy
    simp only [updateFirst] at hy
    split at hy
    · rename_i hp
      rcases List.mem_cons.1 hy with h | h
      · exact Or.inr ⟨x, List.mem_cons_self _ _, hp, h⟩
      · exact Or.inl (List.mem_cons_of_mem _ h)
    · rcases List.mem_cons.1 hy with h | h
      · exact Or.inl (h ▸ List.mem_cons_self _ _)
      · rcases ih y h with h2 | ⟨z, hz, hpz, hyz⟩
        · exact Or.inl (List.mem_cons_of_mem _ h2)
        · exact Or.inr ⟨z, List.mem_cons_of_mem _ hz, hpz, hyz⟩

theorem updateFirst_mem_new {α : Type} (p : α → Bool) (f : α → α) (l : List α) (x : α)
    (hfind : l.find? p = some x) : f x ∈ updateFirst p f l := by
  induction l with
  | nil => simp at hfind
  | cons y ys ih =>
    simp only [updateFirst]
    by_cases hp : p y = true
    · rw [List.find?_cons_of_pos _ hp] at hfind
      injection hfind with hfind
      subst hfind
      simp [hp]
    · rw [List.find?_cons_of_neg _ hp] at hfind
      simp [hp, ih hfind]

/-- What a successful `addFaculty` has done. -/
theorem addFaculty_created (env : Env) (body : Body) (store : List FacultyDoc)
    (h : (addFaculty env body store).1.status = 201) :
    ∃ (c : String) (s : Subject) (doc : FacultyDoc),
      body.subjectCode = some c ∧ env.subjects.find? (fun x => x.code == c) = some s ∧
      (addFaculty env body store).1.data = some doc ∧
      (addFaculty env body store).2 = store ++ [doc] ∧
      (addFaculty env body store).2.find? (fun d => d._id == doc._id) = some doc ∧
      doc.subject = s._id ∧ s.department = some doc.department := by
  cases hn : body.name with
  | none => simp only [addFaculty, hn, if_true, if_false] at h; simp at h
  | some name =>
    cases hc : body.subjectCode with
    | none => simp only [addFaculty, hn, hc, if_true, if_false] at h; simp at h
    | some subjectCode =>
      cases ha : body.availability with
      | none => simp only [addFaculty, hn, hc, ha, if_true, if_false] at h; simp at h
      | some availability =>
        by_cases hbad : (decide (name = "") || decide (subjectCode = "") ||
            decide (availability.length = 0)) = true
        · simp only [addFaculty, hn, hc, ha, hbad, if_true, if_false] at h; simp at h
        · cases hsub : env.subjects.find? (fun x => x.code == subjectCode) with
          | none => simp only [addFaculty, hn, hc, ha, hbad, hsub, if_true, if_false] at h; simp at h
          | some subjectDoc =>
            cases hdep : subjectDoc.department with
            | none => simp only [addFaculty, hn, hc, ha, hbad, hsub, hdep, if_true, if_false] at h; simp at h
            | some departmentId =>
              by_cases hval : (validates name availability &&
                  !store.any (fun doc => doc._id == env.newId)) = true
              · refine ⟨subjectCode, subjectDoc,
                  { _id := env.newId, name := jsTrim name, subject := subjectDoc._id,
                    department := departmentId, availability := availability }, rfl, hsub, ?_⟩
                have hnone : store.find? (fun d => d._id == env.newId) = none := by
                  rw [List.find?_eq_none]
                  intro x hx
                  simp only [Bool.and_eq_true, Bool.not_eq_true', List.any_eq_false] at hval
                  exact hval.2 x hx
                simp only [addFaculty, hn, hc, ha, hbad, hsub, hdep, hval, if_true, if_false]
                simp [List.find?_append, hnone]
              · simp only [addFaculty, hn, hc, ha, hbad, hsub, hdep, hval, if_true, if_false] at h; simp at h

/-- What a successful `updateFaculty` has done. -/
theorem updateFaculty_updated (env : Env) (id : String) (body : Body) (store : List FacultyDoc)
    (h : (updateFaculty env id body store).1.status = 200) :
    ∃ (c : String) (s : Subject) (doc : FacultyDoc),
      body.subjectCode = some c ∧ env.subjects.find? (fun x => x.code == c) = some s ∧
      (updateFaculty env id body store).1.data = some doc ∧
      (∃ old, store.find? (fun d => d._id == doc._id) = some old ∧
        (updateFaculty env id body store).2 =
          updateFirst (fun d => d._id == doc._id) (fun _ => doc) store) ∧
      env.castObjectId id = some doc._id ∧
      (updateFaculty env id body store).2.find? (fun d => d._id == doc._id) = some doc ∧
      (updateFaculty env id body store).2.filter (fun d => d._id != doc._id) =
        store.filter (fun d => d._id != doc._id) ∧
      (updateFaculty env id body store).2.length = store.length ∧
      doc.subject = s._id ∧ s.department = some doc.department := by
  cases hn : body.name with
  | none => simp only [updateFaculty, hn, if_true, if_false] at h; simp at h
  | some name =>
    cases hc : body.subjectCode with
    | none => simp only [updateFaculty, hn, hc, if_true, if_false] at h; simp at h
    | some subjectCode =>
      cases ha : body.availability with
      | none => simp only [updateFaculty, hn, hc, ha, if_true, if_false] at h; simp at h
      | some availability =>
        by_cases hbad : (decide (name = "") || decide (subjectCode = "")) = true
        · simp only [updateFaculty, hn, hc, ha, hbad, if_true, if_false] at h; simp at h
        · by_cases hlen : availability.length = 0
          · simp only [updateFaculty, hn, hc, ha, hbad, hlen, if_true, if_false] at h; simp at h
          · cases hsub : env.subjects.find? (fun x => x.code == subjectCode) with
            | none => simp only [updateFaculty, hn, hc, ha, hbad, hlen, hsub, if_true, if_false] at h; simp at h
            | some subjectDoc =>
              cases hdep : subjectDoc.department with
              | none => simp only [updateFaculty, hn, hc, ha, hbad, hlen, hsub, hdep, if_true, if_false] at h; simp at h
              | some departmentId =>
                cases hcast : env.castObjectId id with
                | none => simp only [updateFaculty, hn, hc, ha, hbad, hlen, hsub, hdep, hcast, if_true, if_false] at h; simp at h
                | some oid =>
                  by_cases hval : validates name availability = true
                  · cases hfind : store.find? (fun doc => doc._id == oid) with
                    | none =>
                      simp only [updateFaculty, hn, hc, ha, hbad, hlen, hsub, hdep, hcast, hval,
                        hfind, if_true, if_false] at h; simp at h
                    | some old =>
                      have hid : old._id = oid := by
                        have := (List.find?_eq_some.1 hfind).1
                        simpa using this
                      subst hid
                      have hres : updateFaculty env id body store =
                          ({ status := 200, success := true,
                             data := some { old with name := jsTrim name,
                                                     subject := subjectDoc._id,
                                                     department := departmentId,
                                                     availability := availability } },
                            updateFirst (fun d => d._id == old._id)
                              (fun _ => { old with name := jsTrim name,
                                                   subject := subjectDoc._id,
                                                   department := departmentId,
                                                   availability := availability }) store) := by
                        simp only [updateFaculty, hn, hc, ha, hbad, hlen, hsub, hdep, hcast, hval,
                          hfind, if_true, if_false]
                        simp
                      refine ⟨subjectCode, subjectDoc,
                        { old with name := jsTrim name, subject := subjectDoc._id,
                                   department := departmentId, availability := availability },
                        rfl, hsub, ?_⟩
                      rw [hres]
                      refine ⟨rfl, ⟨old, hfind, rfl⟩, rfl, ?_, ?_, ?_, rfl, hdep⟩
                      · exact TimetableController.updateFirst_find _ _ store old hfind (by simp)
                      · exact TimetableController.updateFirst_filter _ _ _ store
                          (fun x hx => by simpa using hx) (fun x _ => by simp)
                      · exact TimetableController.updateFirst_length _ _ store
                  · simp only [updateFaculty, hn, hc, ha, hbad, hlen, hsub, hdep, hcast, hval, if_true, if_false] at h; simp at h

/-- A well-formed request succeeds: `addFaculty` answers 201 when the new
`_id` is free, `updateFaculty` answers 200 when the id is that of a stored
document. -/
theorem faculty_request_succeeds (env : Env) (id : String) (body : Body)
    (store : List FacultyDoc) (name c : String) (av : List AvailabilityEntry) (s : Subject)
    (d : ObjectId)
    (hbn : body.name = some name) (hbc : body.subjectCode = some c)
    (hba : body.availability = some av)
    (hname : jsTrim name ≠ "") (hc : c ≠ "") (hav : av ≠ [])
    (hday : ∀ a ∈ av, a.day ≠ "")
    (hsub : env.subjects.find? (fun x => x.code == c) = some s)
    (hdep : s.department = some d) :
    ((∀ doc ∈ store, doc._id ≠ env.newId) → (addFaculty env body store).1.status = 201) ∧
    (∀ old : FacultyDoc, env.castObjectId id = some old._id →
      store.find? (fun doc => doc._id == old._id) = some old →
      (updateFaculty env id body store).1.status = 200) := by
  have hn : name ≠ "" := by
    intro h; subst h; exact hname (by decide)
  have hlen : ¬ av.length = 0 := by
    intro h; exact hav (List.length_eq_zero.1 h)
  have hval : validates name av = true := by
    simp only [validates, Bool.and_eq_true, bne_iff_ne, ne_eq, List.all_eq_true]
    exact ⟨hname, hday⟩
  constructor
  · intro hnew
    have hany : store.any (fun doc => doc._id == env.newId) = false := by
      rw [List.any_eq_false]
      intro doc hdoc
      simpa using hnew doc hdoc
    simp [addFaculty, hbn, hbc, hba, hn, hc, hlen, hsub, hdep, hval, hany]
  · intro old hcast hfind
    simp [updateFaculty, hbn, hbc, hba, hn, hc, hlen, hsub, hdep, hval, hcast, hfind]

theorem addFaculty_store (env : Env) (body : Body) (store : List FacultyDoc) :
    (addFaculty env body store).1.status = 201 ∨ (addFaculty env body store).2 = store := by
  unfold addFaculty
  split
  · split
    · exact Or.inr rfl
    · split
      · exact Or.inr rfl
      · split
        · exact Or.inr rfl
        · split
          · exact Or.inl rfl
          · exact Or.inr rfl
  · exact Or.inr rfl

theorem updateFaculty_store (env : Env) (id : String) (body : Body) (store : List FacultyDoc) :
    (updateFaculty env id body store).1.status = 200 ∨
      (updateFaculty env id body store).2 = store := by
  unfold updateFaculty
  split
  · split
    · exact Or.inr rfl
    · split
      · exact Or.inr rfl
      · split
        · exact Or.inr rfl
        · split
          · exact Or.inr rfl
          · split
            · exact Or.inr rfl
            · split
              · split
                · exact Or.inr rfl
                · exact Or.inl rfl
              · exact Or.inr rfl
  · exact Or.inr rfl

/-- Claim C15: after a successful `addFaculty` (201) or `updateFaculty` (200)
with subject code `c`, the faculty document found under its `_id` in the
collection has `subject` = the `_id` of the subject whose code is `c` and
`department` = that subject's department, the other documents being
unchanged; a well-formed request with the code of a subject that has a
department does succeed; both operations preserve the invariant that the
department of a faculty document is the department of its subject; and
neither depends on the `department` field of the request body. -/
theorem faculty_department_of_subject (env : Env) (id : String) (body : Body)
    (store : List FacultyDoc) :
    ((addFaculty env body store).1.status = 201 →
      ∃ (c : String) (s : Subject) (doc : FacultyDoc),
        body.subjectCode = some c ∧ env.subjects.find? (fun x => x.code == c) = some s ∧
        (addFaculty env body store).1.data = some doc ∧
        (addFaculty env body store).2 = store ++ [doc] ∧
        (addFaculty env body store).2.find? (fun d => d._id == doc._id) = some doc ∧
        doc.subject = s._id ∧ s.department = some doc.department) ∧
    ((updateFaculty env id body store).1.status = 200 →
      ∃ (c : String) (s : Subject) (doc : FacultyDoc),
        body.subjectCode = some c ∧ env.subjects.find? (fun x => x.code == c) = some s ∧
        (updateFaculty env id body store).1.data = some doc ∧
        (∃ old, store.find? (fun d => d._id == doc._id) = some old ∧
          (updateFaculty env id body store).2 =
            updateFirst (fun d => d._id == doc._id) (fun _ => doc) store) ∧
        env.castObjectId id = some doc._id ∧
        (updateFaculty env id body store).2.find? (fun d => d._id == doc._id) = some doc ∧
        (updateFaculty env id body store).2.filter (fun d => d._id != doc._id) =
          store.filter (fun d => d._id != doc._id) ∧
        (updateFaculty env id body store).2.length = store.length ∧
        doc.subject = s._id ∧ s.department = some doc.department) ∧
    (∀ (name c : String) (av : List AvailabilityEntry) (s : Subject) (d : ObjectId),
      body.name = some name → body.subjectCode = some c → body.availability = some av →
      jsTrim name ≠ "" → c ≠ "" → av ≠ [] → (∀ a ∈ av, a.day ≠ "") →
      env.subjects.find? (fun x => x.code == c) = some s → s.department = some d →
      ((∀ doc ∈ store, doc._id ≠ env.newId) → (addFaculty env body store).1.status = 201) ∧
      (∀ old : FacultyDoc, env.castObjectId id = some old._id →
        store.find? (fun doc => doc._id == old._id) = some old →
        (updateFaculty env id body store).1.status = 200)) ∧
    (DepartmentOfSubject env store →
      DepartmentOfSubject env (addFaculty env body store).2 ∧
      DepartmentOfSubject env (updateFaculty env id body store).2) ∧
    (∀ dep : Option String,
      addFaculty env { body with department := dep } store = addFaculty env body store ∧
      updateFaculty env id { body with department := dep } store =
        updateFaculty env id body store) := by
  refine ⟨addFaculty_created env body store, updateFaculty_updated env id body store, ?_, ?_,
    fun _ => ⟨rfl, rfl⟩⟩
  · intro name c av s d hbn hbc hba hname hc hav hday hsub hdep
    exact faculty_request_succeeds env id body store name c av s d hbn hbc hba hname hc hav
      hday hsub hdep
  intro hinv
  constructor
  · rcases addFaculty_store env body store with h | h
    · obtain ⟨c, s, doc, _, hsub, _, hstore, _, h1, h2⟩ := addFaculty_created env body store h
      rw [hstore]
      intro x hx
      rcases List.mem_append.1 hx with hx | hx
      · exact hinv x hx
      · rw [List.mem_singleton] at hx
        subst hx
        exact ⟨s, List.mem_of_find?_eq_some hsub, h1.symm, h2⟩
    · rw [h]; exact hinv
  · rcases updateFaculty_store env id body store with h | h
    · obtain ⟨c, s, doc, _, hsub, _, ⟨old, _, hstore⟩, _, _, _, _, h1, h2⟩ :=
        updateFaculty_updated env id body store h
      rw [hstore]
      intro x hx
      rcases updateFirst_mem _ _ store x hx with hx | ⟨y, _, _, hxy⟩
      · exact hinv x hx
      · subst hxy
        exact ⟨s, List.mem_of_find?_eq_some hsub, h1.symm, h2⟩
    · rw [h]; exact hinv

/-- Claim C15 on a stored faculty member of subject `CS101`, department `cs`:
an update with the code `MA101` and a body naming the department `cs` answers
200 and stores subject `s2` and department `math`; an add with the same body
answers 201. -/
theorem faculty_department_of_subject_witness :
    updateFaculty twoSubjectEnv "f1" mathBody [storedFaculty] =
      ({ status := 200, success := true,
         data := some { _id := "f1", name := "Ada", subject := "s2", department := "math",
                        availability := [{ day := "Tuesday", periods := [2] }] } },
        [{ _id := "f1", name := "Ada", subject := "s2", department := "math",
           availability := [{ day := "Tuesday", periods := [2] }] }]) ∧
    (∃ (c : String) (s : Subject) (doc : FacultyDoc),
      mathBody.subjectCode = some c ∧
      twoSubjectEnv.subjects.find? (fun x => x.code == c) = some s ∧
      (updateFaculty twoSubjectEnv "f1" mathBody [storedFaculty]).1.data = some doc ∧
      (∃ old, [storedFaculty].find? (fun d => d._id == doc._id) = some old ∧
        (updateFaculty twoSubjectEnv "f1" mathBody [storedFaculty]).2 =
          updateFirst (fun d => d._id == doc._id) (fun _ => doc) [storedFaculty]) ∧
      twoSubjectEnv.castObjectId "f1" = some doc._id ∧
      (updateFaculty twoSubjectEnv "f1" mathBody [storedFaculty]).2.find?
          (fun d => d._id == doc._id) = some doc ∧
      (updateFaculty twoSubjectEnv "f1" mathBody [storedFaculty]).2.filter
          (fun d => d._id != doc._id) = [storedFaculty].filter (fun d => d._id != doc._id) ∧
      (updateFaculty twoSubjectEnv "f1" mathBody [storedFaculty]).2.length =
        [storedFaculty].length ∧
      doc.subject = s._id ∧ s.department = some doc.department) ∧
    (addFaculty twoSubjectEnv mathBody [storedFaculty]).1.status = 201 ∧
    (∃ (c : String) (s : Subject) (doc : FacultyDoc),
      mathBody.subjectCode = some c ∧
      twoSubjectEnv.subjects.find? (fun x => x.code == c) = some s ∧
      (addFaculty twoSubjectEnv mathBody [storedFaculty]).1.data = some doc ∧
      (addFaculty twoSubjectEnv mathBody [storedFaculty]).2 = [storedFaculty] ++ [doc] ∧
      (addFaculty twoSubjectEnv mathBody [storedFaculty]).2.find?
          (fun d => d._id == doc._id) = some doc ∧
      doc.subject = s._id ∧ s.department = some doc.department) :=
  ⟨by decide,
    (faculty_department_of_subject twoSubjectEnv "f1" mathBody [storedFaculty]).2.1 (by decide),
    by decide,
    (faculty_department_of_subject twoSubjectEnv "f1" mathBody [storedFaculty]).1 (by decide)⟩

theorem jsTrim_empty : jsTrim "" = "" := by decide

/-- Claim C16, as amended: `addFaculty` and `updateFaculty` do not look at the
period numbers. A request with a non-blank name, the code of a subject that
has a department, and a non-empty availability whose entries have a day is
accepted whatever period numbers it holds: `addFaculty` answers 201 and
stores the availability as submitted, `updateFaculty` answers 200 for an
existing faculty id and stores it as submitted. -/
theorem faculty_periods_unchecked (env : Env) (store : List FacultyDoc) (name c : String)
    (av : List AvailabilityEntry) (s : Subject) (d : ObjectId) (dep : Option String)
    (hname : jsTrim name ≠ "") (hc : c ≠ "") (hav : av ≠ [])
    (hday : ∀ a ∈ av, a.day ≠ "")
    (hsub : env.subjects.find? (fun x => x.code == c) = some s)
    (hdep : s.department = some d) :
    ((∀ doc ∈ store, doc._id ≠ env.newId) →
      addFaculty env
          { name := some name, subjectCode := some c, availability := some av,
            department := dep } store =
        ({ status := 201, success := true,
           data := some { _id := env.newId, name := jsTrim name, subject := s._id,
                          department := d, availability := av } },
          store ++ [{ _id := env.newId, name := jsTrim name, subject := s._id,
                      department := d, availability := av }])) ∧
    (∀ (id : String) (old : FacultyDoc), env.castObjectId id = some old._id →
      store.find? (fun doc => doc._id == old._id) = some old →
      updateFaculty env id
          { name := some name, subjectCode := some c, availability := some av,
            department := dep } store =
        ({ status := 200, success := true,
           data := some { old with name := jsTrim name, subject := s._id, department := d,
                                   availability := av } },
          updateFirst (fun doc => doc._id == old._id)
            (fun _ => { old with name := jsTrim name, subject := s._id, department := d,
                                 availability := av }) store)) := by
  have hn : name ≠ "" := by
    intro h; subst h; exact hname jsTrim_empty
  have hlen : ¬ av.length = 0 := by
    intro h; exact hav (List.length_eq_zero.1 h)
  have hval : validates name av = true := by
    simp only [validates, Bool.and_eq_true, bne_iff_ne, ne_eq, List.all_eq_true]
    exact ⟨hname, hday⟩
  constructor
  · intro hnew
    have hany : store.any (fun doc => doc._id == env.newId) = false := by
      rw [List.any_eq_false]
      intro doc hdoc
      simpa using hnew doc hdoc
    simp [addFaculty, hn, hc, hlen, hsub, hdep, hval, hany]
  · intro id old hcast hfind
    simp [updateFaculty, hn, hc, hlen, hsub, hdep, hval, hcast, hfind]

/-- Counterexample to claim C16 as stated: with `numberOfPeriods = 4`, a
request whose availability holds the period number 99 is answered 201 by
`addFaculty` and 200 by `updateFaculty`, and the period 99 is stored. -/
theorem faculty_out_of_range_stored :
    TimetableView.exampleSettings.numberOfPeriods = 4 ∧
    addFaculty exampleEnv outOfRangeBody [] =
      ({ status := 201, success := true,
         data := some { _id := "f9", name := "Ada", subject := "s1", department := "cs",
                        availability := [{ day := "Monday", periods := [99] }] } },
        [{ _id := "f9", name := "Ada", subject := "s1", department := "cs",
           availability := [{ day := "Monday", periods := [99] }] }]) ∧
    updateFaculty exampleEnv "f1" outOfRangeBody [storedFaculty] =
      ({ status := 200, success := true,
         data := some { _id := "f1", name := "Ada", subject := "s1", department := "cs",
                        availability := [{ day := "Monday", periods := [99] }] } },
        [{ _id := "f1", name := "Ada", subject := "s1", department := "cs",
           availability := [{ day := "Monday", periods := [99] }] }]) := by
  decide

theorem faculty_periods_unchecked_witness :
    jsTrim "Ada" ≠ "" ∧
    addFaculty exampleEnv
        { name := some "Ada", subjectCode := some "CS101",
          availability := some [{ day := "Monday", periods := [99] }], department := none } [] =
      ({ status := 201, success := true,
         data := some { _id := exampleEnv.newId, name := jsTrim "Ada", subject := "s1",
                        department := "cs",
                        availability := [{ day := "Monday", periods := [99] }] } },
        [] ++ [{ _id := exampleEnv.newId, name := jsTrim "Ada", subject := "s1",
                 department := "cs",
                 availability := [{ day := "Monday", periods := [99] }] }]) :=
  ⟨by decide,
    (faculty_periods_unchecked exampleEnv [] "Ada" "CS101" [{ day := "Monday", periods := [99] }]
      { _id := "s1", code := "CS101", department := some "cs" } "cs" none (by decide)
      (by decide) (by decide) (by decide) (by decide) (by decide)).1 (by decide)⟩

end FacultyController

/-! # Further properties of the schedule calculation -/

namespace TimetableView

/-! ## Rendering and parsing round trip -/

set_option maxRecDepth 100000 in
theorem formatTime_bounded_hm :
    ∀ h < 24, ∀ mm < 60,
      formatTime (JSNum.num ((h * 60 + mm : Nat) : Int)) =
        clockString (clockHour (h * 60 + mm)) ((h * 60 + mm) % 60)
          (clockPeriod (h * 60 + mm)) := by
  decide

/-- The rendering of a minute `m` of the day: hour `clockHour m`, minute
`m % 60`, period `clockPeriod m`. -/
theorem formatTime_bounded (m : Nat) (hm : m < 1440) :
    formatTime (JSNum.num (m : Nat)) = clockString (clockHour m) (m % 60) (clockPeriod m) := by
  have := formatTime_bounded_hm (m / 60) (by omega) (m % 60) (by omega)
  have e : m / 60 * 60 + m % 60 = m := by omega
  rw [e] at this
  exact this

/-- Claim C25: for every integer `m` with `0 ≤ m < 1440`, `formatTime m` has
the form `H:MM AM|PM` with `H` in 1..12 and `MM` the two-digit minute, and
`parseTime (formatTime m) = m`. -/
theorem formatTime_parseTime (m : Int) (h0 : 0 ≤ m) (h1 : m < 1440) :
    (∃ (h mm : Nat) (period : String), 1 ≤ h ∧ h ≤ 12 ∧ mm ≤ 59 ∧
      (period = "AM" ∨ period = "PM") ∧ formatTime (JSNum.num m) = clockString h mm period) ∧
    parseTime (formatTime (JSNum.num m)) = JSNum.num m := by
  obtain ⟨k, rfl⟩ := Int.eq_ofNat_of_zero_le h0
  have hk : k < 1440 := by omega
  have hfmt := formatTime_bounded k hk
  have hh1 : 1 ≤ clockHour k := by unfold clockHour; split <;> omega
  have hh12 : clockHour k ≤ 12 := by unfold clockHour; split <;> omega
  have hmm : k % 60 ≤ 59 := by omega
  constructor
  · refine ⟨clockHour k, k % 60, clockPeriod k, hh1, hh12, hmm, ?_, hfmt⟩
    unfold clockPeriod
    split
    · exact Or.inr rfl
    · exact Or.inl rfl
  · rw [hfmt]
    obtain ⟨ha, hp⟩ := parseTime_clock_bounded (clockHour k) (by omega) (k % 60) (by omega) hh1
    by_cases hpm : 12 ≤ k / 60
    · have : clockPeriod k = "PM" := by unfold clockPeriod; rw [if_pos hpm]
      rw [this, hp]
      congr 1
      have : clockHour k % 12 * 60 + k % 60 + 720 = k := by
        unfold clockHour; split <;> omega
      exact_mod_cast this
    · have : clockPeriod k = "AM" := by unfold clockPeriod; rw [if_neg hpm]
      rw [this, ha]
      congr 1
      have : clockHour k % 12 * 60 + k % 60 = k := by
        unfold clockHour; split <;> omega
      exact_mod_cast this

/-- Claim C25 at `m = 750`: the rendering is `12:30 PM` and parses back to 750. -/
theorem formatTime_parseTime_witness :
    (0 : Int) ≤ 750 ∧ (750 : Int) < 1440 ∧ formatTime (JSNum.num 750) = "12:30 PM" ∧
    parseTime (formatTime (JSNum.num 750)) = JSNum.num 750 :=
  ⟨by decide, by decide, by decide, (formatTime_parseTime 750 (by decide) (by decide)).2⟩

/-! ## Monotonicity in the number of periods -/

/-- With the same fuel, the run for a smaller number of periods is a prefix of
the run for a larger one. -/
theorem scheduleLoop_prefix (e : JSNum) (pd n m : Int) (hnm : n ≤ m) :
    ∀ (fuel : Nat) (cur : JSNum) (pn : Int) (l : List EnabledBreak),
      scheduleLoop e pd n fuel cur pn l <+: scheduleLoop e pd m fuel cur pn l := by
  intro fuel
  induction fuel with
  | zero => intro cur pn l; exact List.nil_prefix
  | succ fuel ih =>
    intro cur pn l
    by_cases hpn : pn ≤ n
    · have hpm : pn ≤ m := le_trans hpn hnm
      rw [scheduleLoop_succ, scheduleLoop_succ]
      simp only [hpn, hpm, decide_True, Bool.and_true]
      split
      · split
        · split
          · exact (List.prefix_cons_inj _).2 ((List.prefix_cons_inj _).2 (ih _ _ _))
          · exact (List.prefix_cons_inj _).2 (ih _ _ _)
        · split
          · exact (List.prefix_cons_inj _).2 (ih _ _ _)
          · exact List.nil_prefix
      · exact List.nil_prefix
    · have : scheduleLoop e pd n (fuel + 1) cur pn l = [] := by
        rw [scheduleLoop_succ]; simp [hpn]
      rw [this]
      exact List.nil_prefix

/-- Claim C26: for `N ≤ M` and any settings, the output of `calculateSchedule`
with `numberOfPeriods = N` is a prefix of the output with `numberOfPeriods = M`,
all other settings equal. -/
theorem calculateSchedule_prefix (s : Settings) (n m : Int) (hnm : n ≤ m) :
    calculateSchedule { s with numberOfPeriods := n } <+:
      calculateSchedule { s with numberOfPeriods := m } := by
  have hbr : enabledBreaksOf { s with numberOfPeriods := n } = enabledBreaksOf s := rfl
  have hbr2 : enabledBreaksOf { s with numberOfPeriods := m } = enabledBreaksOf s := rfl
  simp only [calculateSchedule, hbr, hbr2]
  rw [scheduleLoop_fuel_irrelevant (parseTime s.workingHours.endTime) s.periodDuration n
    (loopFuel n (enabledBreaksOf s)) (loopFuel m (enabledBreaksOf s)) _ 1 _
    (by simp only [loopFuel]; omega) (by simp only [loopFuel]; omega)]
  exact scheduleLoop_prefix _ _ n m hnm _ _ _ _

/-- Claim C26 on the example settings, with 2 and 4 periods. -/
theorem calculateSchedule_prefix_witness :
    (2 : Int) ≤ 4 ∧
    calculateSchedule { exampleSettings with numberOfPeriods := 2 } <+:
      calculateSchedule { exampleSettings with numberOfPeriods := 4 } :=
  ⟨by decide, calculateSchedule_prefix exampleSettings 2 4 (by decide)⟩

/-! ## Fewer periods than asked for -/

/-- Putting an element in front of a non-empty list keeps its last element. -/
theorem getLast?_cons_of_some {α : Type} (a : α) (l : List α) (x : α)
    (h : l.getLast? = some x) : (a :: l).getLast? = some x := by
  cases l with
  | nil => simp at h
  | cons b l => rw [List.getLast?_cons_cons]; exact h

/-- A run with enough fuel that emits fewer periods than remain to be numbered
either emits nothing, the loop guard `currentTime < endMinutes` failing at
once, or ends with a block whose end is not before `endMinutes`. -/
theorem scheduleLoop_shortfall (e : JSNum) (pd n : Int) (hpd : 0 < pd) :
    ∀ (fuel : Nat) (cur : JSNum) (pn : Int) (l : List EnabledBreak),
      l.length + (n + 1 - pn).toNat < fuel →
      (((scheduleLoop e pd n fuel cur pn l).filter ScheduleItem.isPeriod).length : Int) <
        n + 1 - pn →
      (scheduleLoop e pd n fuel cur pn l = [] ∧ cur.lt e = false) ∨
      (∃ last, (scheduleLoop e pd n fuel cur pn l).getLast? = some last ∧
        last.endMinutes.lt e = false) := by
  intro fuel
  induction fuel with
  | zero => intro cur pn l hf; omega
  | succ fuel ih =>
    intro cur pn l hf hcount
    have hpn : pn ≤ n := by
      have : (0 : Int) ≤ (((scheduleLoop e pd n (fuel + 1) cur pn l).filter
        ScheduleItem.isPeriod).length : Int) := Int.ofNat_nonneg _
      omega
    by_cases hlt : cur.lt e = true
    · rw [scheduleLoop_succ] at hcount ⊢
      simp only [hlt, hpn, decide_True, Bool.and_true, Bool.and_self, if_true] at hcount ⊢
      cases hfind : l.find? (interrupts cur pd) with
      | some b =>
        have hlen : (l.eraseP (interrupts cur pd)).length = l.length - 1 :=
          List.length_eraseP_of_mem (List.mem_of_find?_eq_some hfind)
            (List.find?_eq_some.1 hfind).1
        have hpos : 0 < l.length := List.length_pos_of_mem (List.mem_of_find?_eq_some hfind)
        simp only [hfind] at hcount ⊢
        by_cases hlead : (b.startMinutes.sub cur).ge (JSNum.num 20) = true
        · simp only [hlead, if_true] at hcount ⊢
          have hc2 : (((scheduleLoop e pd n fuel b.endMinutes (pn + 1)
              (l.eraseP (interrupts cur pd))).filter ScheduleItem.isPeriod).length : Int) <
              n + 1 - (pn + 1) := by
            simp [List.filter_cons, ScheduleItem.isPeriod] at hcount
            omega
          right
          rcases ih b.endMinutes (pn + 1) (l.eraseP (interrupts cur pd)) (by omega) hc2 with
            ⟨h1, h2⟩ | ⟨last, h1, h2⟩
          · rw [h1]
            exact ⟨_, rfl, h2⟩
          · exact ⟨last, getLast?_cons_of_some _ _ _ (getLast?_cons_of_some _ _ _ h1), h2⟩
        · simp only [hlead, Bool.false_eq_true, if_false] at hcount ⊢
          have hc2 : (((scheduleLoop e pd n fuel b.endMinutes pn
              (l.eraseP (interrupts cur pd))).filter ScheduleItem.isPeriod).length : Int) <
              n + 1 - pn := by
            simp [List.filter_cons, ScheduleItem.isPeriod] at hcount
            omega
          right
          rcases ih b.endMinutes pn (l.eraseP (interrupts cur pd)) (by omega) hc2 with
            ⟨h1, h2⟩ | ⟨last, h1, h2⟩
          · rw [h1]
            exact ⟨_, rfl, h2⟩
          · exact ⟨last, getLast?_cons_of_some _ _ _ h1, h2⟩
      | none =>
        simp only [hfind] at hcount ⊢
        have hgt : ((cur.add (JSNum.num pd)).min e).gt cur = true := by
          obtain ⟨c, we, hc, hwe, hcw⟩ := JSNum.lt_iff.1 hlt
          subst hc hwe
          simp only [JSNum.add, JSNum.min, JSNum.gt, decide_eq_true_eq]
          exact lt_min (by omega) hcw
        simp only [hgt, if_true] at hcount ⊢
        have hc2 : (((scheduleLoop e pd n fuel ((cur.add (JSNum.num pd)).min e) (pn + 1)
            l).filter ScheduleItem.isPeriod).length : Int) < n + 1 - (pn + 1) := by
          simp [List.filter_cons, ScheduleItem.isPeriod] at hcount
          omega
        right
        rcases ih ((cur.add (JSNum.num pd)).min e) (pn + 1) l (by omega) hc2 with
          ⟨h1, h2⟩ | ⟨last, h1, h2⟩
        · rw [h1]
          exact ⟨_, rfl, h2⟩
        · exact ⟨last, getLast?_cons_of_some _ _ _ h1, h2⟩
    · left
      have hf2 : cur.lt e = false := by simpa using hlt
      rw [scheduleLoop_succ]
      simp [hf2]

theorem JSNum.lt_eq_false_iff {a b : JSNum} :
    a.lt b = false ↔ a.ge b = true ∨ a = JSNum.nan ∨ b = JSNum.nan := by
  cases a <;> cases b <;> simp [JSNum.lt, JSNum.ge]

/-- The claim C21 as stated fails on unparseable working hours: with start
time `abc`, a positive period duration and four periods asked for, no block is
emitted, yet `workStart >= workEnd` is false (`NaN >= 780`) and there is no
last block. -/
theorem calculateSchedule_shortfall_nan :
    0 < malformedStartSettings.periodDuration ∧
    (((calculateSchedule malformedStartSettings).filter ScheduleItem.isPeriod).length : Int) <
      malformedStartSettings.numberOfPeriods ∧
    ¬ ((calculateSchedule malformedStartSettings = [] ∧
          (parseTime malformedStartSettings.workingHours.startTime).ge
            (parseTime malformedStartSettings.workingHours.endTime) = true) ∨
        (∃ last, (calculateSchedule malformedStartSettings).getLast? = some last ∧
          last.endMinutes.ge (parseTime malformedStartSettings.workingHours.endTime) = true)) := by
  have hnil : calculateSchedule malformedStartSettings = [] := by decide
  refine ⟨by decide, by decide, ?_⟩
  rintro (⟨_, h⟩ | ⟨last, h, _⟩)
  · revert h; decide
  · rw [hnil] at h; simp at h

/-- Claim C21, as amended: for every settings with `periodDuration > 0`, if
fewer than `numberOfPeriods` Period blocks are emitted, then either the output
is empty and `workStart < workEnd` does not hold (`workStart >= workEnd`, or a
working hour does not parse), or the last emitted block does not end before
`workEnd` (it ends at or after `workEnd`, or it is a break whose end time does
not parse). -/
theorem calculateSchedule_shortfall (s : Settings) (hpd : 0 < s.periodDuration)
    (hshort : (((calculateSchedule s).filter ScheduleItem.isPeriod).length : Int) <
      s.numberOfPeriods) :
    (calculateSchedule s = [] ∧
      ((parseTime s.workingHours.startTime).ge (parseTime s.workingHours.endTime) = true ∨
        parseTime s.workingHours.startTime = JSNum.nan ∨
        parseTime s.workingHours.endTime = JSNum.nan)) ∨
    (∃ last, (calculateSchedule s).getLast? = some last ∧
      (last.endMinutes.ge (parseTime s.workingHours.endTime) = true ∨
        last.endMinutes = JSNum.nan)) := by
  have h := scheduleLoop_shortfall (parseTime s.workingHours.endTime) s.periodDuration
    s.numberOfPeriods hpd (loopFuel s.numberOfPeriods (enabledBreaksOf s))
    (parseTime s.workingHours.startTime) 1 (enabledBreaksOf s)
    (by simp only [loopFuel]; omega)
    (by simp only [calculateSchedule] at hshort; omega)
  rcases h with ⟨h1, h2⟩ | ⟨last, h1, h2⟩
  · exact Or.inl ⟨h1, JSNum.lt_eq_false_iff.1 h2⟩
  · refine Or.inr ⟨last, h1, ?_⟩
    rcases JSNum.lt_eq_false_iff.1 h2 with h | h | h
    · exact Or.inl h
    · exact Or.inr h
    · exfalso
      have hnil : calculateSchedule s = [] := by
        simp only [calculateSchedule]
        rw [h]
        exact scheduleLoop_nan_end _ _ _ _ _ _
      have h1c : (calculateSchedule s).getLast? = some last := h1
      rw [hnil] at h1c
      simp at h1c

/-- Claim C21, as amended, on settings asking for five periods where four fit:
the last block ends at `workEnd`. -/
theorem calculateSchedule_shortfall_witness :
    0 < sparePeriodSettings.periodDuration ∧
    (((calculateSchedule sparePeriodSettings).filter ScheduleItem.isPeriod).length : Int) <
      sparePeriodSettings.numberOfPeriods ∧
    ((calculateSchedule sparePeriodSettings = [] ∧
      ((parseTime sparePeriodSettings.workingHours.startTime).ge
          (parseTime sparePeriodSettings.workingHours.endTime) = true ∨
        parseTime sparePeriodSettings.workingHours.startTime = JSNum.nan ∨
        parseTime sparePeriodSettings.workingHours.endTime = JSNum.nan)) ∨
    (∃ last, (calculateSchedule sparePeriodSettings).getLast? = some last ∧
      (last.endMinutes.ge (parseTime sparePeriodSettings.workingHours.endTime) = true ∨
        last.endMinutes = JSNum.nan))) :=
  ⟨by decide, by decide, calculateSchedule_shortfall sparePeriodSettings (by decide) (by decide)⟩

/-! ## Which breaks are emitted: the break is reached -/

/-- A run that starts at or before the start of a pending break `t`, the
pending breaks being sorted, disjoint and with start < end, either emits the
Break block of `t`, or emits only blocks that end at or before the start of
`t` and, given enough fuel, has run out of period numbers: `numberOfPeriods`
is less than `periodNumber` plus the full periods that fit before `t` plus the
pending breaks that start before `t`. -/
theorem scheduleLoop_break_or_before (we pd n : Int) (hpd : 0 < pd) (t : EnabledBreak)
    (ts : Int) (hts : t.startMinutes = JSNum.num ts) (htwe : ts < we) :
    ∀ (fuel : Nat) (c pn : Int) (l : List EnabledBreak),
      l.Pairwise (fun a b => b.startMinutes.ge a.endMinutes = true) →
      (∀ b ∈ l, b.startMinutes.lt b.endMinutes = true) →
      t ∈ l → c ≤ ts →
      ScheduleItem.breakBlock t.name t.startMinutes t.endMinutes
          (t.endMinutes.sub t.startMinutes) ∈
          scheduleLoop (JSNum.num we) pd n fuel (JSNum.num c) pn l ∨
        ((∀ x ∈ scheduleLoop (JSNum.num we) pd n fuel (JSNum.num c) pn l,
            (JSNum.num ts).ge x.endMinutes = true) ∧
          (l.length + (n + 1 - pn).toNat < fuel →
            n < pn + (ts - c) / pd +
              (l.countP (fun x => x.startMinutes.lt (JSNum.num ts)) : Int))) := by
  intro fuel
  induction fuel with
  | zero =>
    intro c pn l _ _ _ _
    right
    exact ⟨by simp [scheduleLoop], fun h => by omega⟩
  | succ fuel ih =>
    intro c pn l hpw hwf ht hcts
    have hq : 0 ≤ (ts - c) / pd := Int.ediv_nonneg (by omega) (le_of_lt hpd)
    by_cases hpn : pn ≤ n
    · have hlt : (JSNum.num c).lt (JSNum.num we) = true := by
        simp only [JSNum.lt, decide_eq_true_eq]; omega
      rw [scheduleLoop_succ]
      simp only [hlt, hpn, decide_True, Bool.and_true, Bool.and_self, if_true]
      cases hfind : l.find? (interrupts (JSNum.num c) pd) with
      | some b =>
        obtain ⟨hpb, as, bs, hl, has⟩ := List.find?_eq_some.1 hfind
        have hnot : ∀ a ∈ as, ¬ interrupts (JSNum.num c) pd a = true := by
          intro a ha; simpa using has a ha
        have herase : l.eraseP (interrupts (JSNum.num c) pd) = as ++ bs := by
          rw [hl, List.eraseP_append_right _ hnot, List.eraseP_cons_of_pos hpb]
        simp only []
        by_cases htb : t = b
        · subst htb
          left
          split <;> simp
        · have hpw2 : (as ++ bs).Pairwise
              (fun a b => b.startMinutes.ge a.endMinutes = true) := by
            rw [hl] at hpw
            exact hpw.sublist (List.Sublist.append_left (List.sublist_cons_self b bs) as)
          have hwf2 : ∀ x ∈ as ++ bs, x.startMinutes.lt x.endMinutes = true := by
            intro x hx
            apply hwf x
            rw [hl]
            rcases List.mem_append.1 hx with hx | hx
            · exact List.mem_append_left _ hx
            · exact List.mem_append_right _ (List.mem_cons_of_mem _ hx)
          have hlen : (as ++ bs).length + 1 = l.length := by
            rw [hl]; simp only [List.length_append, List.length_cons]; omega
          have htmem : t ∈ as ∨ t ∈ bs := by
            rw [hl] at ht
            rcases List.mem_append.1 ht with h | h
            · exact Or.inl h
            · rcases List.mem_cons.1 h with h | h
              · exact absurd h htb
              · exact Or.inr h
          obtain ⟨sb, eb, hsb, heb, hsbeb⟩ :=
            JSNum.lt_iff.1 (hwf b (List.mem_of_find?_eq_some hfind))
          have hcb : c ≤ sb := by
            simp only [interrupts, hsb, JSNum.ge, JSNum.lt, JSNum.add, Bool.and_eq_true,
              decide_eq_true_eq] at hpb
            exact hpb.1
          have htbs : t ∈ bs ∧ eb ≤ ts := by
            rw [hl] at hpw
            rcases htmem with h | h
            · exfalso
              have hbef : b.startMinutes.ge t.endMinutes = true :=
                (List.pairwise_append.1 hpw).2.2 t h b (List.mem_cons_self _ _)
              have htwf := hwf t ht
              apply hnot t h
              obtain ⟨x1, y1, hx1, hy1, h1⟩ := JSNum.ge_iff.1 hbef
              obtain ⟨x2, y2, hx2, hy2, h2⟩ := JSNum.lt_iff.1 htwf
              rw [hts] at hx2
              injection hx2 with hx2
              rw [hy1] at hy2
              injection hy2 with hy2
              simp only [interrupts, hx1, JSNum.ge, JSNum.lt, JSNum.add, Bool.and_eq_true,
                decide_eq_true_eq] at hpb
              simp only [interrupts, hts, JSNum.ge, JSNum.lt, JSNum.add, Bool.and_eq_true,
                decide_eq_true_eq]
              omega
            · refine ⟨h, ?_⟩
              have := (List.pairwise_cons.1 (List.pairwise_append.1 hpw).2.1).1 t h
              simpa [hts, heb, JSNum.ge] using this
          have hcount : (l.countP (fun x => x.startMinutes.lt (JSNum.num ts)) : Int) =
              ((as ++ bs).countP (fun x => x.startMinutes.lt (JSNum.num ts)) : Int) + 1 := by
            have hbl : b.startMinutes.lt (JSNum.num ts) = true := by
              simp only [hsb, JSNum.lt, decide_eq_true_eq]; omega
            rw [hl]
            simp only [List.countP_append, List.countP_cons, hbl, if_true]
            push_cast
            ring
          have hdiv : (ts - eb) / pd ≤ (ts - c) / pd :=
            Int.ediv_le_ediv hpd (by omega)
          have hends : (JSNum.num ts).ge b.startMinutes = true ∧
              (JSNum.num ts).ge b.endMinutes = true := by
            simp only [hsb, heb, JSNum.ge, decide_eq_true_eq]
            constructor <;> omega
          rw [herase, heb]
          split
          · rcases ih eb (pn + 1) (as ++ bs) hpw2 hwf2
              (List.mem_append_right _ htbs.1) htbs.2 with h | ⟨h3, h4⟩
            · left
              exact List.mem_cons_of_mem _ (List.mem_cons_of_mem _ h)
            · right
              refine ⟨?_, fun hf => ?_⟩
              · intro x hx
                rcases List.mem_cons.1 hx with hx | hx
                · subst hx; exact hends.1
                · rcases List.mem_cons.1 hx with hx | hx
                  · subst hx; rw [← heb]; exact hends.2
                  · exact h3 x hx
              · have := h4 (by omega)
                omega
          · rcases ih eb pn (as ++ bs) hpw2 hwf2
              (List.mem_append_right _ htbs.1) htbs.2 with h | ⟨h3, h4⟩
            · left
              exact List.mem_cons_of_mem _ h
            · right
              refine ⟨?_, fun hf => ?_⟩
              · intro x hx
                rcases List.mem_cons.1 hx with hx | hx
                · subst hx; rw [← heb]; exact hends.2
                · exact h3 x hx
              · have := h4 (by omega)
                omega
      | none =>
        have hnp : ¬ interrupts (JSNum.num c) pd t = true := by
          have := List.find?_eq_none.1 hfind t ht
          simpa using this
        have hfar : c + pd ≤ ts := by
          simp only [interrupts, hts, JSNum.ge, JSNum.lt, JSNum.add, Bool.and_eq_true,
            decide_eq_true_eq] at hnp
          omega
        have hmin : min (c + pd) we = c + pd := min_eq_left (by omega)
        have hgt : c < c + pd := by omega
        simp only [JSNum.add, JSNum.min, JSNum.gt, hmin, hgt, decide_True, if_true]
        rcases ih (c + pd) (pn + 1) l hpw hwf ht hfar with h | ⟨h3, h4⟩
        · left
          exact List.mem_cons_of_mem _ h
        · right
          refine ⟨?_, fun hf => ?_⟩
          · intro x hx
            rcases List.mem_cons.1 hx with hx | hx
            · subst hx
              simp only [ScheduleItem.endMinutes, JSNum.ge, decide_eq_true_eq]
              exact hfar
            · exact h3 x hx
          · have := h4 (by omega)
            have hsh := floorDiv_shift (ts - c) pd hpd
            have e : ts - (c + pd) = ts - c - pd := by ring
            rw [e, hsh] at this
            omega
    · right
      have : scheduleLoop (JSNum.num we) pd n (fuel + 1) (JSNum.num c) pn l = [] := by
        rw [scheduleLoop_succ]; simp [hpn]
      rw [this]
      refine ⟨by simp, fun _ => ?_⟩
      have : (0 : Int) ≤ (l.countP (fun x => x.startMinutes.lt (JSNum.num ts)) : Int) :=
        Int.ofNat_nonneg _
      omega

/-- The number of pending breaks that start before minute `ts`, counted on the
settings. -/
theorem enabledBreaksOf_countP (s : Settings) (ts : Int) :
    (enabledBreaksOf s).countP (fun x => x.startMinutes.lt (JSNum.num ts)) =
      (s.breakTimes.filter
        (fun x => x.enabled && (parseTime x.startTime).lt (JSNum.num ts))).length := by
  simp only [enabledBreaksOf, sortBreaks]
  rw [(List.perm_insertionSort breakOrder _).countP_eq, List.countP_map,
    List.countP_eq_length_filter, List.filter_filter]
  congr 1
  apply List.filter_congr
  intro x _
  simp [toEnabledBreak, Bool.and_comm]

/-- Claim C7, as amended: for settings with `periodDuration > 0` whose enabled
breaks have start < end and do not overlap one another, an enabled break `b`
whose start lies in `[workStart, workEnd)` appears in the output as a Break
block with that break's name, start and end exactly when some emitted block
ends after the start of `b`, that is, unless the schedule stops at or before
it; this is the case as soon as `numberOfPeriods` exceeds
`floor((b.start - workStart) / periodDuration)` plus the number of enabled
breaks that start before `b`. -/
theorem calculateSchedule_breaks_emitted (s : Settings)
    (hpd : 0 < s.periodDuration)
    (hwf : ∀ b ∈ s.breakTimes, b.enabled = true →
      (parseTime b.startTime).lt (parseTime b.endTime) = true)
    (hdis : (s.breakTimes.filter (fun b => b.enabled)).Pairwise (fun a b =>
      (parseTime b.startTime).ge (parseTime a.endTime) = true ∨
        (parseTime a.startTime).ge (parseTime b.endTime) = true))
    (b : BreakTime) (hb : b ∈ s.breakTimes) (hen : b.enabled = true)
    (ws bs : Int)
    (hws : parseTime s.workingHours.startTime = JSNum.num ws)
    (hbs : parseTime b.startTime = JSNum.num bs)
    (h1 : ws ≤ bs)
    (h2 : (JSNum.num bs).lt (parseTime s.workingHours.endTime) = true) :
    (ScheduleItem.breakBlock b.name (parseTime b.startTime) (parseTime b.endTime)
        ((parseTime b.endTime).sub (parseTime b.startTime)) ∈ calculateSchedule s ↔
      ∃ x ∈ calculateSchedule s, x.endMinutes.gt (JSNum.num bs) = true) ∧
    ((bs - ws) / s.periodDuration +
        ((s.breakTimes.filter (fun x => x.enabled &&
          (parseTime x.startTime).lt (JSNum.num bs))).length : Int) < s.numberOfPeriods →
      ScheduleItem.breakBlock b.name (parseTime b.startTime) (parseTime b.endTime)
        ((parseTime b.endTime).sub (parseTime b.startTime)) ∈ calculateSchedule s) := by
  have hpw : (enabledBreaksOf s).Pairwise
      (fun x y => y.startMinutes.ge x.endMinutes = true) := by
    apply sortBreaks_pairwise_before
    · intro x hx
      obtain ⟨y, hy, rfl⟩ := List.mem_map.1 hx
      have hy2 := List.mem_filter.1 hy
      exact hwf y hy2.1 hy2.2
    · exact List.pairwise_map.2 hdis
  have hwf2 : ∀ x ∈ enabledBreaksOf s, x.startMinutes.lt x.endMinutes = true := by
    intro x hx
    obtain ⟨y, hy, hyen, rfl⟩ := (mem_enabledBreaksOf s x).1 hx
    exact hwf y hy hyen
  have htm : toEnabledBreak b ∈ enabledBreaksOf s :=
    (mem_enabledBreaksOf s _).2 ⟨b, hb, hen, rfl⟩
  obtain ⟨bs2, we, hbs2, hwe, hbswe⟩ := JSNum.lt_iff.1 h2
  injection hbs2 with hbs2
  subst hbs2
  have hmain := scheduleLoop_break_or_before we s.periodDuration s.numberOfPeriods hpd
    (toEnabledBreak b) bs hbs hbswe (loopFuel s.numberOfPeriods (enabledBreaksOf s)) ws 1
    (enabledBreaksOf s) hpw hwf2 htm h1
  have hcalc : calculateSchedule s =
      scheduleLoop (JSNum.num we) s.periodDuration s.numberOfPeriods
        (loopFuel s.numberOfPeriods (enabledBreaksOf s)) (JSNum.num ws) 1 (enabledBreaksOf s) := by
    simp only [calculateSchedule, hws, hwe]
  rw [← hcalc] at hmain
  have hblk : ScheduleItem.breakBlock (toEnabledBreak b).name (toEnabledBreak b).startMinutes
      (toEnabledBreak b).endMinutes
      ((toEnabledBreak b).endMinutes.sub (toEnabledBreak b).startMinutes) =
      ScheduleItem.breakBlock b.name (parseTime b.startTime) (parseTime b.endTime)
        ((parseTime b.endTime).sub (parseTime b.startTime)) := rfl
  rw [hblk] at hmain
  refine ⟨⟨fun hin => ?_, fun hex => ?_⟩, fun hcount => ?_⟩
  · refine ⟨_, hin, ?_⟩
    obtain ⟨x, y, hx, hy, hxy⟩ := JSNum.lt_iff.1 (hwf b hb hen)
    rw [hbs] at hx
    injection hx with hx
    subst hx
    simp only [ScheduleItem.endMinutes, hy, JSNum.gt, decide_eq_true_eq]
    exact hxy
  · rcases hmain with h | ⟨h, _⟩
    · exact h
    · exfalso
      obtain ⟨x, hx, hgt⟩ := hex
      have hge := h x hx
      cases hxe : x.endMinutes with
      | nan => rw [hxe] at hgt; simp [JSNum.gt] at hgt
      | num v =>
        rw [hxe] at hgt hge
        simp only [JSNum.gt, JSNum.ge, decide_eq_true_eq] at hgt hge
        omega
  · rcases hmain with h | ⟨_, h⟩
    · exact h
    · exfalso
      have := h (by simp only [loopFuel]; omega)
      rw [enabledBreaksOf_countP] at this
      omega

/-- Claim C7, as amended, on the worked example: the four requested periods
all fit, and the Lunch break at 11:00 AM is emitted. -/
theorem calculateSchedule_breaks_emitted_witness :
    0 < exampleSettings.periodDuration ∧
    lunchBreak ∈ exampleSettings.breakTimes ∧
    parseTime exampleSettings.workingHours.startTime = JSNum.num 540 ∧
    parseTime lunchBreak.startTime = JSNum.num 660 ∧
    (((calculateSchedule exampleSettings).filter ScheduleItem.isPeriod).length : Int) =
      exampleSettings.numberOfPeriods ∧
    ScheduleItem.breakBlock lunchBreak.name (parseTime lunchBreak.startTime)
        (parseTime lunchBreak.endTime)
        ((parseTime lunchBreak.endTime).sub (parseTime lunchBreak.startTime)) ∈
      calculateSchedule exampleSettings :=
  ⟨by decide, by decide, by decide, by decide, by decide,
    (calculateSchedule_breaks_emitted exampleSettings (by decide) (by decide) (by decide)
      lunchBreak (by decide) (by decide) 540 660 (by decide) (by decide) (by decide)
      (by decide)).2 (by decide)⟩

/-- Counterexample to claim C7 as stated: with one requested period, the loop
stops after Period 1 (9:00 AM-10:00 AM) and the enabled break at 12:00 PM,
whose start lies inside the window, is not emitted; and with four requested
periods, the enabled break Tea at 10:30 AM, which starts inside the break
Assembly (10:00 AM-11:00 AM), is not emitted either. -/
theorem calculateSchedule_break_dropped :
    parseTime lateBreakSettings.workingHours.startTime = JSNum.num 540 ∧
    parseTime lateBreakSettings.workingHours.endTime = JSNum.num 780 ∧
    0 < lateBreakSettings.periodDuration ∧ 1 ≤ lateBreakSettings.numberOfPeriods ∧
    lateBreakSettings.breakTimes =
      [{ name := "Lunch", startTime := "12:00 PM", endTime := "12:30 PM", enabled := true }] ∧
    parseTime "12:00 PM" = JSNum.num 720 ∧ (540 : Int) ≤ 720 ∧ (720 : Int) < 780 ∧
    calculateSchedule lateBreakSettings =
      [ScheduleItem.period 1 (JSNum.num 540) (JSNum.num 600) (JSNum.num 60)] ∧
    parseTime "10:30 AM" = JSNum.num 630 ∧
    calculateSchedule nestedBreakSettings =
      [ ScheduleItem.period 1 (JSNum.num 540) (JSNum.num 600) (JSNum.num 60),
        ScheduleItem.breakBlock "Assembly" (JSNum.num 600) (JSNum.num 660) (JSNum.num 60),
        ScheduleItem.period 2 (JSNum.num 660) (JSNum.num 720) (JSNum.num 60),
        ScheduleItem.period 3 (JSNum.num 720) (JSNum.num 780) (JSNum.num 60) ] := by
  decide

end TimetableView

/-! # Generation followed by retrieval -/

namespace TimetableController
open Server

/-- For a query value that is a raw id (not JSON carrying `_id`), a generation
answered with status 200 is followed by a `getTimetableByDepartment` with the
same value answering 200 with the timetable the generator returned. -/
theorem generate_then_get_raw (env : Env) (departmentId : String) (store : List TimetableDoc)
    (hraw : env.parsedId departmentId = none)
    (hok : (generateTimetableForDepartment env (some departmentId) store).1.status = 200) :
    ∃ doc t, env.generateTimetable departmentId = GeneratorOutcome.returned (some t) ∧
      doc.timetable = t ∧
      getTimetableByDepartment env (some departmentId)
          (generateTimetableForDepartment env (some departmentId) store).2 =
        { status := 200, success := true, data := some doc } := by
  have hact : actualDeptId env departmentId = departmentId := by
    simp only [actualDeptId, hraw]
  by_cases hq : departmentId = ""
  · simp only [generateTimetableForDepartment, hq, if_true] at hok; simp at hok
  · cases hgen : env.generateTimetable departmentId with
    | threw =>
      simp only [generateTimetableForDepartment, hq, if_false, hact, hgen] at hok; simp at hok
    | returned r =>
      cases r with
      | none =>
        simp only [generateTimetableForDepartment, hq, if_false, hact, hgen] at hok
        simp at hok
      | some t =>
        cases hcast : env.castObjectId departmentId with
        | none =>
          simp only [generateTimetableForDepartment, hq, if_false, hact, hgen, hcast] at hok
          simp at hok
        | some d =>
          cases hfind : store.find? (fun doc => doc.department == d) with
          | some old =>
            have hold : (old.department == d) = true := (List.find?_eq_some.1 hfind).1
            refine ⟨{ old with timetable := t }, t, rfl, rfl, ?_⟩
            simp only [generateTimetableForDepartment, hq, if_false, hact, hgen, hcast, hfind,
              getTimetableByDepartment]
            rw [updateFirst_find (fun x : TimetableDoc => x.department == d)
              (fun _ => { old with timetable := t }) store old hfind hold]
          | none =>
            by_cases hany : store.any (fun doc => doc._id == env.newId) = true
            · simp only [generateTimetableForDepartment, hq, if_false, hact, hgen, hcast, hfind,
                hany, if_true] at hok
              simp at hok
            · refine ⟨{ _id := env.newId, department := d, timetable := t }, t, rfl, rfl, ?_⟩
              simp only [generateTimetableForDepartment, hq, if_false, hact, hgen, hcast, hfind,
                hany, getTimetableByDepartment]
              simp [List.find?_append, hfind]

/-- Claim C24 fails for a serialized object: for the query value
`{"_id":"64b7f0c2a1b2c3d4e5f60718"}` generation extracts the `_id`, stores the
timetable and answers 200, while `getTimetableByDepartment` with the same
value hands the whole text to `findOne`, the ObjectId cast fails and the answer
is 500; the raw id does retrieve the stored timetable. -/
theorem generate_then_get_serialized :
    serializedEnv.parsedId serializedDepartment = some csDepartmentId ∧
    generateTimetableForDepartment serializedEnv (some serializedDepartment) [] =
      ({ status := 200, success := true,
         data := some { _id := "64b7f0c2a1b2c3d4e5f60799", department := csDepartmentId,
                        timetable := exampleTimetable } },
        [{ _id := "64b7f0c2a1b2c3d4e5f60799", department := csDepartmentId,
           timetable := exampleTimetable }]) ∧
    getTimetableByDepartment serializedEnv (some serializedDepartment)
        (generateTimetableForDepartment serializedEnv (some serializedDepartment) []).2 =
      { status := 500, success := false, data := none } ∧
    getTimetableByDepartment serializedEnv (some csDepartmentId)
        (generateTimetableForDepartment serializedEnv (some serializedDepartment) []).2 =
      { status := 200, success := true,
        data := some { _id := "64b7f0c2a1b2c3d4e5f60799", department := csDepartmentId,
                       timetable := exampleTimetable } } := by
  decide

end TimetableController

/-! # Properties of the availability grid -/

namespace FacultyManagement
open Server TimetableView

/-! ## From the selection map to the availability -/

/-- The members of `[1..n]`. -/
theorem mem_periodsUpTo (n : Nat) (p : Int) : p ∈ periodsUpTo n ↔ 1 ≤ p ∧ p ≤ n := by
  simp only [periodsUpTo, List.mem_map, List.mem_range]
  constructor
  · rintro ⟨i, hi, rfl⟩; omega
  · rintro ⟨h1, h2⟩
    exact ⟨(p - 1).toNat, by omega, by omega⟩

/-- The list `[1..n]` is strictly ascending. -/
theorem periodsUpTo_sorted (n : Nat) : (periodsUpTo n).Pairwise (· < ·) := by
  simp only [periodsUpTo, List.pairwise_map]
  exact (List.pairwise_lt_range n).imp (by intro a b h; omega)

theorem DAYS_nodup : DAYS.Nodup := by decide

/-- The entry `convertSlotsToAvailability` computes for one day. -/
theorem mem_convertSlotsToAvailability (periods : List Int) (selectedSlots : SlotMap)
    (e : AvailabilityEntry) :
    e ∈ convertSlotsToAvailability periods selectedSlots ↔
      e.day ∈ DAYS ∧ e.periods ≠ [] ∧
      e.periods = periods.filter (fun period => selectedSlots (slotKey e.day period)) := by
  simp only [convertSlotsToAvailability, List.mem_filterMap]
  constructor
  · rintro ⟨d, hd, hf⟩
    by_cases hlen : (periods.filter (fun period => selectedSlots (slotKey d period))).length > 0
    · rw [if_pos hlen] at hf
      cases hf
      exact ⟨hd, List.ne_nil_of_length_pos hlen, rfl⟩
    · rw [if_neg hlen] at hf
      cases hf
  · rintro ⟨hd, hne, hp⟩
    refine ⟨e.day, hd, ?_⟩
    have hlen : (periods.filter (fun period => selectedSlots (slotKey e.day period))).length > 0 := by
      rw [← hp]; exact List.length_pos.2 hne
    rw [if_pos hlen, ← hp]

/-- The days of the result are a subsequence of `DAYS`. -/
theorem convertSlotsToAvailability_days (periods : List Int) (selectedSlots : SlotMap) :
    ((convertSlotsToAvailability periods selectedSlots).map AvailabilityEntry.day).Sublist
      DAYS := by
  simp only [convertSlotsToAvailability]
  generalize DAYS = ds
  induction ds with
  | nil => simp
  | cons d ds ih =>
    rw [List.filterMap_cons]
    by_cases hlen : (periods.filter (fun period => selectedSlots (slotKey d period))).length > 0
    · simp only [hlen, if_true, List.map_cons]
      exact ih.cons₂ d
    · simp only [hlen, if_false]
      exact ih.cons d

/-- The claim C22 as stated fails for a key outside the grid: with five periods
and a selection map truthy at `Monday-9`, the pair `(Monday, 9)` does not occur
in the result, which is empty. -/
theorem convertSlotsToAvailability_stale_key :
    staleSlots (slotKey "Monday" 9) = true ∧
    convertSlotsToAvailability (periodsUpTo 5) staleSlots = [] ∧
    ¬ ((∃ e ∈ convertSlotsToAvailability (periodsUpTo 5) staleSlots,
          e.day = "Monday" ∧ (9 : Int) ∈ e.periods) ↔
        staleSlots (slotKey "Monday" 9) = true) := by
  have hnil : convertSlotsToAvailability (periodsUpTo 5) staleSlots = [] := by decide
  refine ⟨by decide, hnil, ?_⟩
  rw [hnil]
  intro h
  obtain ⟨e, he, _⟩ := h.2 (by decide)
  simp at he

/-- Claim C22, as amended: for every selection map and `periods = [1..n]`, the
result of `convertSlotsToAvailability` lists days without repetition in
Monday-to-Friday order, every entry has a non-empty, strictly ascending
periods list with all values in `[1, n]`, a pair `(day, p)` occurs in the result
exactly when `day` is one of `DAYS`, `1 ≤ p ≤ n` and the selection map is
truthy at the key of `(day, p)`, and each pair occurs at most once. -/
theorem convertSlotsToAvailability_wellFormed (n : Nat) (selectedSlots : SlotMap) :
    ((convertSlotsToAvailability (periodsUpTo n) selectedSlots).map
        AvailabilityEntry.day).Sublist DAYS ∧
    ((convertSlotsToAvailability (periodsUpTo n) selectedSlots).map
        AvailabilityEntry.day).Nodup ∧
    (∀ e ∈ convertSlotsToAvailability (periodsUpTo n) selectedSlots,
      e.periods ≠ [] ∧ e.periods.Pairwise (· < ·) ∧ ∀ p ∈ e.periods, 1 ≤ p ∧ p ≤ (n : Int)) ∧
    (∀ (day : String) (p : Int),
      (∃ e ∈ convertSlotsToAvailability (periodsUpTo n) selectedSlots,
          e.day = day ∧ p ∈ e.periods) ↔
        day ∈ DAYS ∧ 1 ≤ p ∧ p ≤ (n : Int) ∧ selectedSlots (slotKey day p) = true) ∧
    (slotPairs (convertSlotsToAvailability (periodsUpTo n) selectedSlots)).Nodup := by
  have hsub := convertSlotsToAvailability_days (periodsUpTo n) selectedSlots
  have hnd : ((convertSlotsToAvailability (periodsUpTo n) selectedSlots).map
      AvailabilityEntry.day).Nodup := hsub.nodup DAYS_nodup
  have hent : ∀ e ∈ convertSlotsToAvailability (periodsUpTo n) selectedSlots,
      e.periods ≠ [] ∧ e.periods.Pairwise (· < ·) ∧
        ∀ p ∈ e.periods, 1 ≤ p ∧ p ≤ (n : Int) := by
    intro e he
    obtain ⟨_, hne, hp⟩ := (mem_convertSlotsToAvailability _ _ e).1 he
    refine ⟨hne, ?_, ?_⟩
    · rw [hp]; exact (periodsUpTo_sorted n).sublist (List.filter_sublist _)
    · intro p hpm
      rw [hp] at hpm
      exact (mem_periodsUpTo n p).1 (List.mem_of_mem_filter hpm)
  refine ⟨hsub, hnd, hent, ?_, ?_⟩
  · intro day p
    constructor
    · rintro ⟨e, he, rfl, hp⟩
      obtain ⟨hd, _, hpe⟩ := (mem_convertSlotsToAvailability _ _ e).1 he
      rw [hpe, List.mem_filter] at hp
      obtain ⟨h1, h2⟩ := (mem_periodsUpTo n p).1 hp.1
      exact ⟨hd, h1, h2, hp.2⟩
    · rintro ⟨hd, h1, h2, hsel⟩
      have hmem : p ∈ (periodsUpTo n).filter (fun period => selectedSlots (slotKey day period)) :=
        List.mem_filter.2 ⟨(mem_periodsUpTo n p).2 ⟨h1, h2⟩, hsel⟩
      exact ⟨AvailabilityEntry.mk day
        ((periodsUpTo n).filter (fun period => selectedSlots (slotKey day period))),
        (mem_convertSlotsToAvailability _ _ _).2 ⟨hd, List.ne_nil_of_mem hmem, rfl⟩, rfl, hmem⟩
  · simp only [slotPairs]
    rw [List.nodup_flatMap]
    constructor
    · intro e he
      have hlt := (hent e he).2.1
      have hnodup : e.periods.Nodup := hlt.imp (fun h => ne_of_lt h)
      exact hnodup.map (fun a b h => by simpa using h)
    · have hpw := List.pairwise_map.1 hnd
      refine hpw.imp ?_
      intro a b hab
      simp only [Function.onFun, List.disjoint_left, List.mem_map]
      rintro ⟨d, p⟩ ⟨q, _, hq⟩ ⟨q2, _, hq2⟩
      simp only [Prod.mk.injEq] at hq hq2
      exact hab (hq.1.trans hq2.1.symm)

/-! ## Keys of the selection map -/

theorem digitValue_digitChar : ∀ d < 10, digitValue (Nat.digitChar d) = some d := by
  decide

/-- Reading the digits `Nat.toDigitsCore` puts in front of `ds` appends the
number to the accumulator. -/
theorem digitsValue_toDigitsCore :
    ∀ (fuel n : Nat) (ds : List Char), n < fuel →
      ∃ k : Nat, ∀ acc : Nat,
        digitsValue acc (Nat.toDigitsCore 10 fuel n ds) = digitsValue (acc * 10 ^ k + n) ds := by
  intro fuel
  induction fuel with
  | zero => intro n ds h; omega
  | succ fuel ih =>
    intro n ds h
    have hd := digitValue_digitChar (n % 10) (Nat.mod_lt _ (by decide))
    by_cases h0 : n / 10 = 0
    · refine ⟨1, fun acc => ?_⟩
      simp only [Nat.toDigitsCore, h0, if_true, digitsValue, hd]
      congr 1
      omega
    · obtain ⟨k, hk⟩ := ih (n / 10) (Nat.digitChar (n % 10) :: ds) (by omega)
      refine ⟨k + 1, fun acc => ?_⟩
      simp only [Nat.toDigitsCore, h0, if_false]
      rw [hk]
      simp only [digitsValue, hd]
      congr 1
      rw [pow_succ]
      have := Nat.div_add_mod n 10
      nlinarith

/-- The decimal rendering of a natural number reads back as the number. -/
theorem digitsValue_repr (n : Nat) : digitsValue 0 (Nat.repr n).data = some n := by
  obtain ⟨k, hk⟩ := digitsValue_toDigitsCore (n + 1) n [] (by omega)
  have := hk 0
  simp only [digitsValue, Nat.zero_mul, Nat.zero_add] at this
  simpa [Nat.repr, Nat.toDigits, List.asString] using this

/-- Two positive integers with the same decimal rendering are equal. -/
theorem toString_int_injective (p q : Int) (hp : 1 ≤ p) (hq : 1 ≤ q)
    (h : toString p = toString q) : p = q := by
  obtain ⟨a, rfl⟩ := Int.eq_ofNat_of_zero_le (by omega : 0 ≤ p)
  obtain ⟨b, rfl⟩ := Int.eq_ofNat_of_zero_le (by omega : 0 ≤ q)
  have h2 : Nat.repr a = Nat.repr b := h
  have ha := digitsValue_repr a
  rw [h2, digitsValue_repr b] at ha
  cases ha
  rfl

/-! ## Restoring the selection map -/

theorem DAYS_length : ∀ d ∈ DAYS, 2 ≤ d.data.length := by decide

theorem DAYS_take_injective :
    ∀ d ∈ DAYS, ∀ d2 ∈ DAYS, d.data.take 2 = d2.data.take 2 → d = d2 := by
  decide

theorem slotKey_data (day : String) (period : Int) :
    (slotKey day period).data = day.data ++ ('-' :: (toString period).data) := by
  simp [slotKey, String.data_append]

/-- The keys of two slots of the grid are equal only when the slots are. -/
theorem slotKey_injective (d d2 : String) (p q : Int) (hd : d ∈ DAYS) (hd2 : d2 ∈ DAYS)
    (hp : 1 ≤ p) (hq : 1 ≤ q) (h : slotKey d p = slotKey d2 q) : d = d2 ∧ p = q := by
  have hdata : d.data ++ ('-' :: (toString p).data) = d2.data ++ ('-' :: (toString q).data) := by
    rw [← slotKey_data, ← slotKey_data, h]
  have htake := congrArg (List.take 2) hdata
  rw [List.take_append_of_le_length (DAYS_length d hd),
    List.take_append_of_le_length (DAYS_length d2 hd2)] at htake
  have hdd := DAYS_take_injective d hd d2 hd2 htake
  subst hdd
  have h3 := List.append_cancel_left hdata
  simp only [List.cons.injEq, true_and] at h3
  exact ⟨rfl, toString_int_injective p q hp hq (String.ext h3)⟩

theorem foldl_setSlot (day : String) (ps : List Int) :
    ∀ (init : SlotMap) (k : String),
      (ps.foldl (fun slots period => setSlot slots (slotKey day period)) init) k = true ↔
        init k = true ∨ ∃ p ∈ ps, slotKey day p = k := by
  induction ps with
  | nil => intro init k; simp
  | cons p ps ih =>
    intro init k
    rw [List.foldl_cons, ih]
    simp only [setSlot, List.mem_cons, exists_eq_or_imp]
    by_cases hk : k = slotKey day p
    · simp [hk]
    · have hk2 : ¬ slotKey day p = k := fun h => hk h.symm
      simp [hk, hk2]

theorem foldl_restore (a : List AvailabilityEntry) :
    ∀ (init : SlotMap) (k : String),
      (a.foldl (fun slots avail =>
          avail.periods.foldl (fun slots period => setSlot slots (slotKey avail.day period))
            slots) init) k = true ↔
        init k = true ∨ ∃ e ∈ a, ∃ p ∈ e.periods, slotKey e.day p = k := by
  induction a with
  | nil => intro init k; simp
  | cons e a ih =>
    intro init k
    rw [List.foldl_cons, ih, foldl_setSlot]
    simp only [List.mem_cons, exists_eq_or_imp]
    exact or_assoc

/-- The keys `handleEdit` sets: those of the pairs of the availability. -/
theorem restoreSlots_eq_true (a : List AvailabilityEntry) (k : String) :
    restoreSlots a k = true ↔ ∃ e ∈ a, ∃ p ∈ e.periods, slotKey e.day p = k := by
  simp only [restoreSlots]
  rw [foldl_restore]
  simp [emptySlots]

/-- Filtering `[1..n]` by membership in a strictly ascending list of values of
`[1, n]` gives the list back. -/
theorem filter_periodsUpTo (n : Nat) (l : List Int) (f : Int → Bool)
    (hsorted : l.Pairwise (· < ·)) (hrange : ∀ p ∈ l, 1 ≤ p ∧ p ≤ (n : Int))
    (hf : ∀ p ∈ periodsUpTo n, f p = true ↔ p ∈ l) :
    (periodsUpTo n).filter f = l := by
  apply List.eq_of_perm_of_sorted (r := (· < ·))
  · rw [List.perm_ext_iff_of_nodup]
    · intro p
      rw [List.mem_filter]
      constructor
      · rintro ⟨h1, h2⟩; exact (hf p h1).1 h2
      · intro h
        have hm := (mem_periodsUpTo n p).2 (hrange p h)
        exact ⟨hm, (hf p hm).2 h⟩
    · exact ((periodsUpTo_sorted n).sublist (List.filter_sublist _)).imp (fun h => ne_of_lt h)
    · exact hsorted.imp (fun h => ne_of_lt h)
  · exact (periodsUpTo_sorted n).sublist (List.filter_sublist _)
  · exact hsorted

/-- A `filterMap` over a list of distinct days that answers each entry of `a`
on its day and nothing on the other days gives `a`. -/
theorem filterMap_days (f : String → Option AvailabilityEntry) :
    ∀ (ds : List String) (a : List AvailabilityEntry), ds.Nodup →
      (a.map AvailabilityEntry.day).Sublist ds →
      (∀ e ∈ a, f e.day = some e) →
      (∀ d ∈ ds, d ∉ a.map AvailabilityEntry.day → f d = none) →
      ds.filterMap f = a := by
  intro ds
  induction ds with
  | nil =>
    intro a _ hsub _ _
    have : a.map AvailabilityEntry.day = [] := List.eq_nil_of_sublist_nil hsub
    simp only [List.map_eq_nil_iff] at this
    simp [this]
  | cons d ds ih =>
    intro a hnd hsub hsome hnone
    have hnd2 := List.nodup_cons.1 hnd
    by_cases hmem : d ∈ a.map AvailabilityEntry.day
    · cases a with
      | nil => simp at hmem
      | cons e a =>
        rw [List.map_cons] at hsub hmem
        have hed : e.day = d := by
          cases hsub with
          | cons _ h => exact absurd (h.subset hmem) hnd2.1
          | cons₂ _ h => rfl
        rw [hed] at hsub
        have hsub2 : (a.map AvailabilityEntry.day).Sublist ds := List.Sublist.of_cons_cons hsub
        have hfd : f d = some e := by rw [← hed]; exact hsome e (List.mem_cons_self _ _)
        rw [List.filterMap_cons, hfd]
        show e :: List.filterMap f ds = e :: a
        congr 1
        apply ih a hnd2.2 hsub2
        · intro e2 he2; exact hsome e2 (List.mem_cons_of_mem _ he2)
        · intro d2 hd2 hnot
          apply hnone d2 (List.mem_cons_of_mem _ hd2)
          rw [List.map_cons, List.mem_cons]
          rintro (h | h)
          · exact hnd2.1 (by rw [← hed, ← h]; exact hd2)
          · exact hnot h
    · have hsub2 : (a.map AvailabilityEntry.day).Sublist ds := by
        rcases List.sublist_cons_iff.1 hsub with h | ⟨r, hr, _⟩
        · exact h
        · exact absurd (by rw [hr]; exact List.mem_cons_self _ _) hmem
      rw [List.filterMap_cons, hnone d (List.mem_cons_self _ _) hmem]
      apply ih a hnd2.2 hsub2 hsome
      intro d2 hd2 hnot
      exact hnone d2 (List.mem_cons_of_mem _ hd2) hnot

/-- Claim C23: for every availability `a` whose days are distinct weekdays in
Monday-to-Friday order and whose periods lists are non-empty, strictly
ascending and within `[1, n]`, the slot map `handleEdit` builds from `a`,
given to `convertSlotsToAvailability` with `periods = [1..n]`, yields `a`. -/
theorem restore_then_convert (n : Nat) (a : List AvailabilityEntry)
    (hdays : (a.map AvailabilityEntry.day).Sublist DAYS)
    (hperiods : ∀ e ∈ a, e.periods ≠ [] ∧ e.periods.Pairwise (· < ·) ∧
      ∀ p ∈ e.periods, 1 ≤ p ∧ p ≤ (n : Int)) :
    convertSlotsToAvailability (periodsUpTo n) (restoreSlots a) = a := by
  have hnd : (a.map AvailabilityEntry.day).Nodup := hdays.nodup DAYS_nodup
  have hinj : ∀ e ∈ a, ∀ e2 ∈ a, e.day = e2.day → e = e2 :=
    fun e he e2 he2 h => List.inj_on_of_nodup_map hnd he he2 h
  have hday : ∀ e ∈ a, e.day ∈ DAYS :=
    fun e he => hdays.subset (List.mem_map_of_mem _ he)
  simp only [convertSlotsToAvailability]
  apply filterMap_days _ DAYS a DAYS_nodup hdays
  · intro e he
    have hfil : (periodsUpTo n).filter (fun period => restoreSlots a (slotKey e.day period)) =
        e.periods := by
      apply filter_periodsUpTo n e.periods _ (hperiods e he).2.1 (hperiods e he).2.2
      intro p hp
      rw [restoreSlots_eq_true]
      constructor
      · rintro ⟨e2, he2, q, hq, hkey⟩
        obtain ⟨hd, hpq⟩ := slotKey_injective e2.day e.day q p (hday e2 he2) (hday e he)
          ((hperiods e2 he2).2.2 q hq).1 ((mem_periodsUpTo n p).1 hp).1 hkey
        have hee := hinj e2 he2 e he hd
        rw [← hee, ← hpq]
        exact hq
      · intro hpe
        exact ⟨e, he, p, hpe, rfl⟩
    have hlen : e.periods.length > 0 := List.length_pos.2 (hperiods e he).1
    simp only [hfil]
    rw [if_pos hlen]
  · intro d hd hnot
    have hfil : (periodsUpTo n).filter (fun period => restoreSlots a (slotKey d period)) = [] := by
      rw [List.filter_eq_nil_iff]
      intro p hp hsel
      obtain ⟨e2, he2, q, hq, hkey⟩ := (restoreSlots_eq_true a _).1 hsel
      obtain ⟨hd2, _⟩ := slotKey_injective e2.day d q p (hday e2 he2) hd
        ((hperiods e2 he2).2.2 q hq).1 ((mem_periodsUpTo n p).1 hp).1 hkey
      exact hnot (by rw [← hd2]; exact List.mem_map_of_mem _ he2)
    simp [hfil]

/-- Claim C23 on an availability on Monday and Wednesday, with five periods. -/
theorem restore_then_convert_witness :
    (exampleAvailability.map AvailabilityEntry.day).Sublist DAYS ∧
    (∀ e ∈ exampleAvailability, e.periods ≠ [] ∧ e.periods.Pairwise (· < ·) ∧
      ∀ p ∈ e.periods, 1 ≤ p ∧ p ≤ ((5 : Nat) : Int)) ∧
    convertSlotsToAvailability (periodsUpTo 5) (restoreSlots exampleAvailability) =
      exampleAvailability :=
  ⟨by decide, by decide, restore_then_convert 5 exampleAvailability (by decide) (by decide)⟩

end FacultyManagement
